import Mathlib

/-! A verification development for `server.js`.

`server.js` is an Express application: an in-memory list of product records
(`products`), an API-key middleware (`authenticate`) and eight route handlers.

The embedding is shallow.  JavaScript values are the inductive type `JVal`,
a record is the list of its own properties in insertion order (`Obj`), the
mutable variable `products` is threaded through the handlers as a value of
type `Products`, and every handler is a function from the store and the
request to a response together with the store it leaves behind.

What the embedding leaves out, everywhere:
* a number of the JSON data is an integer, `num n` standing for the Number
  (the double) nearest to `n`; the Numbers that `parseInt` and the
  arithmetic of the list handler produce are modelled with their rounding,
  `Infinity` and `NaN` (`JNum`);
* a list stands for an array, so its length is below `2^32`;
* the enumeration order of properties is insertion order (JavaScript lists
  integer-like keys first); no lookup depends on it;
* strings are sequences of Unicode scalar values;
* the request has already passed `bodyParser.json()`, so `req.body` is an
  object or an array, and a request whose body is not JSON never reaches a
  handler;
* the handlers are stated on a route and a request (`handle`); the choice of
  the route from method and path (`matchRoute`) follows Express with its
  default settings, on paths given as segments without percent escapes.
-/

namespace Server

/-! ## JavaScript values -/

/-- JavaScript values that the program can hold: the JSON values and `undefined`.  The value
`num n` is the Number nearest to the integer `n`. -/
inductive JVal where
  | undefined
  | null
  | bool (b : Bool)
  | num (n : Int)
  | str (s : String)
  | arr (xs : List JVal)
  | obj (fs : List (String × JVal))
  deriving Inhabited, Repr

/-- An object as the list of its own enumerable properties, in insertion order. -/
abbrev Obj := List (String × JVal)

/-- The value of the variable `products` (line 32): a list of records. -/
abbrev Products := List Obj

mutual
/-- Structural equality of values is decidable. -/
def JVal.decEq : (a b : JVal) → Decidable (a = b)
  | .undefined, .undefined => isTrue rfl
  | .null, .null => isTrue rfl
  | .bool a, .bool b =>
    if h : a = b then isTrue (by rw [h]) else isFalse (by intro e; cases e; exact h rfl)
  | .num a, .num b =>
    if h : a = b then isTrue (by rw [h]) else isFalse (by intro e; cases e; exact h rfl)
  | .str a, .str b =>
    if h : a = b then isTrue (by rw [h]) else isFalse (by intro e; cases e; exact h rfl)
  | .arr a, .arr b =>
    match JVal.decEqList a b with
    | isTrue h => isTrue (by rw [h])
    | isFalse h => isFalse (by intro e; cases e; exact h rfl)
  | .obj a, .obj b =>
    match JVal.decEqFields a b with
    | isTrue h => isTrue (by rw [h])
    | isFalse h => isFalse (by intro e; cases e; exact h rfl)
  | .undefined, .null => isFalse (by intro e; cases e)
  | .undefined, .bool _ => isFalse (by intro e; cases e)
  | .undefined, .num _ => isFalse (by intro e; cases e)
  | .undefined, .str _ => isFalse (by intro e; cases e)
  | .undefined, .arr _ => isFalse (by intro e; cases e)
  | .undefined, .obj _ => isFalse (by intro e; cases e)
  | .null, .undefined => isFalse (by intro e; cases e)
  | .null, .bool _ => isFalse (by intro e; cases e)
  | .null, .num _ => isFalse (by intro e; cases e)
  | .null, .str _ => isFalse (by intro e; cases e)
  | .null, .arr _ => isFalse (by intro e; cases e)
  | .null, .obj _ => isFalse (by intro e; cases e)
  | .bool _, .undefined => isFalse (by intro e; cases e)
  | .bool _, .null => isFalse (by intro e; cases e)
  | .bool _, .num _ => isFalse (by intro e; cases e)
  | .bool _, .str _ => isFalse (by intro e; cases e)
  | .bool _, .arr _ => isFalse (by intro e; cases e)
  | .bool _, .obj _ => isFalse (by intro e; cases e)
  | .num _, .undefined => isFalse (by intro e; cases e)
  | .num _, .null => isFalse (by intro e; cases e)
  | .num _, .bool _ => isFalse (by intro e; cases e)
  | .num _, .str _ => isFalse (by intro e; cases e)
  | .num _, .arr _ => isFalse (by intro e; cases e)
  | .num _, .obj _ => isFalse (by intro e; cases e)
  | .str _, .undefined => isFalse (by intro e; cases e)
  | .str _, .null => isFalse (by intro e; cases e)
  | .str _, .bool _ => isFalse (by intro e; cases e)
  | .str _, .num _ => isFalse (by intro e; cases e)
  | .str _, .arr _ => isFalse (by intro e; cases e)
  | .str _, .obj _ => isFalse (by intro e; cases e)
  | .arr _, .undefined => isFalse (by intro e; cases e)
  | .arr _, .null => isFalse (by intro e; cases e)
  | .arr _, .bool _ => isFalse (by intro e; cases e)
  | .arr _, .num _ => isFalse (by intro e; cases e)
  | .arr _, .str _ => isFalse (by intro e; cases e)
  | .arr _, .obj _ => isFalse (by intro e; cases e)
  | .obj _, .undefined => isFalse (by intro e; cases e)
  | .obj _, .null => isFalse (by intro e; cases e)
  | .obj _, .bool _ => isFalse (by intro e; cases e)
  | .obj _, .num _ => isFalse (by intro e; cases e)
  | .obj _, .str _ => isFalse (by intro e; cases e)
  | .obj _, .arr _ => isFalse (by intro e; cases e)
termination_by structural a => a
/-- Structural equality of lists of values is decidable. -/
def JVal.decEqList : (a b : List JVal) → Decidable (a = b)
  | [], [] => isTrue rfl
  | [], _ :: _ => isFalse (by intro e; cases e)
  | _ :: _, [] => isFalse (by intro e; cases e)
  | x :: xs, y :: ys =>
    match JVal.decEq x y, JVal.decEqList xs ys with
    | isTrue h1, isTrue h2 => isTrue (by rw [h1, h2])
    | isFalse h1, _ => isFalse (by intro e; cases e; exact h1 rfl)
    | _, isFalse h2 => isFalse (by intro e; cases e; exact h2 rfl)
termination_by structural a => a
/-- Structural equality of property lists is decidable. -/
def JVal.decEqFields : (a b : List (String × JVal)) → Decidable (a = b)
  | [], [] => isTrue rfl
  | [], _ :: _ => isFalse (by intro e; cases e)
  | _ :: _, [] => isFalse (by intro e; cases e)
  | (k, x) :: xs, (l, y) :: ys =>
    if hk : k = l then
      match JVal.decEq x y, JVal.decEqFields xs ys with
      | isTrue h1, isTrue h2 => isTrue (by rw [hk, h1, h2])
      | isFalse h1, _ => isFalse (by intro e; cases e; exact h1 rfl)
      | _, isFalse h2 => isFalse (by intro e; cases e; exact h2 rfl)
    else isFalse (by intro e; cases e; exact hk rfl)
termination_by structural a => a
end

instance : DecidableEq JVal := JVal.decEq

/-! ## Numbers -/

/-- A Number as the list handler computes with it: `NaN`, an infinity, or a finite Number
whose value is an integer (the two zeros are not told apart; nothing in the program does). -/
inductive JNum where
  | nan
  | inf (negative : Bool)
  | fin (n : Int)
  deriving Inhabited, Repr, DecidableEq

/-- Halving of `n` until it has at most 53 bits: the remaining bits, the number of halvings,
the last bit dropped and whether any bit dropped before it was set.  The first argument bounds
the number of steps. -/
def shrink : Nat → Nat → Bool → Bool → Nat × Nat × Bool × Bool
  | 0, n, half, sticky => (n, 0, half, sticky)
  | fuel + 1, n, half, sticky =>
    if n < 2 ^ 53 then (n, 0, half, sticky)
    else
      match shrink fuel (n / 2) (n % 2 == 1) (sticky || half) with
      | (q, e, h, s) => (q, e + 1, h, s)

/-- The natural number with at most 53 significant bits that is nearest to `n`, ties going to
the even mantissa: the value of the double for `n`, as long as that is finite. -/
def roundNat (n : Nat) : Nat :=
  match shrink n n false false with
  | (q, e, h, s) => (if h && (s || q % 2 == 1) then q + 1 else q) * 2 ^ e

/-- The least natural number whose double is `Infinity`: `2^1024 - 2^970`, half a unit in the
last place above the largest finite double. -/
def overflowThreshold : Nat :=
  179769313486231580793728971405303415079934132710037826936173778980444968292764750946649017977587207096330286416692887910946555547851940402630657488671505820681908902000708383676273854845817711531764475730270069855571366959622842914819860834936475292719074168444365510704342711559699508093042880177904174497792

/-- The Number for a mathematical integer (round to nearest, ties to even). -/
def toNumber (z : Int) : JNum :=
  if overflowThreshold ≤ z.natAbs then .inf (decide (z < 0))
  else if z < 0 then .fin (-(roundNat z.natAbs : Int)) else .fin (roundNat z.natAbs)

/-- The subtraction `a - b` of Numbers. -/
def numSub : JNum → JNum → JNum
  | .fin a, .fin b => toNumber (a - b)
  | .nan, _ => .nan
  | _, .nan => .nan
  | .inf s, .fin _ => .inf s
  | .fin _, .inf s => .inf (!s)
  | .inf s, .inf t => if s = t then .nan else .inf s

/-- The product `a * b` of Numbers; zero times an infinity is `NaN`. -/
def numMul : JNum → JNum → JNum
  | .fin a, .fin b => toNumber (a * b)
  | .nan, _ => .nan
  | _, .nan => .nan
  | .inf s, .fin b => if b = 0 then .nan else .inf (xor s (decide (b < 0)))
  | .fin a, .inf s => if a = 0 then .nan else .inf (xor s (decide (a < 0)))
  | .inf s, .inf t => .inf (xor s t)

/-- The sum `a + b` of Numbers; adding zero gives the other operand as it is. -/
def numAdd : JNum → JNum → JNum
  | .fin a, .fin b => if a = 0 then .fin b else if b = 0 then .fin a else toNumber (a + b)
  | .nan, _ => .nan
  | _, .nan => .nan
  | .inf s, .fin _ => .inf s
  | .fin _, .inf s => .inf s
  | .inf s, .inf t => if s = t then .inf s else .nan

/-- The expression `a || b` on Numbers: `NaN` and zero are falsy. -/
def numOr (a b : JNum) : JNum :=
  match a with
  | .nan => b
  | .fin n => if n = 0 then b else a
  | .inf _ => a

/-- The decimal with the fewest significant digits among those that denote the double `x`
(the one nearest to `x`, and the even one at a tie), for a positive integer double `x`. -/
def shortestDecimal (x : Nat) : Nat :=
  let width := (toString x).length
  ((List.range width).findSome? (fun i =>
    let unit := 10 ^ (width - (i + 1))
    let lo := x / unit * unit
    let hi := lo + unit
    if roundNat lo = x ∧ roundNat hi = x then
      some (if x - lo < hi - x then lo
        else if hi - x < x - lo then hi
        else if (lo / unit) % 2 = 0 then lo else hi)
    else if roundNat lo = x then some lo
    else if roundNat hi = x then some hi
    else none)).getD x

/-- The text of a positive integer in the format of `Number::toString`: plain digits below
`10^21`, and from there on the significant digits with an exponent, as in `1e+21`. -/
def formatDecimal (c : Nat) : String :=
  let digits := (toString c).data
  if digits.length ≤ 21 then toString c
  else
    let significant := (digits.reverse.dropWhile (fun d => d == Char.ofNat 48)).reverse
    match significant with
    | [] => toString c
    | [d] => String.mk [d] ++ "e+" ++ toString (digits.length - 1)
    | d :: rest =>
      String.mk (d :: Char.ofNat 46 :: rest) ++ "e+" ++ toString (digits.length - 1)

/-- The operation `Number::toString` (radix 10). -/
def numToString : JNum → String
  | .nan => "NaN"
  | .inf false => "Infinity"
  | .inf true => "-Infinity"
  | .fin n =>
    if n = 0 then "0"
    else if n < 0 then "-" ++ formatDecimal (shortestDecimal n.natAbs)
    else formatDecimal (shortestDecimal n.natAbs)

/-! ## Truthiness and equality -/

/-- JavaScript truthiness (`ToBoolean`), as used by `!x`, `x || y` and `if (x)`. -/
def truthy : JVal → Bool
  | .undefined => false
  | .null => false
  | .bool b => b
  | .num n => n != 0
  | .str s => s != ""
  | .arr _ => true
  | .obj _ => true

/-- The test `typeof v === 'boolean'`. -/
def typeofIsBool : JVal → Bool
  | .bool _ => true
  | _ => false

/-- The comparison `a === b` between a value held by the store and a value
taken from the request.  Primitives compare by value; an object or an array
is equal only to itself, and a store value never is the same reference as a
request value. -/
def strictEq : JVal → JVal → Bool
  | .undefined, .undefined => true
  | .null, .null => true
  | .bool a, .bool b => a == b
  | .num a, .num b => toNumber a == toNumber b
  | .str a, .str b => a == b
  | _, _ => false

/-! ## Objects -/

/-- The own property `k` of an object, if it has one. -/
def lookupField : Obj → String → Option JVal
  | [], _ => none
  | (k', v) :: rest, k => if k' = k then some v else lookupField rest k

/-- The property read `o.k` (or `o[k]`) on a record or on `req.query`; `undefined` when the
property is absent.  No key read by the program is a property of `Object.prototype`. -/
def getField (o : Obj) (k : String) : JVal :=
  (lookupField o k).getD .undefined

/-- The own property keys of an object. -/
def keysOf (o : Obj) : List String :=
  o.map Prod.fst

/-- The property write that an object spread performs (`CreateDataProperty`): an existing
property keeps its place and takes the new value, a new property goes last. -/
def setField : Obj → String → JVal → Obj
  | [], k, v => [(k, v)]
  | (k', v') :: rest, k, v =>
    if k' = k then (k, v) :: rest else (k', v') :: setField rest k v

/-- An exception object, as far as the error handler reads it: `err.status` and
`err.message`. -/
structure JsError where
  status : Option Nat
  message : String
  deriving Inhabited, Repr, DecidableEq

/-- A `TypeError` raised by the engine; it has no `status` property. -/
def typeError (message : String) : JsError :=
  ⟨none, message⟩

/-- Equality of outcomes (a result or an exception) is decidable. -/
instance decEqExcept {ε α : Type} [DecidableEq ε] [DecidableEq α] : DecidableEq (Except ε α)
  | .ok a, .ok b =>
    if h : a = b then isTrue (by rw [h]) else isFalse (by intro e; cases e; exact h rfl)
  | .error a, .error b =>
    if h : a = b then isTrue (by rw [h]) else isFalse (by intro e; cases e; exact h rfl)
  | .ok _, .error _ => isFalse (by intro e; cases e)
  | .error _, .ok _ => isFalse (by intro e; cases e)

mutual
/-- The abstract operation `ToString`, which `parseInt`, `includes` and a computed property
key `o[v]` apply to their argument.  An object of the JSON data converts through the inherited
`toString` to `[object Object]`; when it has an own property `toString`, which is data and not
a function, neither that nor `valueOf` yields a primitive and the conversion throws. -/
def toStr : JVal → Except JsError String
  | .undefined => .ok "undefined"
  | .null => .ok "null"
  | .bool true => .ok "true"
  | .bool false => .ok "false"
  | .num n => .ok (numToString (toNumber n))
  | .str s => .ok s
  | .arr xs => joinStr xs
  | .obj fs =>
    if (lookupField fs "toString").isSome then
      .error (typeError "Cannot convert object to primitive value")
    else .ok "[object Object]"
termination_by structural v => v
/-- The result of `Array.prototype.join(',')`: `undefined` and `null` elements give the empty
string, every other element is converted with `ToString`. -/
def joinStr : List JVal → Except JsError String
  | [] => .ok ""
  | x :: r =>
    match ((match x with
      | .undefined => .ok ""
      | .null => .ok ""
      | v => toStr v) : Except JsError String) with
    | .error e => .error e
    | .ok head =>
      match joinStr r with
      | .error e => .error e
      | .ok tail => .ok (head ++ (match r with | [] => "" | _ :: _ => ",") ++ tail)
termination_by structural xs => xs
end

/-- The parsed request body `req.body` that `bodyParser.json()` (line 14) hands to the
handlers: an object or an array (the empty object when the request has no JSON body). -/
inductive ReqBody where
  | obj (fs : Obj)
  | arr (xs : List JVal)
  deriving Inhabited, Repr, DecidableEq

/-- The own enumerable properties of an array: its elements under the keys `"0"`, `"1"`, ... -/
def arrEntries (xs : List JVal) : Obj :=
  (List.range xs.length).zipWith (fun i x => (toString i, x)) xs

/-- The own enumerable properties of the request body. -/
def bodyEntries : ReqBody → Obj
  | .obj fs => fs
  | .arr xs => arrEntries xs

/-- The own enumerable property keys of the request body, in enumeration order. -/
def bodyKeys (b : ReqBody) : List String :=
  keysOf (bodyEntries b)

/-- The property read `req.body.k`.  An array also has `length`. -/
def bodyGet (b : ReqBody) (k : String) : JVal :=
  match b with
  | .obj fs => getField fs k
  | .arr xs => if k = "length" then .num xs.length else getField (arrEntries xs) k

/-- The spread `...src` into an object under construction (`CopyDataProperties`): every own
enumerable key of `src` in turn is read from `src` and written to the target. -/
def spreadInto (target : Obj) (keys : List String) (get : String → JVal) : Obj :=
  keys.foldl (fun t k => setField t k (get k)) target

/-- The object literal `{ ...rec, ...body }` of line 100. -/
def spreadMerge (rec : Obj) (body : ReqBody) : Obj :=
  spreadInto (spreadInto [] (keysOf rec) (getField rec)) (bodyKeys body) (bodyGet body)

/-! ## Requests and responses -/

/-- The path parameters `req.params`; only `id` is ever declared by a route. -/
structure Params where
  id : String := ""
  deriving Inhabited, Repr, DecidableEq

/-- The parts of an Express request that the program reads. -/
structure Req where
  /-- The object `req.headers`: lower-case header names with their values. -/
  headers : List (String × String) := []
  /-- The object `req.params`. -/
  params : Params := {}
  /-- The object `req.query`: each value is a string, an array or an object. -/
  query : Obj := []
  /-- The parsed JSON body `req.body`. -/
  body : ReqBody := .obj []
  deriving Inhabited, Repr, DecidableEq

/-- The property read `req.headers[name]`: `none` is `undefined`. -/
def headerGet : List (String × String) → String → Option String
  | [], _ => none
  | (k, v) :: rest, name => if k = name then some v else headerGet rest name

/-- The payload of a response. -/
inductive Body where
  /-- The payload of `res.json(v)` -/
  | json (v : JVal)
  /-- The payload of `res.send(text)` -/
  | text (s : String)
  /-- The payload of `res.send()` -/
  | empty
  deriving Inhabited, Repr, DecidableEq

/-- The response written by a handler: status code and payload. -/
structure Response where
  status : Nat
  body : Body
  deriving Inhabited, Repr, DecidableEq

/-- What lies outside the program text: the environment variable `API_KEY` read once at
start-up (line 11), with `none` for `undefined`, and the built-in
`String.prototype.toLowerCase`. -/
structure Env where
  API_KEY : Option String
  toLowerCase : String → String

/-- The JSON value `{ error: msg }`. -/
def errorBody (msg : String) : Body :=
  .json (.obj [("error", .str msg)])

/-- The response `res.status(401).json({ error: 'Unauthorized' })`. -/
def unauthorized : Response :=
  ⟨401, errorBody "Unauthorized"⟩

/-- The response `res.status(404).json({ error: 'Product not found' })`. -/
def notFound : Response :=
  ⟨404, errorBody "Product not found"⟩

/-- The response `res.status(400).json({ error: 'Missing or invalid fields' })`. -/
def invalidFields : Response :=
  ⟨400, errorBody "Missing or invalid fields"⟩

/-! ## Middleware: authentication (lines 23-29) -/

/-- What a middleware does with a request: call `next()` or end it with a response. -/
inductive Step where
  | next
  | respond (res : Response)
  deriving Inhabited, Repr, DecidableEq

/-- The middleware `authenticate`: `req.headers['x-api-key'] === API_KEY`. -/
def authenticate (API_KEY : Option String) (req : Req) : Step :=
  if headerGet req.headers "x-api-key" = API_KEY then
    .next
  else
    .respond unauthorized

/-! ## The store (lines 32-36) -/

/-- The initial value of `products`. -/
def products : Products :=
  [ [("id", .str "1"), ("name", .str "Laptop"), ("description", .str "16GB RAM"),
     ("price", .num 1200), ("category", .str "electronics"), ("inStock", .bool true)],
    [("id", .str "2"), ("name", .str "Smartphone"), ("description", .str "128GB storage"),
     ("price", .num 800), ("category", .str "electronics"), ("inStock", .bool true)],
    [("id", .str "3"), ("name", .str "Coffee Maker"), ("description", .str "Timer"),
     ("price", .num 50), ("category", .str "kitchen"), ("inStock", .bool false)] ]

/-- The predicate `p => p.id === req.params.id`. -/
def hasId (id : String) (p : Obj) : Bool :=
  strictEq (getField p "id") (.str id)

/-- The call `products.findIndex(pred)`, with `none` for `-1`. -/
def findIndex (pred : Obj → Bool) : Products → Option Nat
  | [] => none
  | p :: rest => if pred p then some 0 else (findIndex pred rest).map (· + 1)

/-! ## Handlers -/

/-- The handler of `GET /` (lines 39-41). -/
def rootHandler (ps : Products) : Response × Products :=
  (⟨200, .text "Hello World"⟩, ps)

/-- The handler of `GET /api/products/:id` (lines 78-82). -/
def getProductById (ps : Products) (req : Req) : Response × Products :=
  match ps.find? (hasId req.params.id) with
  | none => (notFound, ps)
  | some product => (⟨200, .json (.obj product)⟩, ps)

/-- The validation of line 87: the condition under which `POST` answers 400. -/
def invalidCreate (body : ReqBody) : Bool :=
  !truthy (bodyGet body "name") || !truthy (bodyGet body "description") ||
    !truthy (bodyGet body "price") || !truthy (bodyGet body "category") ||
    !typeofIsBool (bodyGet body "inStock")

/-- The object literal of line 90. -/
def newProduct (uuid : String) (body : ReqBody) : Obj :=
  [("id", .str uuid), ("name", bodyGet body "name"),
   ("description", bodyGet body "description"), ("price", bodyGet body "price"),
   ("category", bodyGet body "category"), ("inStock", bodyGet body "inStock")]

/-- The handler of `POST /api/products` (lines 85-93); `uuid` is the string that the call
`uuidv4()` returns. -/
def postProduct (uuid : String) (ps : Products) (req : Req) : Response × Products :=
  if invalidCreate req.body then
    (invalidFields, ps)
  else
    (⟨201, .json (.obj (newProduct uuid req.body))⟩, ps ++ [newProduct uuid req.body])

/-- The handler of `PUT /api/products/:id` (lines 96-103). -/
def putProduct (ps : Products) (req : Req) : Response × Products :=
  match findIndex (hasId req.params.id) ps with
  | none => (notFound, ps)
  | some index =>
    let updated := spreadMerge (ps.getD index []) req.body
    (⟨200, .json (.obj updated)⟩, ps.set index updated)

/-- The handler of `DELETE /api/products/:id` (lines 106-112). -/
def deleteProduct (ps : Products) (req : Req) : Response × Products :=
  match findIndex (hasId req.params.id) ps with
  | none => (notFound, ps)
  | some index => (⟨204, .empty⟩, ps.eraseIdx index)

/-! ### Listing with filter and pagination (lines 44-59) -/

/-- The code points that `parseInt` skips at the start of its argument (`WhiteSpace` and
`LineTerminator` of ECMAScript). -/
def isJsWhiteSpace (c : Char) : Bool :=
  c.toNat ∈ [9, 10, 11, 12, 13, 32, 160, 5760, 8232, 8233, 8239, 8287, 12288, 65279] ||
    (8192 ≤ c.toNat && c.toNat ≤ 8202)

/-- The value of a character as a digit in the given radix (10 or 16), if it is one. -/
def digitValue (radix : Nat) (c : Char) : Option Nat :=
  if 48 ≤ c.toNat ∧ c.toNat ≤ 57 then some (c.toNat - 48)
  else if radix = 16 ∧ 97 ≤ c.toNat ∧ c.toNat ≤ 102 then some (c.toNat - 87)
  else if radix = 16 ∧ 65 ≤ c.toNat ∧ c.toNat ≤ 70 then some (c.toNat - 55)
  else none

/-- The longest run of digits at the head of the text, as digit values. -/
def takeDigits (radix : Nat) : List Char → List Nat
  | [] => []
  | c :: rest =>
    match digitValue radix c with
    | some d => d :: takeDigits radix rest
    | none => []

/-- The integer that `parseInt(text)`, with no radix argument, reads from a string, before it
is made a Number (`sign × mathInt` in ECMAScript); `none` when there is no digit to read. -/
def parseIntMath (text : String) : Option Int :=
  let s := text.data.dropWhile isJsWhiteSpace
  let negative : Bool := s.head? == some (Char.ofNat 45)
  let s := if s.head? = some (Char.ofNat 45) ∨ s.head? = some (Char.ofNat 43) then s.tail else s
  let hex : Bool := match s with
    | a :: b :: _ => a == Char.ofNat 48 && (b == Char.ofNat 120 || b == Char.ofNat 88)
    | _ => false
  let radix := if hex then 16 else 10
  let s := if hex then s.drop 2 else s
  let digits := takeDigits radix s
  if digits = [] then none
  else
    let magnitude : Nat := digits.foldl (fun acc d => acc * radix + d) 0
    some (if negative then -(magnitude : Int) else (magnitude : Int))

/-- The built-in `parseInt(text)` with no radix argument, on a string: `NaN` when there is no
digit to read, else the Number for the integer read.  All digits are read (ECMAScript lets an
implementation take the decimal digits after the 20th for zeros, which moves the result by
less than one part in `10^19`). -/
def parseIntStr (text : String) : JNum :=
  match parseIntMath text with
  | none => .nan
  | some z => toNumber z

/-- The call `parseInt(v)` on a query value: the argument is converted with `ToString`, which
can throw. -/
def parseInt (v : JVal) : Except JsError JNum :=
  match toStr v with
  | .error e => .error e
  | .ok text => .ok (parseIntStr text)

/-- The integer that `parseInt(v)` reads from a query value, before it is made a Number: an
exception when the conversion of `v` to a string throws, `none` when there is no digit to
read. -/
def readInt (v : JVal) : Except JsError (Option Int) :=
  match toStr v with
  | .error e => .error e
  | .ok text => .ok (parseIntMath text)

/-- The index that `Array.prototype.slice` derives from an argument (`ToIntegerOrInfinity`,
then the clamp): `NaN` counts as 0, a negative argument counts from the end, and the result
lies in `0 .. len`. -/
def relIndex (len : Nat) : JNum → Nat
  | .nan => 0
  | .inf true => 0
  | .inf false => len
  | .fin i => if i < 0 then (len + i).toNat else min i.toNat len

/-- The call `xs.slice(start, stop)`. -/
def slice {α : Type} (xs : List α) (start stop : JNum) : List α :=
  (xs.drop (relIndex xs.length start)).take
    (relIndex xs.length stop - relIndex xs.length start)

/-- The filter step of the list handler (lines 47-50). -/
def categoryFilter (ps : Products) (query : Obj) : Products :=
  if truthy (getField query "category") then
    ps.filter (fun p => strictEq (getField p "category") (getField query "category"))
  else ps

/-- The page that lines 53-56 cut out of the filtered list, once `parseInt` has given the two
Numbers `page` and `limit`. -/
def pageOf (result : Products) (page limit : JNum) : Products :=
  slice result (numMul (numSub (numOr page (.fin 1)) (.fin 1)) (numOr limit (.fin result.length)))
    (numAdd (numMul (numSub (numOr page (.fin 1)) (.fin 1)) (numOr limit (.fin result.length)))
      (numOr limit (.fin result.length)))

/-- The records that the list handler selects: filter (lines 48-50), then page (53-56).  The
two calls of `parseInt` can throw. -/
def listResult (ps : Products) (query : Obj) : Except JsError Products :=
  match parseInt (getField query "page") with
  | .error e => .error e
  | .ok page =>
    match parseInt (getField query "limit") with
    | .error e => .error e
    | .ok limit => .ok (pageOf (categoryFilter ps query) page limit)

/-- The handler of `GET /api/products` (lines 44-59). -/
def getProducts (ps : Products) (req : Req) : Except JsError Response :=
  match listResult ps req.query with
  | .error e => .error e
  | .ok result => .ok ⟨200, .json (.arr (result.map .obj))⟩

/-! ### Search (lines 62-66) -/

/-- The test that the list `t` starts with the list `s`. -/
def startsWith : List Char → List Char → Bool
  | _, [] => true
  | [], _ :: _ => false
  | c :: t, d :: s => c == d && startsWith t s

/-- The call `text.includes(term)` on strings: `term` occurs in `text` as a substring. -/
def includes (text term : String) : Bool :=
  text.data.tails.any (fun t => startsWith t term.data)

/-- The expression `req.query.name?.toLowerCase()` of line 63: `undefined` for an absent
name, a `TypeError` for a name that is an array or an object (it has no such method). -/
def searchTerm (env : Env) (query : Obj) : Except JsError JVal :=
  match getField query "name" with
  | .undefined => .ok .undefined
  | .null => .ok .undefined
  | .str s => .ok (.str (env.toLowerCase s))
  | _ => .error (typeError "req.query.name?.toLowerCase is not a function")

/-- The predicate `p => p.name.toLowerCase().includes(term)` of line 64.  A record whose
`name` is not a string raises a `TypeError`; `includes` converts its argument with
`ToString`. -/
def nameMatches (env : Env) (term : JVal) (p : Obj) : Except JsError Bool :=
  match getField p "name" with
  | .str s =>
    match toStr term with
    | .error e => .error e
    | .ok text => .ok (includes (env.toLowerCase s) text)
  | .undefined =>
    .error (typeError "Cannot read properties of undefined (reading 'toLowerCase')")
  | .null => .error (typeError "Cannot read properties of null (reading 'toLowerCase')")
  | _ => .error (typeError "p.name.toLowerCase is not a function")

/-- The call `xs.filter(pred)` for a predicate that can throw: the elements are visited in
order and the first exception ends the call. -/
def filterThrowing {α : Type} (pred : α → Except JsError Bool) : List α → Except JsError (List α)
  | [] => .ok []
  | x :: rest =>
    match pred x with
    | .error e => .error e
    | .ok keep =>
      match filterThrowing pred rest with
      | .error e => .error e
      | .ok kept => .ok (if keep then x :: kept else kept)

/-- The handler of `GET /api/products/search` (lines 62-66). -/
def searchProducts (env : Env) (ps : Products) (req : Req) : Except JsError Response :=
  match searchTerm env req.query with
  | .error e => .error e
  | .ok term =>
    match filterThrowing (nameMatches env term) ps with
    | .error e => .error e
    | .ok result => .ok ⟨200, .json (.arr (result.map .obj))⟩

/-! ### Statistics (lines 69-75) -/

/-- The function-valued properties that the object literal `{}` inherits from
`Object.prototype`. -/
def objectPrototypeMethods : List String :=
  ["constructor", "hasOwnProperty", "isPrototypeOf", "propertyIsEnumerable",
   "toLocaleString", "toString", "valueOf", "__defineGetter__", "__defineSetter__",
   "__lookupGetter__", "__lookupSetter__"]

/-- The text that `ToString` gives for an inherited method (V8). -/
def nativeFunctionText (key : String) : String :=
  "function " ++ (if key = "constructor" then "Object" else key) ++
    "() \x7b [native code] \x7d"

/-- The value of `(stats[key] || 0) + 1` of line 72.  An own count is a number (below `2^32`,
so that adding 1 is exact); an inherited method is truthy and `+` then concatenates strings,
as it does for every operand that is a string, an array or an object. -/
def bumped (stats : Obj) (key : String) : Except JsError JVal :=
  match lookupField stats key with
  | some (.num n) => .ok (.num (n + 1))
  | some (.str s) => .ok (if s = "" then .num 1 else .str (s ++ "1"))
  | some (.bool b) => .ok (if b then .num 2 else .num 1)
  | some (.arr xs) =>
    match toStr (.arr xs) with
    | .error e => .error e
    | .ok text => .ok (.str (text ++ "1"))
  | some (.obj fs) =>
    match toStr (.obj fs) with
    | .error e => .error e
    | .ok text => .ok (.str (text ++ "1"))
  | some .null => .ok (.num 1)
  | some .undefined => .ok (.num 1)
  | none =>
    .ok (if key ∈ objectPrototypeMethods then .str (nativeFunctionText key ++ "1")
      else .num 1)

/-- The property key under which line 72 counts a record: `stats[p.category]` converts the
category with `ToString`, which can throw. -/
def categoryKey (p : Obj) : Except JsError String :=
  toStr (getField p "category")

/-- The body of the `forEach` callback of lines 71-73.  The key `__proto__` is an accessor of
`Object.prototype` whose setter ignores a value that is not an object. -/
def statsStep (stats : Obj) (p : Obj) : Except JsError Obj :=
  match categoryKey p with
  | .error e => .error e
  | .ok key =>
    if key = "__proto__" then .ok stats
    else
      match bumped stats key with
      | .error e => .error e
      | .ok value => .ok (setField stats key value)

/-- The loop `products.forEach(...)` of lines 71-73 from a given `stats` object: the records
are visited in order and the first exception ends the loop. -/
def statsFrom (stats : Obj) : Products → Except JsError Obj
  | [] => .ok stats
  | p :: rest =>
    match statsStep stats p with
    | .error e => .error e
    | .ok next => statsFrom next rest

/-- The object `stats` after the loop of lines 70-73. -/
def statsOf (ps : Products) : Except JsError Obj :=
  statsFrom [] ps

/-- The handler of `GET /api/products/stats` (lines 69-75). -/
def statsProducts (ps : Products) : Except JsError Response :=
  match statsOf ps with
  | .error e => .error e
  | .ok stats => .ok ⟨200, .json (.obj stats)⟩

/-! ### The global error handler (lines 115-118) and the routes -/

/-- The error handler: `res.status(err.status || 500).json({ error: err.message })`. -/
def errorHandler (err : JsError) : Response :=
  let status := match err.status with
    | some s => if s = 0 then 500 else s
    | none => 500
  ⟨status, errorBody err.message⟩

/-- The eight routes that the program registers, in registration order. -/
inductive Route where
  /-- The route `GET /` -/
  | root
  /-- The route `GET /api/products` -/
  | list
  /-- The route `GET /api/products/search` -/
  | search
  /-- The route `GET /api/products/stats` -/
  | stats
  /-- The route `GET /api/products/:id` -/
  | getById
  /-- The route `POST /api/products` -/
  | create
  /-- The route `PUT /api/products/:id` -/
  | update
  /-- The route `DELETE /api/products/:id` -/
  | delete
  deriving Inhabited, Repr, DecidableEq

/-- The route handler proper, i.e. the last callback of the registration; an exception
reaches the error handler and leaves the store as it is. -/
def runHandler (env : Env) (uuid : String) (ps : Products) (route : Route) (req : Req) :
    Response × Products :=
  match route with
  | .root => rootHandler ps
  | .list =>
    match getProducts ps req with
    | .ok res => (res, ps)
    | .error err => (errorHandler err, ps)
  | .search =>
    match searchProducts env ps req with
    | .ok res => (res, ps)
    | .error err => (errorHandler err, ps)
  | .stats =>
    match statsProducts ps with
    | .ok res => (res, ps)
    | .error err => (errorHandler err, ps)
  | .getById => getProductById ps req
  | .create => postProduct uuid ps req
  | .update => putProduct ps req
  | .delete => deleteProduct ps req

/-- The callback chain of a route: every route but `GET /` is registered with
`authenticate` ahead of its handler. -/
def handle (env : Env) (uuid : String) (ps : Products) (route : Route) (req : Req) :
    Response × Products :=
  match route with
  | .root => runHandler env uuid ps route req
  | _ =>
    match authenticate env.API_KEY req with
    | .next => runHandler env uuid ps route req
    | .respond res => (res, ps)

/-! ## Routing (the registrations of lines 39-112) -/

/-- The request methods for which the program registers a route. -/
inductive Method where
  | GET
  | POST
  | PUT
  | DELETE
  deriving Inhabited, Repr, DecidableEq

/-- A segment of a route path: a literal such as `products`, or a parameter such as `:id`. -/
inductive Seg where
  | lit (s : String)
  | param
  deriving Inhabited, Repr, DecidableEq

/-- The letters `A` to `Z` replaced by `a` to `z`.  Express compiles a route path to a regular
expression with the flag `i` (its setting `case sensitive routing` is off unless the program
turns it on, and this one does not), and against a literal made of the letters `a` to `z`
that flag identifies exactly these pairs. -/
def asciiLower (s : String) : String :=
  ⟨s.data.map (fun c => if 65 ≤ c.toNat ∧ c.toNat ≤ 90 then Char.ofNat (c.toNat + 32) else c)⟩

/-- The routes in the order in which the program registers them: method, path, handler. -/
def routeTable : List (Method × List Seg × Route) :=
  [ (.GET, [], .root),
    (.GET, [.lit "api", .lit "products"], .list),
    (.GET, [.lit "api", .lit "products", .lit "search"], .search),
    (.GET, [.lit "api", .lit "products", .lit "stats"], .stats),
    (.GET, [.lit "api", .lit "products", .param], .getById),
    (.POST, [.lit "api", .lit "products"], .create),
    (.PUT, [.lit "api", .lit "products", .param], .update),
    (.DELETE, [.lit "api", .lit "products", .param], .delete) ]

/-- The match of a route path against the segments of a request path (the non-empty pieces
between the slashes, free of percent escapes): a literal matches up to letter case, a
parameter matches any segment and becomes `req.params.id`. -/
def matchPath : List Seg → List String → Params → Option Params
  | [], [], params => some params
  | .lit s :: pattern, x :: path, params =>
    if asciiLower x = asciiLower s then matchPath pattern path params else none
  | .param :: pattern, x :: path, _ =>
    if x = "" then none else matchPath pattern path { id := x }
  | _, _, _ => none

/-- The first registered route, in registration order, whose method and path match. -/
def firstMatch (method : Method) (path : List String) :
    List (Method × List Seg × Route) → Option (Route × Params)
  | [] => none
  | (m, pattern, route) :: rest =>
    if m = method then
      match matchPath pattern path {} with
      | some params => some (route, params)
      | none => firstMatch method path rest
    else firstMatch method path rest

/-- The route that Express selects for a request, with the path parameters. -/
def matchRoute (method : Method) (path : List String) : Option (Route × Params) :=
  firstMatch method path routeTable

/-- The whole application on one request: the selected route runs with its parameters; `none`
stands for the answer that Express itself gives when no route matches, which does not touch
the store. -/
def dispatch (env : Env) (uuid : String) (ps : Products) (method : Method)
    (path : List String) (req : Req) : Option (Response × Products) :=
  match matchRoute method path with
  | some (route, params) => some (handle env uuid ps route { req with params := params })
  | none => none

/-! ## Notions used to state the properties -/

/-- The property names that the object literal `{}` of line 70 inherits from
`Object.prototype`. -/
def inheritedKeys : List String :=
  "__proto__" :: objectPrototypeMethods

/-- The number held by a value of the `stats` object, `0` for a value that is not a number. -/
def numValue : JVal → Int
  | .num n => n
  | _ => 0

/-- The store states that the API reaches from the initial collection, by any sequence of
requests (authenticated or not) with any generated ids. -/
inductive Reachable (env : Env) : Products → Prop where
  | seed : Reachable env products
  | step (ps : Products) (uuid : String) (route : Route) (req : Req) :
      Reachable env ps → Reachable env (handle env uuid ps route req).2

/-! ## Lemmas on objects -/

theorem lookupField_setField_self (o : Obj) (k : String) (v : JVal) :
    lookupField (setField o k v) k = some v := by
  induction o with
  | nil => simp [setField, lookupField]
  | cons e rest ih =>
    obtain ⟨k', v'⟩ := e
    by_cases h : k' = k
    · simp [setField, lookupField, h]
    · simp [setField, lookupField, h, ih]

theorem lookupField_setField_ne (o : Obj) (k k' : String) (v : JVal) (h : k' ≠ k) :
    lookupField (setField o k v) k' = lookupField o k' := by
  induction o with
  | nil => simp [setField, lookupField, Ne.symm h]
  | cons e rest ih =>
    obtain ⟨k₀, v₀⟩ := e
    by_cases h₀ : k₀ = k
    · subst h₀
      simp [setField, lookupField, Ne.symm h]
    · by_cases h₁ : k₀ = k'
      · subst h₁
        simp [setField, lookupField, h₀]
      · simp [setField, lookupField, h₀, h₁, ih]

theorem lookupField_eq_none_of_not_mem (o : Obj) (k : String) (h : k ∉ keysOf o) :
    lookupField o k = none := by
  induction o with
  | nil => rfl
  | cons e rest ih =>
    obtain ⟨k₀, v₀⟩ := e
    simp only [keysOf, List.map_cons, List.mem_cons, not_or] at h
    have h₁ : k₀ ≠ k := fun e => h.1 e.symm
    simp only [lookupField, h₁, if_false]
    exact ih h.2

theorem lookupField_eq_some_of_mem (o : Obj) (k : String) (h : k ∈ keysOf o) :
    lookupField o k = some (getField o k) := by
  induction o with
  | nil => simp [keysOf] at h
  | cons e rest ih =>
    obtain ⟨k₀, v₀⟩ := e
    by_cases h₁ : k₀ = k
    · simp [lookupField, getField, h₁]
    · simp only [keysOf, List.map_cons, List.mem_cons] at h
      have hr : k ∈ keysOf rest := by
        rcases h with h | h
        · exact absurd h.symm h₁
        · exact h
      have := ih hr
      simp only [getField] at this ⊢
      simp only [lookupField, h₁, if_false]
      exact this

theorem lookupField_spreadInto (target : Obj) (keys : List String) (get : String → JVal)
    (k : String) :
    lookupField (spreadInto target keys get) k =
      if k ∈ keys then some (get k) else lookupField target k := by
  induction keys generalizing target with
  | nil => simp [spreadInto]
  | cons a rest ih =>
    have hstep : spreadInto target (a :: rest) get =
        spreadInto (setField target a (get a)) rest get := by
      simp [spreadInto]
    rw [hstep, ih]
    by_cases hk : k ∈ rest
    · simp [hk]
    · by_cases ha : k = a
      · subst ha
        simp [hk, lookupField_setField_self]
      · simp [hk, ha, lookupField_setField_ne _ _ _ _ ha]

theorem lookupField_spreadMerge (r : Obj) (body : ReqBody) (k : String) :
    lookupField (spreadMerge r body) k =
      if k ∈ bodyKeys body then some (bodyGet body k) else lookupField r k := by
  unfold spreadMerge
  rw [lookupField_spreadInto, lookupField_spreadInto]
  by_cases hb : k ∈ bodyKeys body
  · simp [hb]
  · simp only [hb, if_false]
    by_cases hr : k ∈ keysOf r
    · simp [hr, lookupField_eq_some_of_mem _ _ hr]
    · simp [hr, lookupField_eq_none_of_not_mem _ _ hr, lookupField]

theorem mem_keysOf_iff (o : Obj) (k : String) : k ∈ keysOf o ↔ lookupField o k ≠ none := by
  constructor
  · intro h
    rw [lookupField_eq_some_of_mem o k h]
    simp
  · intro h
    by_contra hnot
    exact h (lookupField_eq_none_of_not_mem o k hnot)

/-! ## Lemmas on the lookups by id -/

theorem findIndex_eq_none (pred : Obj → Bool) (ps : Products)
    (h : ∀ p ∈ ps, pred p = false) : findIndex pred ps = none := by
  induction ps with
  | nil => rfl
  | cons p rest ih =>
    have hp : pred p = false := h p (List.mem_cons_self _ _)
    have hr : findIndex pred rest = none := ih (fun q hq => h q (List.mem_cons_of_mem _ hq))
    simp [findIndex, hp, hr]

theorem findIndex_append_cons (pred : Obj → Bool) (front : Products) (p : Obj)
    (back : Products) (hfront : ∀ q ∈ front, pred q = false) (hp : pred p = true) :
    findIndex pred (front ++ p :: back) = some front.length := by
  induction front with
  | nil => simp [findIndex, hp]
  | cons q rest ih =>
    have hq : pred q = false := hfront q (List.mem_cons_self _ _)
    have hr := ih (fun x hx => hfront x (List.mem_cons_of_mem _ hx))
    simp [findIndex, hq, hr]

theorem exists_first_match (pred : Obj → Bool) (ps : Products)
    (h : ∃ p ∈ ps, pred p = true) :
    ∃ front p back, ps = front ++ p :: back ∧ (∀ q ∈ front, pred q = false) ∧
      pred p = true := by
  induction ps with
  | nil => obtain ⟨p, hp, _⟩ := h; simp at hp
  | cons a rest ih =>
    by_cases ha : pred a = true
    · exact ⟨[], a, rest, rfl, by simp, ha⟩
    · have ha' : pred a = false := by simpa using ha
      have hrest : ∃ p ∈ rest, pred p = true := by
        obtain ⟨p, hp, hpp⟩ := h
        rcases List.mem_cons.mp hp with e | e
        · subst e; exact absurd hpp ha
        · exact ⟨p, e, hpp⟩
      obtain ⟨front, p, back, hsplit, hfront, hp⟩ := ih hrest
      refine ⟨a :: front, p, back, by simp [hsplit], ?_, hp⟩
      intro q hq
      rcases List.mem_cons.mp hq with e | e
      · subst e; exact ha'
      · exact hfront q e

theorem set_append_cons (front : Products) (p u : Obj) (back : Products) :
    (front ++ p :: back).set front.length u = front ++ u :: back := by
  induction front with
  | nil => rfl
  | cons q rest ih => simp [ih]

theorem getD_append_cons (front : Products) (p : Obj) (back : Products) :
    (front ++ p :: back).getD front.length [] = p := by
  induction front with
  | nil => rfl
  | cons q rest ih => simpa using ih

theorem eraseIdx_append_cons (front : Products) (p : Obj) (back : Products) :
    (front ++ p :: back).eraseIdx front.length = front ++ back := by
  induction front with
  | nil => rfl
  | cons q rest ih => simp [ih]

theorem find_eq_none (pred : Obj → Bool) (ps : Products)
    (h : ∀ p ∈ ps, pred p = false) : ps.find? pred = none := by
  induction ps with
  | nil => rfl
  | cons p rest ih =>
    have hp : pred p = false := h p (List.mem_cons_self _ _)
    simp [List.find?, hp, ih (fun q hq => h q (List.mem_cons_of_mem _ hq))]

theorem find_append_cons (pred : Obj → Bool) (front : Products) (p : Obj)
    (back : Products) (hfront : ∀ q ∈ front, pred q = false) (hp : pred p = true) :
    (front ++ p :: back).find? pred = some p := by
  induction front with
  | nil => simp [List.find?, hp]
  | cons q rest ih =>
    have hq : pred q = false := hfront q (List.mem_cons_self _ _)
    simp [List.find?, hq, ih (fun x hx => hfront x (List.mem_cons_of_mem _ hx))]

/-! ## Authentication in front of the handlers -/

theorem handle_of_next (env : Env) (uuid : String) (ps : Products) (route : Route)
    (req : Req) (h : authenticate env.API_KEY req = .next) :
    handle env uuid ps route req = runHandler env uuid ps route req := by
  cases route <;> simp [handle, h]

/-- C1: with a configured secret, a request to a protected route reaches its handler exactly
when the `x-api-key` header equals the secret; every other request is answered 401 with
`{error: 'Unauthorized'}` whatever the handler would do, and the store stays as it was. -/
theorem authenticate_gate (secret : String) (lower : String → String) (uuid : String)
    (ps : Products) (route : Route) (req : Req) (hroute : route ≠ Route.root) :
    (authenticate (some secret) req = Step.next ↔
        headerGet req.headers "x-api-key" = some secret) ∧
      (headerGet req.headers "x-api-key" = some secret →
        handle ⟨some secret, lower⟩ uuid ps route req =
          runHandler ⟨some secret, lower⟩ uuid ps route req) ∧
      (headerGet req.headers "x-api-key" ≠ some secret →
        handle ⟨some secret, lower⟩ uuid ps route req =
          (⟨401, Body.json (JVal.obj [("error", JVal.str "Unauthorized")])⟩, ps)) := by
  refine ⟨?_, ?_, ?_⟩
  · unfold authenticate
    by_cases h : headerGet req.headers "x-api-key" = some secret <;> simp [h]
  · intro h
    apply handle_of_next
    simp [authenticate, h]
  · intro h
    cases route <;> first
      | exact absurd rfl hroute
      | simp [handle, authenticate, h, unauthorized, errorBody]

theorem authenticate_gate_witness :
    handle ⟨some "s3cret", fun s => s⟩ "u" products Route.delete
        { headers := [("x-api-key", "s3cret")], params := { id := "1" } } =
      (⟨204, Body.empty⟩, products.tail) ∧
    handle ⟨some "s3cret", fun s => s⟩ "u" products Route.delete
        { headers := [("x-api-key", "guess")], params := { id := "1" } } =
      (⟨401, Body.json (JVal.obj [("error", JVal.str "Unauthorized")])⟩, products) :=
  ⟨((authenticate_gate "s3cret" (fun s => s) "u" products Route.delete
      { headers := [("x-api-key", "s3cret")], params := { id := "1" } }
      (by decide)).2.1 (by decide)).trans (by decide),
   (authenticate_gate "s3cret" (fun s => s) "u" products Route.delete
      { headers := [("x-api-key", "guess")], params := { id := "1" } }
      (by decide)).2.2 (by decide)⟩

/-- C2: evaluation of the code at the failing input.  With `API_KEY` undefined, a request
that carries no `x-api-key` header passes `authenticate`, and `GET /api/products` answers 200
with the whole collection instead of 401. -/
theorem absent_secret_admits_keyless_request :
    authenticate none { headers := [] } = Step.next ∧
      handle ⟨none, fun s => s⟩ "u" products Route.list { headers := [] } =
        (⟨200, Body.json (JVal.arr (products.map JVal.obj))⟩, products) := by
  decide

/-! ## Creation -/

theorem postProduct_valid (uuid : String) (ps : Products) (req : Req)
    (hvalid : invalidCreate req.body = false) :
    postProduct uuid ps req =
      (⟨201, Body.json (JVal.obj (newProduct uuid req.body))⟩,
        ps ++ [newProduct uuid req.body]) := by
  simp [postProduct, hvalid]

theorem postProduct_invalid (uuid : String) (ps : Products) (req : Req)
    (hinvalid : invalidCreate req.body = true) :
    postProduct uuid ps req = (invalidFields, ps) := by
  simp [postProduct, hinvalid]

theorem hasId_newProduct (uuid : String) (body : ReqBody) :
    hasId uuid (newProduct uuid body) = true := by
  simp [hasId, newProduct, getField, lookupField, strictEq]

/-- C3: round trip.  After an authenticated `POST /api/products` with a payload that passes
the validation and a generated id that no record of the collection has, an authenticated
`GET /api/products/:id` with that id answers 200 with exactly the record that the `POST`
answered with 201. -/
theorem post_then_get_round_trip (env : Env) (uuid uuid2 : String) (ps : Products)
    (post get : Req)
    (hpost : authenticate env.API_KEY post = Step.next)
    (hget : authenticate env.API_KEY get = Step.next)
    (hvalid : invalidCreate post.body = false)
    (hfresh : ∀ p ∈ ps, hasId uuid p = false)
    (hid : get.params.id = uuid) :
    ∃ created : Obj,
      (handle env uuid ps Route.create post).1 = ⟨201, Body.json (JVal.obj created)⟩ ∧
      getField created "id" = JVal.str get.params.id ∧
      (handle env uuid2 (handle env uuid ps Route.create post).2 Route.getById get).1 =
        ⟨200, Body.json (JVal.obj created)⟩ := by
  refine ⟨newProduct uuid post.body, ?_, ?_, ?_⟩
  · rw [handle_of_next _ _ _ _ _ hpost]
    simp [runHandler, postProduct_valid _ _ _ hvalid]
  · simp [hid, newProduct, getField, lookupField]
  · rw [handle_of_next _ _ _ _ _ hpost, handle_of_next _ _ _ _ _ hget]
    simp only [runHandler, postProduct_valid _ _ _ hvalid, getProductById, hid]
    rw [find_append_cons _ ps _ [] hfresh (hasId_newProduct uuid post.body)]

theorem post_then_get_round_trip_witness :
    ∃ created : Obj,
      (handle ⟨some "s3cret", fun s => s⟩ "u-4" products Route.create
        { headers := [("x-api-key", "s3cret")],
          body := ReqBody.obj [("name", JVal.str "Kettle"), ("description", JVal.str "1.7l"),
            ("price", JVal.num 30), ("category", JVal.str "kitchen"),
            ("inStock", JVal.bool true)] }).1 = ⟨201, Body.json (JVal.obj created)⟩ ∧
      getField created "id" = JVal.str "u-4" ∧
      (handle ⟨some "s3cret", fun s => s⟩ "u-5"
        (handle ⟨some "s3cret", fun s => s⟩ "u-4" products Route.create
          { headers := [("x-api-key", "s3cret")],
            body := ReqBody.obj [("name", JVal.str "Kettle"), ("description", JVal.str "1.7l"),
              ("price", JVal.num 30), ("category", JVal.str "kitchen"),
              ("inStock", JVal.bool true)] }).2 Route.getById
        { headers := [("x-api-key", "s3cret")], params := { id := "u-4" } }).1 =
        ⟨200, Body.json (JVal.obj created)⟩ :=
  post_then_get_round_trip ⟨some "s3cret", fun s => s⟩ "u-4" "u-5" products
    { headers := [("x-api-key", "s3cret")],
      body := ReqBody.obj [("name", JVal.str "Kettle"), ("description", JVal.str "1.7l"),
        ("price", JVal.num 30), ("category", JVal.str "kitchen"),
        ("inStock", JVal.bool true)] }
    { headers := [("x-api-key", "s3cret")], params := { id := "u-4" } }
    (by decide) (by decide) (by decide) (by decide) rfl

theorem invalidCreate_eq_false_iff (body : ReqBody) :
    invalidCreate body = false ↔
      truthy (bodyGet body "name") = true ∧ truthy (bodyGet body "description") = true ∧
        truthy (bodyGet body "price") = true ∧ truthy (bodyGet body "category") = true ∧
        ∃ b : Bool, bodyGet body "inStock" = JVal.bool b := by
  have hbool : typeofIsBool (bodyGet body "inStock") = true ↔
      ∃ b : Bool, bodyGet body "inStock" = JVal.bool b := by
    cases bodyGet body "inStock" <;> simp [typeofIsBool]
  rw [← hbool]
  unfold invalidCreate
  cases truthy (bodyGet body "name") <;> cases truthy (bodyGet body "description") <;>
    cases truthy (bodyGet body "price") <;> cases truthy (bodyGet body "category") <;>
    cases typeofIsBool (bodyGet body "inStock") <;> simp

/-- C4: an authenticated `POST /api/products` answers 201 exactly when `name`, `description`,
`price` and `category` are truthy and `inStock` is a boolean, and in every other case it
answers 400 with `{error: 'Missing or invalid fields'}`; so a price `0`, an empty name, and an
`inStock` that is the string `'true'` or is omitted are all rejected. -/
theorem post_status (env : Env) (uuid : String) (ps : Products) (req : Req)
    (hauth : authenticate env.API_KEY req = Step.next) :
    ((handle env uuid ps Route.create req).1.status = 201 ↔
        truthy (bodyGet req.body "name") = true ∧
          truthy (bodyGet req.body "description") = true ∧
          truthy (bodyGet req.body "price") = true ∧
          truthy (bodyGet req.body "category") = true ∧
          ∃ b : Bool, bodyGet req.body "inStock" = JVal.bool b) ∧
      ((handle env uuid ps Route.create req).1.status ≠ 201 →
        (handle env uuid ps Route.create req).1 =
          ⟨400, Body.json (JVal.obj [("error", JVal.str "Missing or invalid fields")])⟩) ∧
      (bodyGet req.body "price" = JVal.num 0 ∨ bodyGet req.body "name" = JVal.str "" ∨
          bodyGet req.body "inStock" = JVal.str "true" ∨
          bodyGet req.body "inStock" = JVal.undefined →
        (handle env uuid ps Route.create req).1 =
          ⟨400, Body.json (JVal.obj [("error", JVal.str "Missing or invalid fields")])⟩) := by
  rw [handle_of_next _ _ _ _ _ hauth]
  simp only [runHandler]
  cases hv : invalidCreate req.body
  · have hiff := (invalidCreate_eq_false_iff req.body).mp hv
    rw [postProduct_valid _ _ _ hv]
    refine ⟨⟨fun _ => hiff, fun _ => rfl⟩, fun h => absurd rfl h, ?_⟩
    obtain ⟨h1, _, h3, _, b, h5⟩ := hiff
    rintro (h | h | h | h)
    · rw [h] at h3; simp [truthy] at h3
    · rw [h] at h1; simp [truthy] at h1
    · rw [h] at h5; cases h5
    · rw [h] at h5; cases h5
  · rw [postProduct_invalid _ _ _ hv]
    have hnot : ¬ (truthy (bodyGet req.body "name") = true ∧
          truthy (bodyGet req.body "description") = true ∧
          truthy (bodyGet req.body "price") = true ∧
          truthy (bodyGet req.body "category") = true ∧
          ∃ b : Bool, bodyGet req.body "inStock" = JVal.bool b) := by
      intro h
      rw [(invalidCreate_eq_false_iff req.body).mpr h] at hv
      cases hv
    refine ⟨⟨fun h => ?_, fun h => absurd h hnot⟩, fun _ => rfl, fun _ => rfl⟩
    simp [invalidFields] at h

theorem post_status_witness :
    (handle ⟨some "s3cret", fun s => s⟩ "u-4" products Route.create
        { headers := [("x-api-key", "s3cret")],
          body := ReqBody.obj [("name", JVal.str "Kettle"), ("description", JVal.str "1.7l"),
            ("price", JVal.num 0), ("category", JVal.str "kitchen"),
            ("inStock", JVal.bool true)] }).1 =
      ⟨400, Body.json (JVal.obj [("error", JVal.str "Missing or invalid fields")])⟩ :=
  (post_status ⟨some "s3cret", fun s => s⟩ "u-4" products
    { headers := [("x-api-key", "s3cret")],
      body := ReqBody.obj [("name", JVal.str "Kettle"), ("description", JVal.str "1.7l"),
        ("price", JVal.num 0), ("category", JVal.str "kitchen"),
        ("inStock", JVal.bool true)] } (by decide)).2.2 (Or.inl (by decide))

/-! ## Update -/

theorem putProduct_split (id : String) (front : Products) (old : Obj) (back : Products)
    (req : Req) (hid : req.params.id = id) (hfront : ∀ q ∈ front, hasId id q = false)
    (hold : hasId id old = true) :
    putProduct (front ++ old :: back) req =
      (⟨200, Body.json (JVal.obj (spreadMerge old req.body))⟩,
        front ++ spreadMerge old req.body :: back) := by
  unfold putProduct
  rw [hid, findIndex_append_cons _ front old back hfront hold]
  simp only [getD_append_cons, set_append_cons]

theorem putProduct_absent (ps : Products) (req : Req)
    (h : ∀ p ∈ ps, hasId req.params.id p = false) :
    putProduct ps req = (notFound, ps) := by
  unfold putProduct
  rw [findIndex_eq_none _ ps h]

/-- C5: `PUT` merge.  When the path id occurs in the collection, an authenticated
`PUT /api/products/:id` answers 200 with a record that has, for every key of the body, the
body's value and, for every other key, exactly what the first record with that id had; that
record is replaced in place by the merged one, and the records before and after it, hence the
length of the collection, are unchanged. -/
theorem put_merges (env : Env) (uuid : String) (ps : Products) (req : Req)
    (hauth : authenticate env.API_KEY req = Step.next)
    (hocc : ∃ p ∈ ps, hasId req.params.id p = true) :
    ∃ (front : Products) (old : Obj) (back : Products) (updated : Obj),
      ps = front ++ old :: back ∧
      (∀ q ∈ front, hasId req.params.id q = false) ∧
      hasId req.params.id old = true ∧
      handle env uuid ps Route.update req =
        (⟨200, Body.json (JVal.obj updated)⟩, front ++ updated :: back) ∧
      (handle env uuid ps Route.update req).2.length = ps.length ∧
      (∀ k ∈ bodyKeys req.body, lookupField updated k = some (bodyGet req.body k)) ∧
      (∀ k, k ∉ bodyKeys req.body → lookupField updated k = lookupField old k) := by
  obtain ⟨front, old, back, hsplit, hfront, hold⟩ := exists_first_match _ ps hocc
  have hrun : handle env uuid ps Route.update req =
      (⟨200, Body.json (JVal.obj (spreadMerge old req.body))⟩,
        front ++ spreadMerge old req.body :: back) := by
    rw [handle_of_next _ _ _ _ _ hauth]
    simp only [runHandler]
    rw [hsplit]
    exact putProduct_split _ front old back req rfl hfront hold
  refine ⟨front, old, back, spreadMerge old req.body, hsplit, hfront, hold, hrun, ?_, ?_, ?_⟩
  · rw [hrun, hsplit]
    simp
  · intro k hk
    rw [lookupField_spreadMerge]
    simp [hk]
  · intro k hk
    rw [lookupField_spreadMerge]
    simp [hk]

theorem put_merges_witness :
    ∃ (front : Products) (old : Obj) (back : Products) (updated : Obj),
      products = front ++ old :: back ∧
      (∀ q ∈ front, hasId "2" q = false) ∧
      hasId "2" old = true ∧
      handle ⟨some "s3cret", fun s => s⟩ "u" products Route.update
          { headers := [("x-api-key", "s3cret")], params := { id := "2" },
            body := ReqBody.obj [("price", JVal.num 750), ("colour", JVal.str "black")] } =
        (⟨200, Body.json (JVal.obj updated)⟩, front ++ updated :: back) ∧
      (handle ⟨some "s3cret", fun s => s⟩ "u" products Route.update
          { headers := [("x-api-key", "s3cret")], params := { id := "2" },
            body := ReqBody.obj [("price", JVal.num 750), ("colour", JVal.str "black")] }
        ).2.length = products.length ∧
      (∀ k ∈ bodyKeys (ReqBody.obj [("price", JVal.num 750), ("colour", JVal.str "black")]),
        lookupField updated k =
          some (bodyGet (ReqBody.obj [("price", JVal.num 750), ("colour", JVal.str "black")])
            k)) ∧
      (∀ k, k ∉ bodyKeys (ReqBody.obj [("price", JVal.num 750), ("colour", JVal.str "black")]) →
        lookupField updated k = lookupField old k) :=
  put_merges ⟨some "s3cret", fun s => s⟩ "u" products
    { headers := [("x-api-key", "s3cret")], params := { id := "2" },
      body := ReqBody.obj [("price", JVal.num 750), ("colour", JVal.str "black")] }
    (by decide) ⟨products.getD 1 [], by decide, by decide⟩

/-- C6: evaluation of the code at the failing input.  On the initial collection the request
`PUT /api/products/1` with body `{id: '9'}` answers 200 with the record renamed to id `'9'`;
the same request sent again answers 404, so the second response differs from the first. -/
theorem put_twice_differs :
    (handle ⟨some "s3cret", fun s => s⟩ "u" products Route.update
        { headers := [("x-api-key", "s3cret")], params := { id := "1" },
          body := ReqBody.obj [("id", JVal.str "9")] }).1 =
      ⟨200, Body.json (JVal.obj [("id", JVal.str "9"), ("name", JVal.str "Laptop"),
        ("description", JVal.str "16GB RAM"), ("price", JVal.num 1200),
        ("category", JVal.str "electronics"), ("inStock", JVal.bool true)])⟩ ∧
    (handle ⟨some "s3cret", fun s => s⟩ "u"
        (handle ⟨some "s3cret", fun s => s⟩ "u" products Route.update
          { headers := [("x-api-key", "s3cret")], params := { id := "1" },
            body := ReqBody.obj [("id", JVal.str "9")] }).2 Route.update
        { headers := [("x-api-key", "s3cret")], params := { id := "1" },
          body := ReqBody.obj [("id", JVal.str "9")] }).1 =
      ⟨404, Body.json (JVal.obj [("error", JVal.str "Product not found")])⟩ := by
  decide

/-! ## The spread applied twice -/

theorem setField_of_not_mem (o : Obj) (k : String) (v : JVal) (h : k ∉ keysOf o) :
    setField o k v = o ++ [(k, v)] := by
  induction o with
  | nil => rfl
  | cons e rest ih =>
    obtain ⟨k₀, v₀⟩ := e
    simp only [keysOf, List.map_cons, List.mem_cons, not_or] at h
    have h₁ : k₀ ≠ k := fun e => h.1 e.symm
    simp only [setField, h₁, if_false, List.cons_append]
    rw [ih h.2]

theorem setField_eq_self (o : Obj) (k : String) (v : JVal) (h : lookupField o k = some v) :
    setField o k v = o := by
  induction o with
  | nil => simp [lookupField] at h
  | cons e rest ih =>
    obtain ⟨k₀, v₀⟩ := e
    by_cases h₁ : k₀ = k
    · simp only [lookupField, h₁, if_true, Option.some.injEq] at h
      simp [setField, h₁, h]
    · simp only [lookupField, h₁, if_false] at h
      simp [setField, h₁, ih h]

theorem keysOf_setField (o : Obj) (k : String) (v : JVal) :
    keysOf (setField o k v) = if k ∈ keysOf o then keysOf o else keysOf o ++ [k] := by
  induction o with
  | nil => simp [setField, keysOf]
  | cons e rest ih =>
    obtain ⟨k₀, v₀⟩ := e
    by_cases h₁ : k₀ = k
    · simp [setField, keysOf, h₁]
    · have h₂ : k ≠ k₀ := fun e => h₁ e.symm
      simp only [setField, h₁, if_false]
      simp only [keysOf, List.map_cons, List.mem_cons, h₂, false_or] at ih ⊢
      rw [ih]
      split <;> simp

theorem nodup_keysOf_setField (o : Obj) (k : String) (v : JVal) (h : (keysOf o).Nodup) :
    (keysOf (setField o k v)).Nodup := by
  rw [keysOf_setField]
  split
  · exact h
  · rename_i hk
    exact List.nodup_append.mpr ⟨h, List.nodup_singleton k, by
      intro a ha hb
      rw [List.mem_singleton] at hb
      exact hk (hb ▸ ha)⟩

theorem nodup_keysOf_spreadInto (target : Obj) (keys : List String) (get : String → JVal)
    (h : (keysOf target).Nodup) : (keysOf (spreadInto target keys get)).Nodup := by
  induction keys generalizing target with
  | nil => simpa [spreadInto] using h
  | cons a rest ih =>
    have hstep : spreadInto target (a :: rest) get =
        spreadInto (setField target a (get a)) rest get := by
      simp [spreadInto]
    rw [hstep]
    exact ih _ (nodup_keysOf_setField _ _ _ h)

theorem spreadInto_eq_self (target : Obj) (keys : List String) (get : String → JVal)
    (h : ∀ k ∈ keys, lookupField target k = some (get k)) :
    spreadInto target keys get = target := by
  induction keys with
  | nil => simp [spreadInto]
  | cons a rest ih =>
    have hstep : spreadInto target (a :: rest) get =
        spreadInto (setField target a (get a)) rest get := by
      simp [spreadInto]
    rw [hstep, setField_eq_self _ _ _ (h a (List.mem_cons_self _ _))]
    exact ih (fun k hk => h k (List.mem_cons_of_mem _ hk))

theorem lookupField_append_of_not_mem (acc rest : Obj) (k : String) (h : k ∉ keysOf acc) :
    lookupField (acc ++ rest) k = lookupField rest k := by
  induction acc with
  | nil => rfl
  | cons e tl ih =>
    obtain ⟨k₀, v₀⟩ := e
    simp only [keysOf, List.map_cons, List.mem_cons, not_or] at h
    have h₁ : k₀ ≠ k := fun e => h.1 e.symm
    simp only [List.cons_append, lookupField, h₁, if_false]
    exact ih h.2

theorem spreadInto_copy (acc rest : Obj) (h : (keysOf (acc ++ rest)).Nodup) :
    spreadInto acc (keysOf rest) (getField (acc ++ rest)) = acc ++ rest := by
  induction rest generalizing acc with
  | nil => simp [spreadInto, keysOf]
  | cons e tl ih =>
    obtain ⟨k, v⟩ := e
    have hk : k ∉ keysOf acc := by
      intro hmem
      simp only [keysOf, List.map_append, List.map_cons] at h hmem
      have := (List.nodup_append.mp h).2.2
      exact this hmem (List.mem_cons_self _ _)
    have hget : getField (acc ++ (k, v) :: tl) k = v := by
      simp [getField, lookupField_append_of_not_mem _ _ _ hk, lookupField]
    have hstep : spreadInto acc (keysOf ((k, v) :: tl)) (getField (acc ++ (k, v) :: tl)) =
        spreadInto (setField acc k (getField (acc ++ (k, v) :: tl) k)) (keysOf tl)
          (getField (acc ++ (k, v) :: tl)) := by
      simp [spreadInto, keysOf]
    rw [hstep, hget, setField_of_not_mem _ _ _ hk]
    have happ : acc ++ (k, v) :: tl = (acc ++ [(k, v)]) ++ tl := by simp
    rw [happ]
    apply ih
    rw [← happ]
    exact h

theorem spreadMerge_idempotent (r : Obj) (body : ReqBody) :
    spreadMerge (spreadMerge r body) body = spreadMerge r body := by
  have hnodup : (keysOf (spreadMerge r body)).Nodup := by
    unfold spreadMerge
    apply nodup_keysOf_spreadInto
    apply nodup_keysOf_spreadInto
    simp [keysOf]
  have hcopy : spreadInto [] (keysOf (spreadMerge r body)) (getField (spreadMerge r body)) =
      spreadMerge r body := by
    have := spreadInto_copy [] (spreadMerge r body) (by simpa using hnodup)
    simpa using this
  have hunfold : spreadMerge (spreadMerge r body) body =
      spreadInto (spreadInto [] (keysOf (spreadMerge r body)) (getField (spreadMerge r body)))
        (bodyKeys body) (bodyGet body) := rfl
  rw [hunfold, hcopy]
  apply spreadInto_eq_self
  intro k hk
  rw [lookupField_spreadMerge]
  simp [hk]

theorem hasId_spreadMerge (id : String) (old : Obj) (body : ReqBody)
    (hold : hasId id old = true)
    (hkeep : "id" ∉ bodyKeys body ∨ bodyGet body "id" = JVal.str id) :
    hasId id (spreadMerge old body) = true := by
  unfold hasId getField at hold ⊢
  rw [lookupField_spreadMerge]
  rcases hkeep with h | h
  · simpa [h] using hold
  · by_cases hb : "id" ∈ bodyKeys body
    · simp [hb, h, strictEq]
    · simpa [hb] using hold

/-- Idempotence of the update as far as it holds: when the body does not replace the id that
the path names, the same `PUT` sent again answers as the first one did and leaves the
collection as the first one left it. -/
theorem putProduct_idempotent (ps : Products) (req : Req)
    (hkeep : "id" ∉ bodyKeys req.body ∨ bodyGet req.body "id" = JVal.str req.params.id) :
    putProduct (putProduct ps req).2 req = putProduct ps req := by
  by_cases hocc : ∃ p ∈ ps, hasId req.params.id p = true
  · obtain ⟨front, old, back, hsplit, hfront, hold⟩ := exists_first_match _ ps hocc
    subst hsplit
    rw [putProduct_split _ front old back req rfl hfront hold]
    simp only
    rw [putProduct_split _ front (spreadMerge old req.body) back req rfl hfront
      (hasId_spreadMerge _ _ _ hold hkeep), spreadMerge_idempotent]
  · have hall : ∀ p ∈ ps, hasId req.params.id p = false := by
      intro p hp
      cases h : hasId req.params.id p
      · rfl
      · exact absurd ⟨p, hp, h⟩ hocc
    rw [putProduct_absent ps req hall]
    simp only
    rw [putProduct_absent ps req hall]

/-! ## Deletion -/

theorem deleteProduct_split (id : String) (front : Products) (p : Obj) (back : Products)
    (req : Req) (hid : req.params.id = id) (hfront : ∀ q ∈ front, hasId id q = false)
    (hp : hasId id p = true) :
    deleteProduct (front ++ p :: back) req = (⟨204, Body.empty⟩, front ++ back) := by
  unfold deleteProduct
  rw [hid, findIndex_append_cons _ front p back hfront hp]
  simp only [eraseIdx_append_cons]

theorem deleteProduct_absent (ps : Products) (req : Req)
    (h : ∀ p ∈ ps, hasId req.params.id p = false) :
    deleteProduct ps req = (notFound, ps) := by
  unfold deleteProduct
  rw [findIndex_eq_none _ ps h]

theorem getProductById_absent (ps : Products) (req : Req)
    (h : ∀ p ∈ ps, hasId req.params.id p = false) :
    getProductById ps req = (notFound, ps) := by
  unfold getProductById
  rw [find_eq_none _ ps h]

/-- C7, as stated, fails: in the collection that `PUT /api/products/2` with body `{id: '1'}`
leaves behind, two records have id `'1'`; `DELETE /api/products/1` answers 204 and removes the
first of them, and the following `GET /api/products/1` answers 200 with the second. -/
theorem delete_then_get_still_found :
    (handle ⟨some "s3cret", fun s => s⟩ "u"
        (handle ⟨some "s3cret", fun s => s⟩ "u" products Route.update
          { headers := [("x-api-key", "s3cret")], params := { id := "2" },
            body := ReqBody.obj [("id", JVal.str "1")] }).2 Route.delete
        { headers := [("x-api-key", "s3cret")], params := { id := "1" } }).1 =
      ⟨204, Body.empty⟩ ∧
    (handle ⟨some "s3cret", fun s => s⟩ "u"
        (handle ⟨some "s3cret", fun s => s⟩ "u"
          (handle ⟨some "s3cret", fun s => s⟩ "u" products Route.update
            { headers := [("x-api-key", "s3cret")], params := { id := "2" },
              body := ReqBody.obj [("id", JVal.str "1")] }).2 Route.delete
          { headers := [("x-api-key", "s3cret")], params := { id := "1" } }).2 Route.getById
        { headers := [("x-api-key", "s3cret")], params := { id := "1" } }).1 =
      ⟨200, Body.json (JVal.obj [("id", JVal.str "1"), ("name", JVal.str "Smartphone"),
        ("description", JVal.str "128GB storage"), ("price", JVal.num 800),
        ("category", JVal.str "electronics"), ("inStock", JVal.bool true)])⟩ := by
  decide

/-- C7, amended: when at most one record of the collection has the path id, an authenticated
`DELETE /api/products/:id` that answers 204, followed by an authenticated
`GET /api/products/:id` with the same id, answers 404 with `{error: 'Product not found'}`. -/
theorem delete_then_get_not_found (env : Env) (uuid uuid2 : String) (ps : Products)
    (del get : Req)
    (hdel : authenticate env.API_KEY del = Step.next)
    (hget : authenticate env.API_KEY get = Step.next)
    (hid : get.params.id = del.params.id)
    (honce : ps.countP (hasId del.params.id) ≤ 1)
    (hok : (handle env uuid ps Route.delete del).1.status = 204) :
    (handle env uuid2 (handle env uuid ps Route.delete del).2 Route.getById get).1 =
      ⟨404, Body.json (JVal.obj [("error", JVal.str "Product not found")])⟩ := by
  rw [handle_of_next _ _ _ _ _ hdel] at hok ⊢
  rw [handle_of_next _ _ _ _ _ hget]
  simp only [runHandler] at hok ⊢
  have hocc : ∃ p ∈ ps, hasId del.params.id p = true := by
    by_contra hnone
    have hall : ∀ p ∈ ps, hasId del.params.id p = false := by
      intro p hp
      cases h : hasId del.params.id p
      · rfl
      · exact absurd ⟨p, hp, h⟩ hnone
    rw [deleteProduct_absent ps del hall] at hok
    simp [notFound] at hok
  obtain ⟨front, p, back, hsplit, hfront, hp⟩ := exists_first_match _ ps hocc
  subst hsplit
  rw [deleteProduct_split _ front p back del rfl hfront hp]
  have hback : ∀ q ∈ back, hasId del.params.id q = false := by
    have hcount : List.countP (hasId del.params.id) back = 0 := by
      rw [List.countP_append, List.countP_cons_of_pos _ _ hp] at honce
      omega
    intro q hq
    have := (List.countP_eq_zero.mp hcount) q hq
    simpa using this
  have hall : ∀ q ∈ front ++ back, hasId get.params.id q = false := by
    intro q hq
    rw [hid]
    rcases List.mem_append.mp hq with h | h
    · exact hfront q h
    · exact hback q h
  rw [getProductById_absent _ get hall]
  rfl

theorem delete_then_get_not_found_witness :
    (handle ⟨some "s3cret", fun s => s⟩ "u"
        (handle ⟨some "s3cret", fun s => s⟩ "u" products Route.delete
          { headers := [("x-api-key", "s3cret")], params := { id := "3" } }).2 Route.getById
        { headers := [("x-api-key", "s3cret")], params := { id := "3" } }).1 =
      ⟨404, Body.json (JVal.obj [("error", JVal.str "Product not found")])⟩ :=
  delete_then_get_not_found ⟨some "s3cret", fun s => s⟩ "u" "u" products
    { headers := [("x-api-key", "s3cret")], params := { id := "3" } }
    { headers := [("x-api-key", "s3cret")], params := { id := "3" } }
    (by decide) (by decide) rfl (by decide) (by decide)

/-! ## What the handlers do to the ids -/

theorem hasId_iff (id : String) (p : Obj) :
    hasId id p = true ↔ getField p "id" = JVal.str id := by
  unfold hasId
  cases getField p "id" <;> simp [strictEq]

theorem runHandler_store_of_read (env : Env) (uuid : String) (ps : Products) (route : Route)
    (req : Req)
    (hread : route ≠ Route.create ∧ route ≠ Route.update ∧ route ≠ Route.delete) :
    (runHandler env uuid ps route req).2 = ps := by
  obtain ⟨h1, h2, h3⟩ := hread
  cases route
  · rfl
  · simp only [runHandler]
    cases getProducts ps req <;> rfl
  · simp only [runHandler]
    cases searchProducts env ps req <;> rfl
  · simp only [runHandler]
    cases statsProducts ps <;> rfl
  · simp only [runHandler, getProductById]
    cases List.find? (hasId req.params.id) ps <;> rfl
  · exact absurd rfl h1
  · exact absurd rfl h2
  · exact absurd rfl h3

theorem handle_store_of_read (env : Env) (uuid : String) (ps : Products) (route : Route)
    (req : Req)
    (hread : route ≠ Route.create ∧ route ≠ Route.update ∧ route ≠ Route.delete) :
    (handle env uuid ps route req).2 = ps := by
  have hrun := runHandler_store_of_read env uuid ps route req hread
  cases hauth : authenticate env.API_KEY req with
  | next => rw [handle_of_next _ _ _ _ _ hauth]; exact hrun
  | respond res =>
    cases route <;> first
      | exact hrun
      | simp [handle, hauth]

theorem putProduct_ids (ps : Products) (req : Req)
    (hkeep : "id" ∉ bodyKeys req.body ∨ bodyGet req.body "id" = JVal.str req.params.id) :
    (putProduct ps req).2.map (fun p => getField p "id") =
      ps.map (fun p => getField p "id") := by
  by_cases hocc : ∃ p ∈ ps, hasId req.params.id p = true
  · obtain ⟨front, old, back, hsplit, hfront, hold⟩ := exists_first_match _ ps hocc
    subst hsplit
    rw [putProduct_split _ front old back req rfl hfront hold]
    have hnew := (hasId_iff _ _).mp (hasId_spreadMerge _ _ _ hold hkeep)
    have hold' := (hasId_iff _ _).mp hold
    simp [hnew, hold']
  · have hall : ∀ p ∈ ps, hasId req.params.id p = false := by
      intro p hp
      cases h : hasId req.params.id p
      · rfl
      · exact absurd ⟨p, hp, h⟩ hocc
    rw [putProduct_absent ps req hall]

theorem deleteProduct_sublist (ps : Products) (req : Req) :
    (deleteProduct ps req).2.Sublist ps := by
  unfold deleteProduct
  cases findIndex (hasId req.params.id) ps with
  | none => exact List.Sublist.refl _
  | some index => exact List.eraseIdx_sublist _ _

/-- Pairwise distinct ids are kept by every route whose request does not rename a record:
the read routes, `DELETE`, `POST` with an id that no record has, and `PUT` with a body that
leaves the id of the path alone. -/
theorem distinct_ids_preserved (env : Env) (uuid : String) (ps : Products) (route : Route)
    (req : Req)
    (hdistinct : (ps.map (fun p => getField p "id")).Nodup)
    (hfresh : route = Route.create → ∀ p ∈ ps, hasId uuid p = false)
    (hkeep : route = Route.update →
      "id" ∉ bodyKeys req.body ∨ bodyGet req.body "id" = JVal.str req.params.id) :
    ((handle env uuid ps route req).2.map (fun p => getField p "id")).Nodup := by
  by_cases hread : route ≠ Route.create ∧ route ≠ Route.update ∧ route ≠ Route.delete
  · rw [handle_store_of_read _ _ _ _ _ hread]
    exact hdistinct
  · cases hauth : authenticate env.API_KEY req with
    | respond res =>
      have hsame : (handle env uuid ps route req).2 = ps := by
        cases route <;> simp [handle, hauth, runHandler, rootHandler]
      rw [hsame]
      exact hdistinct
    | next =>
      rw [handle_of_next _ _ _ _ _ hauth]
      cases route with
      | create =>
        simp only [runHandler, postProduct]
        split
        · exact hdistinct
        · simp only [List.map_append, List.map_cons, List.map_nil]
          refine List.nodup_append.mpr ⟨hdistinct, List.nodup_singleton _, ?_⟩
          intro a ha hb
          rw [List.mem_singleton] at hb
          obtain ⟨p, hp, hpa⟩ := List.mem_map.mp ha
          have hne := hfresh rfl p hp
          have hid : getField (newProduct uuid req.body) "id" = JVal.str uuid :=
            (hasId_iff _ _).mp (hasId_newProduct uuid req.body)
          have : hasId uuid p = true := (hasId_iff _ _).mpr (by rw [hpa, hb, hid])
          rw [this] at hne
          cases hne
      | update =>
        simp only [runHandler]
        rw [putProduct_ids ps req (hkeep rfl)]
        exact hdistinct
      | delete =>
        simp only [runHandler]
        exact List.Nodup.sublist ((deleteProduct_sublist ps req).map _) hdistinct
      | root => exact absurd ⟨by decide, by decide, by decide⟩ hread
      | list => exact absurd ⟨by decide, by decide, by decide⟩ hread
      | search => exact absurd ⟨by decide, by decide, by decide⟩ hread
      | stats => exact absurd ⟨by decide, by decide, by decide⟩ hread
      | getById => exact absurd ⟨by decide, by decide, by decide⟩ hread

/-- C8: evaluation of the code at the failing input.  The initial collection has pairwise
distinct ids; `PUT /api/products/1` with body `{id: '2'}` answers 200, changes the id of the
first record from `'1'` to `'2'` and leaves a collection in which two records have id `'2'`. -/
theorem put_overwrites_id :
    (products.map (fun p => getField p "id")).Nodup ∧
    (handle ⟨some "s3cret", fun s => s⟩ "u" products Route.update
        { headers := [("x-api-key", "s3cret")], params := { id := "1" },
          body := ReqBody.obj [("id", JVal.str "2")] }).1.status = 200 ∧
    (handle ⟨some "s3cret", fun s => s⟩ "u" products Route.update
        { headers := [("x-api-key", "s3cret")], params := { id := "1" },
          body := ReqBody.obj [("id", JVal.str "2")] }).2.map (fun p => getField p "id") =
      [JVal.str "2", JVal.str "2", JVal.str "3"] ∧
    ¬ ((handle ⟨some "s3cret", fun s => s⟩ "u" products Route.update
        { headers := [("x-api-key", "s3cret")], params := { id := "1" },
          body := ReqBody.obj [("id", JVal.str "2")] }).2.map
            (fun p => getField p "id")).Nodup := by
  decide

/-- C9: an authenticated `POST /api/products` with a payload that passes the validation
answers 201 with the record made of the generated id and the payload's `name`, `description`,
`price`, `category` and `inStock`, and nothing else of the payload; the collection afterwards
is the old one followed by that record, so it is one longer. -/
theorem post_appends (env : Env) (uuid : String) (ps : Products) (req : Req)
    (hauth : authenticate env.API_KEY req = Step.next)
    (hvalid : invalidCreate req.body = false) :
    handle env uuid ps Route.create req =
        (⟨201, Body.json (JVal.obj
            [("id", JVal.str uuid), ("name", bodyGet req.body "name"),
             ("description", bodyGet req.body "description"),
             ("price", bodyGet req.body "price"),
             ("category", bodyGet req.body "category"),
             ("inStock", bodyGet req.body "inStock")])⟩,
          ps ++ [[("id", JVal.str uuid), ("name", bodyGet req.body "name"),
             ("description", bodyGet req.body "description"),
             ("price", bodyGet req.body "price"),
             ("category", bodyGet req.body "category"),
             ("inStock", bodyGet req.body "inStock")]]) ∧
      (handle env uuid ps Route.create req).2.length = ps.length + 1 := by
  rw [handle_of_next _ _ _ _ _ hauth]
  simp only [runHandler, postProduct_valid _ _ _ hvalid]
  exact ⟨rfl, by simp⟩

theorem post_appends_witness :
    handle ⟨some "s3cret", fun s => s⟩ "u-4" products Route.create
        { headers := [("x-api-key", "s3cret")],
          body := ReqBody.obj [("id", JVal.str "1"), ("name", JVal.str "Kettle"),
            ("description", JVal.str "1.7l"), ("price", JVal.num 30),
            ("category", JVal.str "kitchen"), ("inStock", JVal.bool true),
            ("colour", JVal.str "red")] } =
      (⟨201, Body.json (JVal.obj
          [("id", JVal.str "u-4"), ("name", JVal.str "Kettle"),
           ("description", JVal.str "1.7l"), ("price", JVal.num 30),
           ("category", JVal.str "kitchen"), ("inStock", JVal.bool true)])⟩,
        products ++ [[("id", JVal.str "u-4"), ("name", JVal.str "Kettle"),
           ("description", JVal.str "1.7l"), ("price", JVal.num 30),
           ("category", JVal.str "kitchen"), ("inStock", JVal.bool true)]]) :=
  (post_appends ⟨some "s3cret", fun s => s⟩ "u-4" products
    { headers := [("x-api-key", "s3cret")],
      body := ReqBody.obj [("id", JVal.str "1"), ("name", JVal.str "Kettle"),
        ("description", JVal.str "1.7l"), ("price", JVal.num 30),
        ("category", JVal.str "kitchen"), ("inStock", JVal.bool true),
        ("colour", JVal.str "red")] } (by decide) (by decide)).1

/-- C10: when the path id occurs in the collection, an authenticated
`DELETE /api/products/:id` answers 204 with an empty body and removes the first record with
that id and nothing else: the records before it and after it stay, in order, and the
collection is one shorter.  When the id does not occur, it answers 404 with
`{error: 'Product not found'}`. -/
theorem delete_removes_first (env : Env) (uuid : String) (ps : Products) (req : Req)
    (hauth : authenticate env.API_KEY req = Step.next) :
    ((∃ p ∈ ps, hasId req.params.id p = true) →
      ∃ (front : Products) (p : Obj) (back : Products),
        ps = front ++ p :: back ∧
        (∀ q ∈ front, hasId req.params.id q = false) ∧
        hasId req.params.id p = true ∧
        handle env uuid ps Route.delete req = (⟨204, Body.empty⟩, front ++ back) ∧
        (handle env uuid ps Route.delete req).2.length + 1 = ps.length) ∧
    ((∀ p ∈ ps, hasId req.params.id p = false) →
      (handle env uuid ps Route.delete req).1 =
        ⟨404, Body.json (JVal.obj [("error", JVal.str "Product not found")])⟩) := by
  rw [handle_of_next _ _ _ _ _ hauth]
  simp only [runHandler]
  constructor
  · intro hocc
    obtain ⟨front, p, back, hsplit, hfront, hp⟩ := exists_first_match _ ps hocc
    have hrun : deleteProduct ps req = (⟨204, Body.empty⟩, front ++ back) := by
      rw [hsplit]
      exact deleteProduct_split _ front p back req rfl hfront hp
    refine ⟨front, p, back, hsplit, hfront, hp, hrun, ?_⟩
    rw [hrun, hsplit]
    simp
    omega
  · intro hall
    rw [deleteProduct_absent ps req hall]
    rfl

theorem delete_removes_first_witness :
    (∃ (front : Products) (p : Obj) (back : Products),
        products = front ++ p :: back ∧
        (∀ q ∈ front, hasId "2" q = false) ∧
        hasId "2" p = true ∧
        handle ⟨some "s3cret", fun s => s⟩ "u" products Route.delete
            { headers := [("x-api-key", "s3cret")], params := { id := "2" } } =
          (⟨204, Body.empty⟩, front ++ back) ∧
        (handle ⟨some "s3cret", fun s => s⟩ "u" products Route.delete
            { headers := [("x-api-key", "s3cret")], params := { id := "2" } }).2.length + 1 =
          products.length) ∧
    (handle ⟨some "s3cret", fun s => s⟩ "u" products Route.delete
        { headers := [("x-api-key", "s3cret")], params := { id := "7" } }).1 =
      ⟨404, Body.json (JVal.obj [("error", JVal.str "Product not found")])⟩ :=
  ⟨(delete_removes_first ⟨some "s3cret", fun s => s⟩ "u" products
      { headers := [("x-api-key", "s3cret")], params := { id := "2" } } (by decide)).1
      ⟨products.getD 1 [], by decide, by decide⟩,
   (delete_removes_first ⟨some "s3cret", fun s => s⟩ "u" products
      { headers := [("x-api-key", "s3cret")], params := { id := "7" } } (by decide)).2
      (by decide)⟩

/-! ## Lemmas on Numbers -/

/-- The threshold written out in `overflowThreshold` is `2^1024 - 2^970`. -/
theorem overflowThreshold_eq : overflowThreshold = 2 ^ 1024 - 2 ^ 970 := by
  norm_num [overflowThreshold]

theorem shrink_of_lt (fuel n : Nat) (half sticky : Bool) (h : n < 2 ^ 53) :
    shrink fuel n half sticky = (n, 0, half, sticky) := by
  cases fuel with
  | zero => rfl
  | succ f =>
    rw [shrink, if_pos h]

theorem roundNat_of_lt (n : Nat) (h : n < 2 ^ 53) : roundNat n = n := by
  unfold roundNat
  rw [shrink_of_lt n n false false h]
  simp

theorem shrink_large (fuel n : Nat) (half sticky : Bool) (hfuel : n ≤ fuel)
    (hn : 2 ^ 53 ≤ n) :
    2 ^ 52 ≤ (shrink fuel n half sticky).1 ∧ 1 ≤ (shrink fuel n half sticky).2.1 := by
  induction fuel generalizing n half sticky with
  | zero => omega
  | succ fuel ih =>
    have hnot : ¬ n < 2 ^ 53 := by omega
    rw [shrink, if_neg hnot]
    by_cases hsmall : n / 2 < 2 ^ 53
    · rw [shrink_of_lt fuel (n / 2) _ _ hsmall]
      simp only
      omega
    · have := ih (n / 2) (n % 2 == 1) (sticky || half) (by omega) (by omega)
      rcases hsh : shrink fuel (n / 2) (n % 2 == 1) (sticky || half) with ⟨q, e, h, s⟩
      rw [hsh] at this
      simp only at this ⊢
      omega

theorem roundNat_large (n : Nat) (hn : 2 ^ 53 ≤ n) : 2 ^ 53 ≤ roundNat n := by
  have hs := shrink_large n n false false (le_refl _) hn
  unfold roundNat
  rcases hsh : shrink n n false false with ⟨q, e, h, s⟩
  rw [hsh] at hs
  simp only at hs ⊢
  have hq : 2 ^ 52 ≤ (if (h && (s || q % 2 == 1)) = true then q + 1 else q) := by
    split <;> omega
  have he : 2 ^ 1 ≤ 2 ^ e := Nat.pow_le_pow_right (by decide) hs.2
  calc 2 ^ 53 = 2 ^ 52 * 2 ^ 1 := by norm_num
    _ ≤ _ := Nat.mul_le_mul hq he

theorem toNumber_of_lt (z : Int) (h : z.natAbs < 2 ^ 53) : toNumber z = JNum.fin z := by
  have hT : (2 : Nat) ^ 53 ≤ overflowThreshold := by decide
  unfold toNumber
  rw [if_neg (by omega), roundNat_of_lt _ h]
  split <;> (congr 1; omega)

/-- A Number at least `2^52`: more than any index of a list. -/
theorem toNumber_large (z : Int) (h : 2 ^ 52 ≤ z) :
    toNumber z = JNum.inf false ∨ ∃ m : Int, toNumber z = JNum.fin m ∧ 2 ^ 52 ≤ m := by
  unfold toNumber
  have hneg : ¬ z < 0 := by
    have : (0 : Int) ≤ 2 ^ 52 := by norm_num
    omega
  by_cases hover : overflowThreshold ≤ z.natAbs
  · left
    simp [hover, hneg]
  · right
    rw [if_neg hover, if_neg hneg]
    refine ⟨_, rfl, ?_⟩
    by_cases hsmall : z.natAbs < 2 ^ 53
    · rw [roundNat_of_lt _ hsmall]
      omega
    · have := roundNat_large z.natAbs (by omega)
      have h2 : (2 : Int) ^ 52 ≤ 2 ^ 53 := by norm_num
      omega

theorem toNumber_huge (z : Int) (h : 2 ^ 53 ≤ z) :
    toNumber z = JNum.inf false ∨ ∃ m : Int, toNumber z = JNum.fin m ∧ 2 ^ 53 ≤ m := by
  unfold toNumber
  have hneg : ¬ z < 0 := by
    have : (0 : Int) ≤ 2 ^ 53 := by norm_num
    omega
  by_cases hover : overflowThreshold ≤ z.natAbs
  · left
    simp [hover, hneg]
  · right
    rw [if_neg hover, if_neg hneg]
    refine ⟨_, rfl, ?_⟩
    have := roundNat_large z.natAbs (by omega)
    omega

theorem relIndex_fin (len : Nat) (i : Int) :
    relIndex len (JNum.fin i) = if i < 0 then ((len : Int) + i).toNat else min i.toNat len :=
  rfl

theorem shrink_fst (fuel n : Nat) (half sticky : Bool) :
    (shrink fuel n half sticky).1 = n / 2 ^ (shrink fuel n half sticky).2.1 := by
  induction fuel generalizing n half sticky with
  | zero => simp [shrink]
  | succ fuel ih =>
    rw [shrink]
    split
    · simp
    · have := ih (n / 2) (n % 2 == 1) (sticky || half)
      rcases hsh : shrink fuel (n / 2) (n % 2 == 1) (sticky || half) with ⟨q, e, h, s⟩
      rw [hsh] at this
      simp only at this ⊢
      rw [this, Nat.div_div_eq_div_mul, pow_succ, Nat.mul_comm]

/-- Rounding to a double loses less than a quarter of the value. -/
theorem roundNat_three_quarters (n : Nat) : 3 * n ≤ 4 * roundNat n := by
  by_cases hsmall : n < 2 ^ 53
  · rw [roundNat_of_lt n hsmall]
    omega
  · have hs := shrink_large n n false false (le_refl _) (by omega)
    have hq := shrink_fst n n false false
    unfold roundNat
    rcases hsh : shrink n n false false with ⟨q, e, h, s⟩
    rw [hsh] at hs hq
    simp only at hs hq ⊢
    have hpos : 0 < 2 ^ e := Nat.pow_pos (by decide)
    have hlt : n < (q + 1) * 2 ^ e := by
      have := Nat.lt_succ_self (n / 2 ^ e)
      rw [hq]
      exact (Nat.div_lt_iff_lt_mul hpos).mp this
    have hq52 : 3 * (q + 1) ≤ 4 * q := by
      have : (2 : Nat) ^ 52 = 4503599627370496 := by norm_num
      omega
    have hle : q * 2 ^ e ≤ (if (h && (s || q % 2 == 1)) = true then q + 1 else q) * 2 ^ e := by
      apply Nat.mul_le_mul_right
      split <;> omega
    have h1 : 3 * ((q + 1) * 2 ^ e) ≤ 4 * (q * 2 ^ e) := by
      calc 3 * ((q + 1) * 2 ^ e) = (3 * (q + 1)) * 2 ^ e := by ring
        _ ≤ (4 * q) * 2 ^ e := Nat.mul_le_mul_right _ hq52
        _ = 4 * (q * 2 ^ e) := by ring
    omega

/-- The Number for a negative integer: exact below `2^53`, and beyond that at least `2^53` in
size and within a quarter of the integer. -/
theorem toNumber_neg_class (z : Int) (hz : z ≤ -1) :
    toNumber z = JNum.inf true ∨
      ∃ m : Int, toNumber z = JNum.fin m ∧ m ≤ -1 ∧ (-(2 ^ 53) < z → m = z) ∧
        (z ≤ -(2 ^ 53) → m ≤ -(2 ^ 53) ∧ 4 * m ≤ 3 * z) := by
  have h53 : (2 : Int) ^ 53 = 9007199254740992 := by norm_num
  have h53n : (2 : Nat) ^ 53 = 9007199254740992 := by norm_num
  unfold toNumber
  have hneg : z < 0 := by omega
  by_cases hover : overflowThreshold ≤ z.natAbs
  · left
    simp [hover, hneg]
  · right
    rw [if_neg hover, if_pos hneg]
    refine ⟨_, rfl, ?_, ?_, ?_⟩
    · by_cases hsmall : z.natAbs < 2 ^ 53
      · rw [roundNat_of_lt _ hsmall]
        omega
      · have := roundNat_large z.natAbs (by omega)
        omega
    · intro h
      rw [roundNat_of_lt _ (by omega)]
      omega
    · intro h
      have h1 := roundNat_large z.natAbs (by omega)
      have h2 := roundNat_three_quarters z.natAbs
      omega

theorem toNumber_pos_class (z : Int) (hz : 1 ≤ z) :
    toNumber z = JNum.inf false ∨
      ∃ m : Int, toNumber z = JNum.fin m ∧ 1 ≤ m ∧ (z < 2 ^ 53 → m = z) ∧
        (2 ^ 53 ≤ z → 2 ^ 53 ≤ m ∧ 3 * z ≤ 4 * m) := by
  have h53 : (2 : Int) ^ 53 = 9007199254740992 := by norm_num
  have h53n : (2 : Nat) ^ 53 = 9007199254740992 := by norm_num
  unfold toNumber
  have hneg : ¬ z < 0 := by omega
  by_cases hover : overflowThreshold ≤ z.natAbs
  · left
    simp [hover, hneg]
  · right
    rw [if_neg hover, if_neg hneg]
    refine ⟨_, rfl, ?_, ?_, ?_⟩
    · by_cases hsmall : z.natAbs < 2 ^ 53
      · rw [roundNat_of_lt _ hsmall]
        omega
      · have := roundNat_large z.natAbs (by omega)
        omega
    · intro h
      rw [roundNat_of_lt _ (by omega)]
      omega
    · intro h
      have h1 := roundNat_large z.natAbs (by omega)
      have h2 := roundNat_three_quarters z.natAbs
      omega

theorem relIndex_le (len : Nat) (x : JNum) : relIndex len x ≤ len := by
  cases x with
  | nan => exact Nat.zero_le _
  | inf s => cases s <;> simp [relIndex]
  | fin i =>
    rw [relIndex_fin]
    split
    · omega
    · exact Nat.min_le_right _ _

/-! ## Listing: the slice of a page -/

theorem slice_fin_nonneg {α : Type} (xs : List α) (start stop : Int) (hs : 0 ≤ start)
    (he : 0 ≤ stop) :
    slice xs (JNum.fin start) (JNum.fin stop) =
      (xs.drop start.toNat).take (stop.toNat - start.toNat) := by
  unfold slice
  rw [relIndex_fin, relIndex_fin, if_neg (by omega), if_neg (by omega)]
  by_cases h : xs.length ≤ start.toNat
  · rw [Nat.min_eq_right h, List.drop_of_length_le h, List.drop_of_length_le (le_refl _)]
    simp
  · have hlt : start.toNat < xs.length := by omega
    rw [Nat.min_eq_left (le_of_lt hlt)]
    by_cases h2 : stop.toNat ≤ xs.length
    · rw [Nat.min_eq_left h2]
    · rw [Nat.min_eq_right (by omega)]
      have hlen : (xs.drop start.toNat).length = xs.length - start.toNat := List.length_drop _ _
      rw [List.take_of_length_le (by omega), List.take_of_length_le (by omega)]

theorem relIndex_large (len : Nat) (x : JNum) (hlen : len < 2 ^ 32)
    (hx : x = JNum.inf false ∨ ∃ m : Int, x = JNum.fin m ∧ 2 ^ 52 ≤ m) :
    relIndex len x = len := by
  rcases hx with rfl | ⟨m, rfl, hm⟩
  · rfl
  · have h32 : (2 : Nat) ^ 32 = 4294967296 := by norm_num
    have h52 : (2 : Int) ^ 52 = 4503599627370496 := by norm_num
    rw [relIndex_fin, if_neg (by omega)]
    apply Nat.min_eq_right
    omega

theorem slice_large_start {α : Type} (xs : List α) (start stop : JNum)
    (hlen : xs.length < 2 ^ 32)
    (hx : start = JNum.inf false ∨ ∃ m : Int, start = JNum.fin m ∧ 2 ^ 52 ≤ m) :
    slice xs start stop = [] := by
  unfold slice
  rw [relIndex_large _ _ hlen hx, List.drop_of_length_le (le_refl _)]
  simp

theorem numMul_large (a : JNum) (l : Int) (hl : 1 ≤ l)
    (ha : a = JNum.inf false ∨ ∃ m : Int, a = JNum.fin m ∧ 2 ^ 52 ≤ m) :
    numMul a (JNum.fin l) = JNum.inf false ∨
      ∃ m : Int, numMul a (JNum.fin l) = JNum.fin m ∧ 2 ^ 52 ≤ m := by
  rcases ha with rfl | ⟨m, rfl, hm⟩
  · left
    have h0 : l ≠ 0 := by omega
    have hneg : ¬ l < 0 := by omega
    simp [numMul, h0, hneg]
  · apply toNumber_large
    calc (2 : Int) ^ 52 = 2 ^ 52 * 1 := by ring
      _ ≤ m * l := Int.mul_le_mul hm hl (by norm_num) (by
        have : (0 : Int) ≤ 2 ^ 52 := by norm_num
        omega)

/-- The page that the handler cuts out for positive `page` and positive finite `limit`: the
arithmetic in Numbers selects the same items as the exact bounds. -/
theorem pageOf_positive (items : Products) (page limit : Int) (hpage : 0 < page)
    (hlimit : 0 < limit) (hfinite : limit.natAbs < overflowThreshold)
    (hlen : items.length < 2 ^ 32) :
    slice items (numMul (numSub (toNumber page) (JNum.fin 1)) (toNumber limit))
        (numAdd (numMul (numSub (toNumber page) (JNum.fin 1)) (toNumber limit))
          (toNumber limit)) =
      (items.drop ((page - 1) * limit).toNat).take limit.toNat := by
  have h32 : (2 : Nat) ^ 32 = 4294967296 := by norm_num
  have h52 : (2 : Int) ^ 52 = 4503599627370496 := by norm_num
  have h53 : (2 : Int) ^ 53 = 9007199254740992 := by norm_num
  have h53n : (2 : Nat) ^ 53 = 9007199254740992 := by norm_num
  obtain ⟨l, hl, hl1, hlsmall, hlbig⟩ : ∃ l : Int, toNumber limit = JNum.fin l ∧ 1 ≤ l ∧
      (limit < 2 ^ 53 → l = limit) ∧ (2 ^ 53 ≤ limit → 2 ^ 53 ≤ l) := by
    by_cases hsmall : limit.natAbs < 2 ^ 53
    · exact ⟨limit, toNumber_of_lt _ hsmall, by omega, fun _ => rfl, fun h => by omega⟩
    · have hneg : ¬ limit < 0 := by omega
      have hround := roundNat_large limit.natAbs (by omega)
      refine ⟨(roundNat limit.natAbs : Int), ?_, by omega, fun h => by omega, fun _ => by omega⟩
      unfold toNumber
      rw [if_neg (by omega), if_neg hneg]
  rw [hl]
  by_cases hone : page = 1
  · subst hone
    have h1 : toNumber 1 = JNum.fin 1 := toNumber_of_lt 1 (by decide)
    have h0 : toNumber 0 = JNum.fin 0 := toNumber_of_lt 0 (by decide)
    have ha : numSub (toNumber 1) (JNum.fin 1) = JNum.fin 0 := by
      rw [h1]
      simp only [numSub, sub_self, h0]
    have hs : numMul (JNum.fin 0) (JNum.fin l) = JNum.fin 0 := by
      simp only [numMul, zero_mul, h0]
    have he : numAdd (JNum.fin 0) (JNum.fin l) = JNum.fin l := by
      simp only [numAdd, if_true]
    rw [ha, hs, he, slice_fin_nonneg _ _ _ (le_refl _) (by omega)]
    simp only [sub_self, zero_mul, Int.toNat_zero, List.drop_zero, Nat.sub_zero]
    by_cases hsmall : limit < 2 ^ 53
    · rw [hlsmall hsmall]
    · have := hlbig (by omega)
      rw [List.take_of_length_le (by omega), List.take_of_length_le (by omega)]
  · have hpage2 : 2 ≤ page := by omega
    by_cases hexact : page * limit < 2 ^ 53
    · have hp : page < 2 ^ 53 := by nlinarith
      have hlim : limit < 2 ^ 53 := by nlinarith
      have hprod0 : 0 ≤ (page - 1) * limit := Int.mul_nonneg (by omega) (by omega)
      have hprod1 : 1 ≤ (page - 1) * limit := by nlinarith
      have hsum : (page - 1) * limit + limit = page * limit := by ring
      have ha : numSub (toNumber page) (JNum.fin 1) = JNum.fin (page - 1) := by
        rw [toNumber_of_lt page (by omega)]
        simp only [numSub]
        exact toNumber_of_lt _ (by omega)
      have hs : numMul (JNum.fin (page - 1)) (JNum.fin limit) =
          JNum.fin ((page - 1) * limit) := by
        simp only [numMul]
        exact toNumber_of_lt _ (by omega)
      have he : numAdd (JNum.fin ((page - 1) * limit)) (JNum.fin limit) =
          JNum.fin ((page - 1) * limit + limit) := by
        simp only [numAdd]
        rw [if_neg (by omega), if_neg (by omega)]
        exact toNumber_of_lt _ (by omega)
      rw [hlsmall hlim, ha, hs, he, slice_fin_nonneg _ _ _ hprod0 (by omega)]
      congr 1
      omega
    · have hbig : (2 : Int) ^ 52 ≤ (page - 1) * limit := by nlinarith
      rw [List.drop_of_length_le (by omega)]
      simp only [List.take_nil]
      apply slice_large_start _ _ _ hlen
      by_cases hp : page.natAbs < 2 ^ 53
      · have ha : numSub (toNumber page) (JNum.fin 1) = JNum.fin (page - 1) := by
          rw [toNumber_of_lt page hp]
          simp only [numSub]
          exact toNumber_of_lt _ (by omega)
        rw [ha]
        simp only [numMul]
        apply toNumber_large
        by_cases hlim : limit < 2 ^ 53
        · rw [hlsmall hlim]
          exact hbig
        · have := hlbig (by omega)
          nlinarith
      · apply numMul_large _ _ hl1
        rcases toNumber_huge page (by omega) with hinf | ⟨m, hm, hm53⟩
        · rw [hinf]
          left
          rfl
        · rw [hm]
          simp only [numSub]
          exact toNumber_large _ (by omega)

/-! ## Listing: pages that select nothing -/

theorem slice_nil_of_le {α : Type} (xs : List α) (start stop : JNum)
    (h : relIndex xs.length stop ≤ relIndex xs.length start) : slice xs start stop = [] := by
  unfold slice
  rw [Nat.sub_eq_zero_of_le h]
  exact List.take_zero _

theorem relIndex_fin_neg (len : Nat) (i : Int) (hi : i < 0) (h : (len : Int) + i ≤ 0) :
    relIndex len (JNum.fin i) = 0 := by
  rw [relIndex_fin, if_pos hi]
  omega

/-- The Number `page - 1` for a negative page. -/
theorem numSub_one_neg (page : Int) (hpage : page ≤ -1) :
    numSub (toNumber page) (JNum.fin 1) = JNum.inf true ∨
      ∃ a : Int, numSub (toNumber page) (JNum.fin 1) = JNum.fin a ∧ a ≤ -2 ∧
        (-(2 ^ 53) < a → a = page - 1) := by
  have h53 : (2 : Int) ^ 53 = 9007199254740992 := by norm_num
  rcases toNumber_neg_class page hpage with hP | ⟨p, hP, hp1, hpS, hpB⟩
  · left
    rw [hP]
    rfl
  · rw [hP]
    simp only [numSub]
    rcases toNumber_neg_class (p - 1) (by omega) with hA | ⟨a, hA, ha1, haS, haB⟩
    · left
      exact hA
    · right
      refine ⟨a, hA, ?_, ?_⟩
      · by_cases h : -(2 ^ 53) < p - 1
        · have := haS h
          omega
        · have := haB (by omega)
          omega
      · intro h
        by_cases h2 : -(2 ^ 53) < p - 1
        · have := haS h2
          by_cases h3 : -(2 ^ 53) < page
          · have := hpS h3
            omega
          · have := hpB (by omega)
            omega
        · have := haB (by omega)
          omega

/-- The Number `page - 1` for a page from 2 on. -/
theorem numSub_one_pos (page : Int) (hpage : 2 ≤ page) :
    numSub (toNumber page) (JNum.fin 1) = JNum.inf false ∨
      ∃ a : Int, numSub (toNumber page) (JNum.fin 1) = JNum.fin a ∧ 1 ≤ a := by
  have h53 : (2 : Int) ^ 53 = 9007199254740992 := by norm_num
  rcases toNumber_pos_class page (by omega) with hP | ⟨p, hP, hp1, hpS, hpB⟩
  · left
    rw [hP]
    rfl
  · rw [hP]
    simp only [numSub]
    have hp2 : 2 ≤ p := by
      by_cases h : page < 2 ^ 53
      · have := hpS h
        omega
      · have := hpB (by omega)
        omega
    rcases toNumber_pos_class (p - 1) (by omega) with hA | ⟨a, hA, ha1, haS, haB⟩
    · left
      exact hA
    · right
      exact ⟨a, hA, ha1⟩

/-- A negative page with a positive limit: when the end `page * limit` of the interval is at
most `-length`, both bounds of the slice fall on index 0. -/
theorem pageOf_neg_pos (items : Products) (page limit : Int) (hlen : items.length < 2 ^ 32)
    (hpage : page ≤ -1) (hlimit : 1 ≤ limit)
    (hW : (items.length : Int) + page * limit ≤ 0) :
    slice items (numMul (numSub (toNumber page) (JNum.fin 1)) (toNumber limit))
        (numAdd (numMul (numSub (toNumber page) (JNum.fin 1)) (toNumber limit))
          (toNumber limit)) = [] := by
  have h32 : (2 : Nat) ^ 32 = 4294967296 := by norm_num
  have h53 : (2 : Int) ^ 53 = 9007199254740992 := by norm_num
  apply slice_nil_of_le
  rcases toNumber_pos_class limit hlimit with hL | ⟨l, hL, hl1, hlS, hlB⟩
  · -- the limit is Infinity: the start is -Infinity and the end NaN
    rw [hL]
    rcases numSub_one_neg page hpage with hA | ⟨a, hA, ha2, haS⟩
    · rw [hA]
      exact Nat.le_refl _
    · rw [hA]
      have ha0 : a ≠ 0 := by omega
      have haneg : a < 0 := by omega
      simp [numMul, numAdd, ha0, haneg, relIndex]
  · rw [hL]
    rcases numSub_one_neg page hpage with hA | ⟨a, hA, ha2, haS⟩
    · rw [hA]
      have hl0 : l ≠ 0 := by omega
      have hlneg : ¬ l < 0 := by omega
      simp [numMul, numAdd, hl0, hlneg, relIndex]
    · rw [hA]
      simp only [numMul]
      have hprod2 : a * l ≤ -2 * l := by nlinarith
      have hproda : a * l ≤ a := by nlinarith
      rcases toNumber_neg_class (a * l) (by omega) with hS | ⟨σ, hS, hσ1, hσS, hσB⟩
      · rw [hS]
        exact Nat.le_refl _
      · rw [hS]
        have hsum : numAdd (JNum.fin σ) (JNum.fin l) = toNumber (σ + l) := by
          simp only [numAdd]
          rw [if_neg (by omega), if_neg (by omega)]
        rw [hsum]
        by_cases hex : -(2 ^ 53) < a * l
        · have hσ := hσS hex
          have ha := haS (by omega)
          have hl : l = limit := by
            by_cases h : limit < 2 ^ 53
            · exact hlS h
            · have := hlB (by omega)
              omega
          have he : σ + l = page * limit := by
            rw [hσ, ha, hl]
            ring
          rw [he]
          have hneg : page * limit < 0 := by
            rw [← he]
            omega
          rw [toNumber_of_lt _ (by omega), relIndex_fin_neg _ _ hneg hW]
          exact Nat.zero_le _
        · have hσ := hσB (by omega)
          have hsl : σ + l ≤ -(2 ^ 51) := by
            have h51 : (2 : Int) ^ 51 = 2251799813685248 := by norm_num
            omega
          have h51 : (2 : Int) ^ 51 = 2251799813685248 := by norm_num
          rcases toNumber_neg_class (σ + l) (by omega) with hE | ⟨ε, hE, hε1, hεS, hεB⟩
          · rw [hE]
            exact Nat.zero_le _
          · rw [hE]
            have hε : ε ≤ -(2 ^ 51) := by
              by_cases h : -(2 ^ 53) < σ + l
              · have := hεS h
                omega
              · have := hεB (by omega)
                omega
            rw [relIndex_fin_neg _ _ (by omega) (by omega)]
            exact Nat.zero_le _

/-- A page from 2 on with a negative limit: both bounds are negative and the end lies before
the start. -/
theorem pageOf_pos_neg (items : Products) (page limit : Int) (hlen : items.length < 2 ^ 32)
    (hpage : 2 ≤ page) (hlimit : limit ≤ -1) :
    slice items (numMul (numSub (toNumber page) (JNum.fin 1)) (toNumber limit))
        (numAdd (numMul (numSub (toNumber page) (JNum.fin 1)) (toNumber limit))
          (toNumber limit)) = [] := by
  have h32 : (2 : Nat) ^ 32 = 4294967296 := by norm_num
  have h53 : (2 : Int) ^ 53 = 9007199254740992 := by norm_num
  apply slice_nil_of_le
  rcases toNumber_neg_class limit hlimit with hL | ⟨l, hL, hl1, hlS, hlB⟩
  · rw [hL]
    rcases numSub_one_pos page hpage with hA | ⟨a, hA, ha1⟩
    · rw [hA]
      exact Nat.le_refl _
    · rw [hA]
      have ha0 : a ≠ 0 := by omega
      have haneg : ¬ a < 0 := by omega
      simp [numMul, numAdd, ha0, haneg, relIndex]
  · rw [hL]
    rcases numSub_one_pos page hpage with hA | ⟨a, hA, ha1⟩
    · rw [hA]
      have hl0 : l ≠ 0 := by omega
      have hlneg : l < 0 := by omega
      simp [numMul, numAdd, hl0, hlneg, relIndex]
    · rw [hA]
      simp only [numMul]
      have hprod : a * l ≤ -1 := by nlinarith
      rcases toNumber_neg_class (a * l) hprod with hS | ⟨σ, hS, hσ1, hσS, hσB⟩
      · rw [hS]
        exact Nat.le_refl _
      · rw [hS]
        have hsum : numAdd (JNum.fin σ) (JNum.fin l) = toNumber (σ + l) := by
          simp only [numAdd]
          rw [if_neg (by omega), if_neg (by omega)]
        rw [hsum]
        rcases toNumber_neg_class (σ + l) (by omega) with hE | ⟨ε, hE, hε1, hεS, hεB⟩
        · rw [hE]
          exact Nat.zero_le _
        · rw [hE]
          by_cases h : -(2 ^ 53) < σ + l
          · have := hεS h
            rw [relIndex_fin, relIndex_fin, if_pos (by omega), if_pos (by omega)]
            omega
          · have := hεB (by omega)
            rw [relIndex_fin_neg _ _ (by omega) (by omega)]
            exact Nat.zero_le _

/-- Page 1 with a negative limit: the start is 0, and when the limit is at most `-length`
the end falls on index 0 too. -/
theorem pageOf_one_neg (items : Products) (limit : Int) (hlen : items.length < 2 ^ 32)
    (hlimit : limit ≤ -1) (hW : (items.length : Int) + limit ≤ 0) :
    slice items (numMul (numSub (toNumber 1) (JNum.fin 1)) (toNumber limit))
        (numAdd (numMul (numSub (toNumber 1) (JNum.fin 1)) (toNumber limit))
          (toNumber limit)) = [] := by
  have h32 : (2 : Nat) ^ 32 = 4294967296 := by norm_num
  have h53 : (2 : Int) ^ 53 = 9007199254740992 := by norm_num
  have h1 : toNumber 1 = JNum.fin 1 := toNumber_of_lt 1 (by decide)
  have h0 : toNumber 0 = JNum.fin 0 := toNumber_of_lt 0 (by decide)
  have hA : numSub (toNumber 1) (JNum.fin 1) = JNum.fin 0 := by
    rw [h1]
    simp only [numSub, sub_self, h0]
  apply slice_nil_of_le
  rw [hA]
  rcases toNumber_neg_class limit hlimit with hL | ⟨l, hL, hl1, hlS, hlB⟩
  · rw [hL]
    exact Nat.le_refl _
  · rw [hL]
    have hS : numMul (JNum.fin 0) (JNum.fin l) = JNum.fin 0 := by
      simp only [numMul, zero_mul, h0]
    have hE : numAdd (JNum.fin 0) (JNum.fin l) = JNum.fin l := by
      simp only [numAdd, if_true]
    rw [hS, hE]
    have hl : (items.length : Int) + l ≤ 0 := by
      by_cases h : -(2 ^ 53) < limit
      · have := hlS h
        omega
      · have := hlB (by omega)
        omega
    rw [relIndex_fin_neg _ _ (by omega) (by omega)]
    exact Nat.zero_le _

/-- A negative page with a negative limit: both bounds are positive and the end lies before
the start. -/
theorem pageOf_neg_neg (items : Products) (page limit : Int) (hlen : items.length < 2 ^ 32)
    (hpage : page ≤ -1) (hlimit : limit ≤ -1) :
    slice items (numMul (numSub (toNumber page) (JNum.fin 1)) (toNumber limit))
        (numAdd (numMul (numSub (toNumber page) (JNum.fin 1)) (toNumber limit))
          (toNumber limit)) = [] := by
  have h32 : (2 : Nat) ^ 32 = 4294967296 := by norm_num
  have h53 : (2 : Int) ^ 53 = 9007199254740992 := by norm_num
  apply slice_nil_of_le
  rcases toNumber_neg_class limit hlimit with hL | ⟨l, hL, hl1, hlS, hlB⟩
  · rw [hL]
    rcases numSub_one_neg page hpage with hA | ⟨a, hA, ha2, haS⟩
    · rw [hA]
      exact Nat.zero_le _
    · rw [hA]
      have ha0 : a ≠ 0 := by omega
      have haneg : a < 0 := by omega
      simp [numMul, numAdd, ha0, haneg, relIndex]
  · rw [hL]
    rcases numSub_one_neg page hpage with hA | ⟨a, hA, ha2, haS⟩
    · rw [hA]
      have hl0 : l ≠ 0 := by omega
      have hlneg : l < 0 := by omega
      simp [numMul, numAdd, hl0, hlneg, relIndex]
    · rw [hA]
      simp only [numMul]
      have hprod : 1 ≤ a * l := by nlinarith
      have hprod2 : -2 * l ≤ a * l := by nlinarith
      rcases toNumber_pos_class (a * l) hprod with hS | ⟨σ, hS, hσ1, hσS, hσB⟩
      · rw [hS]
        exact relIndex_le _ _
      · rw [hS]
        have hsum : numAdd (JNum.fin σ) (JNum.fin l) = toNumber (σ + l) := by
          simp only [numAdd]
          rw [if_neg (by omega), if_neg (by omega)]
        rw [hsum]
        by_cases hex : a * l < 2 ^ 53
        · have hσ := hσS hex
          rw [toNumber_of_lt _ (by omega), relIndex_fin, relIndex_fin, if_neg (by omega),
            if_neg (by omega)]
          omega
        · have hσ := hσB (by omega)
          have hS2 : relIndex items.length (JNum.fin σ) = items.length := by
            rw [relIndex_fin, if_neg (by omega)]
            omega
          rw [hS2]
          exact relIndex_le _ _

/-- A positive page with a positive limit, when the interval contains no index of the
list. -/
theorem pageOf_pos_pos (items : Products) (page limit : Int) (hlen : items.length < 2 ^ 32)
    (hpage : 1 ≤ page) (hlimit : 1 ≤ limit)
    (hout : ∀ i : Nat, i < items.length →
      ¬ ((page - 1) * limit ≤ i ∧ (i : Int) < (page - 1) * limit + limit)) :
    slice items (numMul (numSub (toNumber page) (JNum.fin 1)) (toNumber limit))
        (numAdd (numMul (numSub (toNumber page) (JNum.fin 1)) (toNumber limit))
          (toNumber limit)) = [] := by
  have hstart0 : 0 ≤ (page - 1) * limit := Int.mul_nonneg (by omega) (by omega)
  have hstart : items.length ≤ ((page - 1) * limit).toNat := by
    by_contra hlt
    exact hout ((page - 1) * limit).toNat (by omega) (by omega)
  by_cases hfinite : limit.natAbs < overflowThreshold
  · rw [pageOf_positive items page limit (by omega) (by omega) hfinite hlen,
      List.drop_of_length_le hstart]
    exact List.take_nil
  · by_cases hone : page = 1
    · have hnil : items = [] := by
        apply List.length_eq_zero.mp
        subst hone
        simp only [sub_self, zero_mul, Int.toNat_zero, Nat.le_zero] at hstart
        exact hstart
      rw [hnil]
      simp [slice]
    · have hL : toNumber limit = JNum.inf false := by
        unfold toNumber
        rw [if_pos (by omega)]
        have : ¬ limit < 0 := by omega
        simp [this]
      apply slice_nil_of_le
      rw [hL]
      rcases numSub_one_pos page (by omega) with hA | ⟨a, hA, ha1⟩
      · rw [hA]
        exact relIndex_le _ _
      · rw [hA]
        have ha0 : a ≠ 0 := by omega
        have haneg : ¬ a < 0 := by omega
        simp [numMul, numAdd, ha0, haneg, relIndex]

/-- Out of range with no wrap-around: when the interval
`[(page-1)*limit, (page-1)*limit + limit)` contains no index of the list and its end is not a
negative number above `-length` (or the interval is empty with a negative start), the slice
that the handler takes is empty. -/
theorem pageOf_out_of_range (items : Products) (page limit : Int)
    (hlen : items.length < 2 ^ 32) (hpage : page ≠ 0) (hlimit : limit ≠ 0)
    (hout : ∀ i : Nat, i < items.length →
      ¬ ((page - 1) * limit ≤ i ∧ (i : Int) < (page - 1) * limit + limit))
    (hwrap : 0 ≤ (page - 1) * limit + limit ∨
      (items.length : Int) + ((page - 1) * limit + limit) ≤ 0 ∨
      ((page - 1) * limit < 0 ∧ (page - 1) * limit + limit ≤ (page - 1) * limit)) :
    slice items (numMul (numSub (toNumber page) (JNum.fin 1)) (toNumber limit))
        (numAdd (numMul (numSub (toNumber page) (JNum.fin 1)) (toNumber limit))
          (toNumber limit)) = [] := by
  have hsum : (page - 1) * limit + limit = page * limit := by ring
  by_cases hl : 1 ≤ limit
  · by_cases hp : 1 ≤ page
    · exact pageOf_pos_pos items page limit hlen hp hl hout
    · have hp1 : page ≤ -1 := by omega
      have hneg : page * limit ≤ -1 := by nlinarith
      have hs : (page - 1) * limit < page * limit := by nlinarith
      apply pageOf_neg_pos items page limit hlen hp1 hl
      rw [hsum] at hwrap
      omega
  · have hl1 : limit ≤ -1 := by omega
    by_cases hp2 : 2 ≤ page
    · exact pageOf_pos_neg items page limit hlen hp2 hl1
    · by_cases hp1 : page = 1
      · subst hp1
        apply pageOf_one_neg items limit hlen hl1
        simp only [sub_self, zero_mul, zero_add] at hwrap
        omega
      · exact pageOf_neg_neg items page limit hlen (by omega) hl1

/-- Wrap-around: when the end of the interval is a negative number above `-length` and the
interval is not an empty one with a negative start, the slice that the handler takes has
items in it, because `slice` counts a negative bound from the end of the list. -/
theorem pageOf_wraps (items : Products) (page limit : Int) (hlen : items.length < 2 ^ 32)
    (hpage : page ≠ 0)
    (hneg : (page - 1) * limit + limit < 0)
    (habove : 0 < (items.length : Int) + ((page - 1) * limit + limit))
    (hnot : ¬ ((page - 1) * limit < 0 ∧ (page - 1) * limit + limit ≤ (page - 1) * limit)) :
    slice items (numMul (numSub (toNumber page) (JNum.fin 1)) (toNumber limit))
        (numAdd (numMul (numSub (toNumber page) (JNum.fin 1)) (toNumber limit))
          (toNumber limit)) ≠ [] := by
  have h32 : (2 : Nat) ^ 32 = 4294967296 := by norm_num
  have h53n : (2 : Nat) ^ 53 = 9007199254740992 := by norm_num
  have hsum : (page - 1) * limit + limit = page * limit := by ring
  have hstart : (page - 1) * limit = page * limit - limit := by ring
  have h0 : toNumber 0 = JNum.fin 0 := toNumber_of_lt 0 (by decide)
  rw [hsum] at hneg habove
  by_cases hl : 1 ≤ limit
  · -- a positive limit: the page is negative
    have hp : page ≤ -1 := by
      by_contra hge
      have : 0 ≤ page * limit := Int.mul_nonneg (by omega) (by omega)
      omega
    have hb1 : page * limit ≤ page := by nlinarith
    have hb2 : page * limit ≤ -limit := by nlinarith
    have hA : numSub (toNumber page) (JNum.fin 1) = JNum.fin (page - 1) := by
      rw [toNumber_of_lt page (by omega)]
      simp only [numSub]
      exact toNumber_of_lt _ (by omega)
    have hL : toNumber limit = JNum.fin limit := toNumber_of_lt _ (by omega)
    have hS : numMul (JNum.fin (page - 1)) (JNum.fin limit) =
        JNum.fin (page * limit - limit) := by
      simp only [numMul]
      rw [hstart]
      exact toNumber_of_lt _ (by omega)
    have hE : numAdd (JNum.fin (page * limit - limit)) (JNum.fin limit) =
        JNum.fin (page * limit) := by
      simp only [numAdd]
      rw [if_neg (by omega), if_neg (by omega)]
      have : page * limit - limit + limit = page * limit := by ring
      rw [this]
      exact toNumber_of_lt _ (by omega)
    rw [hA, hL, hS, hE]
    intro hnil
    have hlength := congrArg List.length hnil
    simp only [slice, relIndex_fin, List.length_take, List.length_drop, List.length_nil]
      at hlength
    rw [if_pos (by omega), if_pos (by omega)] at hlength
    omega
  · -- a negative limit: the page is 1
    have hl1 : limit ≤ -1 := by omega
    have hp : page = 1 := by
      by_contra hne
      by_cases hp2 : 2 ≤ page
      · have : (page - 1) * limit < 0 := by nlinarith
        exact hnot ⟨this, by omega⟩
      · have : 0 ≤ page * limit :=
          mul_nonneg_of_nonpos_of_nonpos (by omega) (by omega)
        omega
    subst hp
    simp only [one_mul] at hneg habove
    have hA : numSub (toNumber 1) (JNum.fin 1) = JNum.fin 0 := by
      rw [toNumber_of_lt 1 (by decide)]
      simp only [numSub, sub_self, h0]
    have hL : toNumber limit = JNum.fin limit := toNumber_of_lt _ (by omega)
    have hS : numMul (JNum.fin 0) (JNum.fin limit) = JNum.fin 0 := by
      simp only [numMul, zero_mul, h0]
    have hE : numAdd (JNum.fin 0) (JNum.fin limit) = JNum.fin limit := by
      simp only [numAdd, if_true]
    rw [hA, hL, hS, hE]
    intro hnil
    have hlength := congrArg List.length hnil
    simp only [slice, relIndex_fin, List.length_take, List.length_drop, List.length_nil]
      at hlength
    rw [if_pos (by omega), if_neg (by omega)] at hlength
    simp only [Int.toNat_zero] at hlength
    omega

theorem numOr_toNumber_ne (z : Int) (d : JNum) (hz : z ≠ 0) :
    numOr (toNumber z) d = toNumber z := by
  by_cases hpos : 1 ≤ z
  · rcases toNumber_pos_class z hpos with h | ⟨m, h, hm, _⟩
    · rw [h]
      rfl
    · rw [h]
      have : m ≠ 0 := by omega
      simp [numOr, this]
  · rcases toNumber_neg_class z (by omega) with h | ⟨m, h, hm, _⟩
    · rw [h]
      rfl
    · rw [h]
      have : m ≠ 0 := by omega
      simp [numOr, this]

/-! ## Listing: pagination -/

theorem parseInt_of_readInt (v : JVal) (r : Option Int) (h : readInt v = Except.ok r) :
    parseInt v = Except.ok ((r.map toNumber).getD JNum.nan) := by
  unfold readInt at h
  unfold parseInt parseIntStr
  cases hs : toStr v with
  | error e => rw [hs] at h; cases h
  | ok text =>
    rw [hs] at h
    simp only [Except.ok.injEq] at h
    subst h
    cases hp : parseIntMath text <;> simp [hp]

theorem numOr_toNumber_pos (z : Int) (d : JNum) (hz : 0 < z) :
    numOr (toNumber z) d = toNumber z := by
  by_cases hsmall : z.natAbs < 2 ^ 53
  · rw [toNumber_of_lt z hsmall]
    have : z ≠ 0 := by omega
    simp [numOr, this]
  · have h53 : (2 : Int) ^ 53 = 9007199254740992 := by norm_num
    have h53n : (2 : Nat) ^ 53 = 9007199254740992 := by norm_num
    rcases toNumber_huge z (by omega) with hinf | ⟨m, hm, hm53⟩
    · rw [hinf]
      rfl
    · rw [hm]
      have : m ≠ 0 := by omega
      simp [numOr, this]

theorem listResult_of_parsed (ps : Products) (query : Obj) (page limit : JNum)
    (hpage : parseInt (getField query "page") = Except.ok page)
    (hlimit : parseInt (getField query "limit") = Except.ok limit) :
    listResult ps query = Except.ok (pageOf (categoryFilter ps query) page limit) := by
  unfold listResult
  rw [hpage, hlimit]

theorem length_categoryFilter_le (ps : Products) (query : Obj) :
    (categoryFilter ps query).length ≤ ps.length := by
  unfold categoryFilter
  split
  · exact List.length_filter_le _ _
  · exact le_refl _

/-- C11, as stated, fails in two places.  A `limit` of 400 nines is a positive integer, but
`parseInt` makes it `Infinity`, `(1 - 1) * Infinity` is `NaN`, and the handler returns an empty
array where the claim promises the whole collection.  And the page `2abc`, which is not a
number, is not treated as 1 but as 2: with `limit=1` the handler returns the second item. -/
theorem list_huge_limit_and_leading_digits :
    (match readInt (JVal.str (String.mk (List.replicate 400 (Char.ofNat 57)))) with
      | Except.ok (some limit) => decide (0 < limit)
      | _ => false) = true ∧
    getProducts products
        { query := [("limit", JVal.str (String.mk (List.replicate 400 (Char.ofNat 57))))] } =
      Except.ok ⟨200, Body.json (JVal.arr [])⟩ ∧
    getProducts products
        { query := [("limit", JVal.str "1"), ("page", JVal.str "2abc")] } =
      Except.ok ⟨200, Body.json (JVal.arr [JVal.obj [("id", JVal.str "2"),
        ("name", JVal.str "Smartphone"), ("description", JVal.str "128GB storage"),
        ("price", JVal.num 800), ("category", JVal.str "electronics"),
        ("inStock", JVal.bool true)]])⟩ := by
  set_option maxRecDepth 100000 in decide

/-- C11, amended: for a collection as long as an array can be, a positive integer `page` and a
positive integer `limit` that is below `2^1024 - 2^970` (so that `parseInt` gives a finite
Number) unless the page is 2 or more, the list handler answers 200 with the items of the
filtered list at the indices `(page-1)*limit ≤ i < (page-1)*limit + limit`, `i < length`, in
their order, hence at most `limit` items.  A `page` that is absent, from which `parseInt`
reads no number, or that is zero counts as 1, and such a `limit` as the length of the filtered
list.  On the initial collection `limit=1&page=2` returns exactly the second item. -/
theorem list_pagination (ps : Products) (req : Req) (page limit : Int)
    (hlen : ps.length < 2 ^ 32)
    (hpage : (readInt (getField req.query "page") = Except.ok (some page) ∧ 0 < page) ∨
      ((readInt (getField req.query "page") = Except.ok none ∨
          readInt (getField req.query "page") = Except.ok (some 0)) ∧
        page = 1))
    (hlimit : (readInt (getField req.query "limit") = Except.ok (some limit) ∧ 0 < limit ∧
        (limit.natAbs < overflowThreshold ∨ 2 ≤ page)) ∨
      ((readInt (getField req.query "limit") = Except.ok none ∨
          readInt (getField req.query "limit") = Except.ok (some 0)) ∧
        limit = (categoryFilter ps req.query).length)) :
    getProducts ps req =
        Except.ok ⟨200, Body.json (JVal.arr ((((categoryFilter ps req.query).drop
            ((page - 1) * limit).toNat).take limit.toNat).map JVal.obj))⟩ ∧
      (((categoryFilter ps req.query).drop ((page - 1) * limit).toNat).take
        limit.toNat).length ≤ limit.toNat ∧
      (∀ j : Nat, (((categoryFilter ps req.query).drop ((page - 1) * limit).toNat).take
          limit.toNat)[j]? =
        if j < limit.toNat then
          (categoryFilter ps req.query)[((page - 1) * limit).toNat + j]?
        else none) ∧
      readInt JVal.undefined = Except.ok none ∧
      getProducts products { query := [("limit", JVal.str "1"), ("page", JVal.str "2")] } =
        Except.ok ⟨200, Body.json (JVal.arr [JVal.obj [("id", JVal.str "2"),
          ("name", JVal.str "Smartphone"), ("description", JVal.str "128GB storage"),
          ("price", JVal.num 800), ("category", JVal.str "electronics"),
          ("inStock", JVal.bool true)]])⟩ := by
  have h32 : (2 : Nat) ^ 32 = 4294967296 := by norm_num
  have h53n : (2 : Nat) ^ 53 = 9007199254740992 := by norm_num
  have hflen := length_categoryFilter_le ps req.query
  have h1 : toNumber 1 = JNum.fin 1 := toNumber_of_lt 1 (by decide)
  have h0 : toNumber 0 = JNum.fin 0 := toNumber_of_lt 0 (by decide)
  -- the Number that the handler takes for the page
  obtain ⟨p, hp, hpe, hpos⟩ : ∃ p : JNum, parseInt (getField req.query "page") = Except.ok p ∧
      numOr p (JNum.fin 1) = toNumber page ∧ 0 < page := by
    rcases hpage with ⟨h, hpos⟩ | ⟨h | h, hone⟩
    · exact ⟨_, parseInt_of_readInt _ _ h, numOr_toNumber_pos _ _ hpos, hpos⟩
    · refine ⟨_, parseInt_of_readInt _ _ h, ?_, by omega⟩
      rw [hone, h1]
      rfl
    · refine ⟨_, parseInt_of_readInt _ _ h, ?_, by omega⟩
      rw [hone, h1]
      show numOr (toNumber 0) (JNum.fin 1) = JNum.fin 1
      rw [h0]
      rfl
  -- and for the limit
  obtain ⟨l, hl, hle, hnonneg, hfinite, hzero⟩ :
      ∃ l : JNum, parseInt (getField req.query "limit") = Except.ok l ∧
        numOr l (JNum.fin (categoryFilter ps req.query).length) = toNumber limit ∧
        0 ≤ limit ∧ (limit.natAbs < overflowThreshold ∨ 2 ≤ page) ∧
        (limit = 0 → categoryFilter ps req.query = []) := by
    have hT : (2 : Nat) ^ 53 ≤ overflowThreshold := by decide
    rcases hlimit with ⟨h, hpos, hfin⟩ | ⟨h | h, hdef⟩
    · exact ⟨_, parseInt_of_readInt _ _ h, numOr_toNumber_pos _ _ hpos, by omega, hfin,
        fun h0 => by omega⟩
    · refine ⟨_, parseInt_of_readInt _ _ h, ?_, by omega, Or.inl (by omega), ?_⟩
      · rw [hdef, toNumber_of_lt _ (by omega)]
        rfl
      · intro hz
        exact List.length_eq_zero.mp (by omega)
    · refine ⟨_, parseInt_of_readInt _ _ h, ?_, by omega, Or.inl (by omega), ?_⟩
      · rw [hdef, toNumber_of_lt _ (by omega)]
        show numOr (toNumber 0) _ = _
        rw [h0]
        rfl
      · intro hz
        exact List.length_eq_zero.mp (by omega)
  have hresult : listResult ps req.query = Except.ok
      (((categoryFilter ps req.query).drop ((page - 1) * limit).toNat).take limit.toNat) := by
    rw [listResult_of_parsed ps req.query p l hp hl]
    unfold pageOf
    rw [hpe, hle]
    by_cases hz : limit = 0
    · rw [hzero hz]
      simp [slice]
    · by_cases hfin : limit.natAbs < overflowThreshold
      · rw [pageOf_positive _ page limit hpos (by omega) hfin (by omega)]
      · -- the limit is `Infinity` and the page is 2 or more: both sides are empty
        have hp2 : 2 ≤ page := by
          rcases hfinite with h | h
          · exact absurd h hfin
          · exact h
        have hT : (2 : Nat) ^ 53 ≤ overflowThreshold := by decide
        have hbig : limit ≤ (page - 1) * limit := by nlinarith
        rw [List.drop_of_length_le (by omega),
          pageOf_pos_pos _ page limit (by omega) (by omega) (by omega)
            (fun i hi h => by omega)]
        rw [List.take_nil]
  refine ⟨?_, List.length_take_le _ _, ?_, by decide, by decide⟩
  · simp only [getProducts, hresult]
  · intro j
    rw [List.getElem?_take]
    split
    · rw [List.getElem?_drop]
    · rfl

theorem list_pagination_witness :
    getProducts products { query := [("limit", JVal.str "2"), ("page", JVal.str "2")] } =
      Except.ok ⟨200, Body.json (JVal.arr [JVal.obj [("id", JVal.str "3"),
        ("name", JVal.str "Coffee Maker"), ("description", JVal.str "Timer"),
        ("price", JVal.num 50), ("category", JVal.str "kitchen"),
        ("inStock", JVal.bool false)]])⟩ :=
  (list_pagination products { query := [("limit", JVal.str "2"), ("page", JVal.str "2")] } 2 2
    (by decide) (Or.inl ⟨by decide, by decide⟩)
    (Or.inl ⟨by decide, by decide, Or.inl (by decide)⟩)).1.trans (by decide)

/-! ## Listing: pages outside the list -/

/-- C12, as stated, fails, because `slice` counts a negative bound from the end of the list.
On the initial collection `page=-1&limit=1` gives the interval `[-2, -1)`, which contains no
index of the list, and the handler answers 200 with the second item; and `page=1&limit=-2`
gives the empty interval `[0, -2)`, and the handler answers 200 with the first item. -/
theorem list_negative_page_not_empty :
    readInt (JVal.str "-1") = Except.ok (some (-1)) ∧
    readInt (JVal.str "-2") = Except.ok (some (-2)) ∧
    handle ⟨some "s3cret", fun s => s⟩ "u" products Route.list
        { headers := [("x-api-key", "s3cret")],
          query := [("page", JVal.str "-1"), ("limit", JVal.str "1")] } =
      (⟨200, Body.json (JVal.arr [JVal.obj [("id", JVal.str "2"),
        ("name", JVal.str "Smartphone"), ("description", JVal.str "128GB storage"),
        ("price", JVal.num 800), ("category", JVal.str "electronics"),
        ("inStock", JVal.bool true)]])⟩, products) ∧
    handle ⟨some "s3cret", fun s => s⟩ "u" products Route.list
        { headers := [("x-api-key", "s3cret")],
          query := [("page", JVal.str "1"), ("limit", JVal.str "-2")] } =
      (⟨200, Body.json (JVal.arr [JVal.obj [("id", JVal.str "1"),
        ("name", JVal.str "Laptop"), ("description", JVal.str "16GB RAM"),
        ("price", JVal.num 1200), ("category", JVal.str "electronics"),
        ("inStock", JVal.bool true)]])⟩, products) := by
  decide

/-- C12, amended: take a collection as long as an array can be, and the integers `page` and
`limit` that the handler works with, negative values included (what `parseInt` reads from the
query, an absent, unreadable or zero `page` counting as 1 and such a `limit` as the length of
the filtered list).  When the interval `[(page-1)*limit, (page-1)*limit + limit)` contains no
index of the filtered list, an authenticated `GET /api/products` answers 200 with an array,
never an error, and the array is empty exactly when the end of the interval is not a negative
number above `-length`, or the interval is an empty one with a negative start. -/
theorem list_out_of_range (env : Env) (uuid : String) (ps : Products) (req : Req)
    (page limit : Int)
    (hauth : authenticate env.API_KEY req = Step.next)
    (hlen : ps.length < 2 ^ 32)
    (hpage : (readInt (getField req.query "page") = Except.ok (some page) ∧ page ≠ 0) ∨
      ((readInt (getField req.query "page") = Except.ok none ∨
          readInt (getField req.query "page") = Except.ok (some 0)) ∧
        page = 1))
    (hlimit : (readInt (getField req.query "limit") = Except.ok (some limit) ∧ limit ≠ 0) ∨
      ((readInt (getField req.query "limit") = Except.ok none ∨
          readInt (getField req.query "limit") = Except.ok (some 0)) ∧
        limit = (categoryFilter ps req.query).length))
    (hout : ∀ i : Nat, i < (categoryFilter ps req.query).length →
      ¬ ((page - 1) * limit ≤ i ∧ (i : Int) < (page - 1) * limit + limit)) :
    (handle env uuid ps Route.list req = (⟨200, Body.json (JVal.arr [])⟩, ps) ↔
      (0 ≤ (page - 1) * limit + limit ∨
        ((categoryFilter ps req.query).length : Int) + ((page - 1) * limit + limit) ≤ 0 ∨
        ((page - 1) * limit < 0 ∧ (page - 1) * limit + limit ≤ (page - 1) * limit))) ∧
      ∃ items : Products, handle env uuid ps Route.list req =
        (⟨200, Body.json (JVal.arr (items.map JVal.obj))⟩, ps) := by
  have hflen := length_categoryFilter_le ps req.query
  have h1 : toNumber 1 = JNum.fin 1 := toNumber_of_lt 1 (by decide)
  have h0 : toNumber 0 = JNum.fin 0 := toNumber_of_lt 0 (by decide)
  -- the Number that the handler takes for the page
  obtain ⟨p, hp, hpe, hpne⟩ : ∃ p : JNum, parseInt (getField req.query "page") = Except.ok p ∧
      numOr p (JNum.fin 1) = toNumber page ∧ page ≠ 0 := by
    rcases hpage with ⟨h, hne⟩ | ⟨h | h, hone⟩
    · exact ⟨_, parseInt_of_readInt _ _ h, numOr_toNumber_ne _ _ hne, hne⟩
    · refine ⟨_, parseInt_of_readInt _ _ h, ?_, by omega⟩
      rw [hone, h1]
      rfl
    · refine ⟨_, parseInt_of_readInt _ _ h, ?_, by omega⟩
      rw [hone, h1]
      show numOr (toNumber 0) (JNum.fin 1) = JNum.fin 1
      rw [h0]
      rfl
  -- and for the limit
  obtain ⟨l, hl, hle, hzero⟩ :
      ∃ l : JNum, parseInt (getField req.query "limit") = Except.ok l ∧
        numOr l (JNum.fin (categoryFilter ps req.query).length) = toNumber limit ∧
        (limit = 0 → categoryFilter ps req.query = []) := by
    have h53n : (2 : Nat) ^ 53 = 9007199254740992 := by norm_num
    have h32 : (2 : Nat) ^ 32 = 4294967296 := by norm_num
    rcases hlimit with ⟨h, hne⟩ | ⟨h | h, hdef⟩
    · exact ⟨_, parseInt_of_readInt _ _ h, numOr_toNumber_ne _ _ hne, fun h0 => absurd h0 hne⟩
    · refine ⟨_, parseInt_of_readInt _ _ h, ?_, ?_⟩
      · rw [hdef, toNumber_of_lt _ (by omega)]
        rfl
      · intro hz
        exact List.length_eq_zero.mp (by omega)
    · refine ⟨_, parseInt_of_readInt _ _ h, ?_, ?_⟩
      · rw [hdef, toNumber_of_lt _ (by omega)]
        show numOr (toNumber 0) _ = _
        rw [h0]
        rfl
      · intro hz
        exact List.length_eq_zero.mp (by omega)
  have hresult : listResult ps req.query = Except.ok
      (slice (categoryFilter ps req.query)
        (numMul (numSub (toNumber page) (JNum.fin 1)) (toNumber limit))
        (numAdd (numMul (numSub (toNumber page) (JNum.fin 1)) (toNumber limit))
          (toNumber limit))) := by
    rw [listResult_of_parsed ps req.query p l hp hl]
    unfold pageOf
    rw [hpe, hle]
  have hhandle : handle env uuid ps Route.list req =
      (⟨200, Body.json (JVal.arr ((slice (categoryFilter ps req.query)
        (numMul (numSub (toNumber page) (JNum.fin 1)) (toNumber limit))
        (numAdd (numMul (numSub (toNumber page) (JNum.fin 1)) (toNumber limit))
          (toNumber limit))).map JVal.obj))⟩, ps) := by
    rw [handle_of_next _ _ _ _ _ hauth]
    simp only [runHandler, getProducts, hresult]
  refine ⟨?_, _, hhandle⟩
  rw [hhandle]
  constructor
  · intro hempty
    by_contra hwrap
    by_cases hz : limit = 0
    · apply hwrap
      left
      rw [hz]
      simp
    · have hnil : slice (categoryFilter ps req.query)
          (numMul (numSub (toNumber page) (JNum.fin 1)) (toNumber limit))
          (numAdd (numMul (numSub (toNumber page) (JNum.fin 1)) (toNumber limit))
            (toNumber limit)) = [] := by
        simp only [Prod.mk.injEq, Response.mk.injEq, Body.json.injEq, JVal.arr.injEq,
          List.map_eq_nil_iff, and_true, true_and] at hempty
        exact hempty
      exact pageOf_wraps _ page limit (by omega) hpne (by omega) (by omega)
        (fun h => hwrap (Or.inr (Or.inr h))) hnil
  · intro hwrap
    by_cases hz : limit = 0
    · rw [hzero hz]
      simp [slice]
    · rw [pageOf_out_of_range _ page limit (by omega) hpne hz hout hwrap]
      rfl

theorem list_out_of_range_witness :
    handle ⟨some "s3cret", fun s => s⟩ "u" products Route.list
        { headers := [("x-api-key", "s3cret")],
          query := [("page", JVal.str "3"), ("limit", JVal.str "2")] } =
      (⟨200, Body.json (JVal.arr [])⟩, products) ∧
    handle ⟨some "s3cret", fun s => s⟩ "u" products Route.list
        { headers := [("x-api-key", "s3cret")],
          query := [("page", JVal.str "2"), ("limit", JVal.str "-1")] } =
      (⟨200, Body.json (JVal.arr [])⟩, products) :=
  ⟨(list_out_of_range ⟨some "s3cret", fun s => s⟩ "u" products
      { headers := [("x-api-key", "s3cret")],
        query := [("page", JVal.str "3"), ("limit", JVal.str "2")] } 3 2
      (by decide) (by decide) (Or.inl ⟨by decide, by decide⟩) (Or.inl ⟨by decide, by decide⟩)
      (by decide)).1.mpr (Or.inl (by decide)),
    (list_out_of_range ⟨some "s3cret", fun s => s⟩ "u" products
      { headers := [("x-api-key", "s3cret")],
        query := [("page", JVal.str "2"), ("limit", JVal.str "-1")] } 2 (-1)
      (by decide) (by decide) (Or.inl ⟨by decide, by decide⟩) (Or.inl ⟨by decide, by decide⟩)
      (by decide)).1.mpr (Or.inr (Or.inr (by decide)))⟩

/-! ## Listing by category -/

theorem strictEq_str_iff (v : JVal) (c : String) :
    strictEq v (JVal.str c) = true ↔ v = JVal.str c := by
  cases v <;> simp [strictEq]

theorem pageOf_unpaged (items : Products) : pageOf items JNum.nan JNum.nan = items := by
  have h0 : toNumber 0 = JNum.fin 0 := toNumber_of_lt 0 (by decide)
  have hA : numSub (JNum.fin 1) (JNum.fin 1) = JNum.fin 0 := by
    simp only [numSub, sub_self, h0]
  have hS : numMul (JNum.fin 0) (JNum.fin (items.length : Int)) = JNum.fin 0 := by
    simp only [numMul, zero_mul, h0]
  have hE : numAdd (JNum.fin 0) (JNum.fin (items.length : Int)) =
      JNum.fin (items.length : Int) := by
    simp only [numAdd, if_true]
  unfold pageOf
  simp only [numOr]
  rw [hA, hS, hE, slice_fin_nonneg _ _ _ (le_refl _) (by omega)]
  simp

theorem listResult_unpaged (ps : Products) (query : Obj)
    (hpage : getField query "page" = JVal.undefined)
    (hlimit : getField query "limit" = JVal.undefined) :
    listResult ps query = Except.ok (categoryFilter ps query) := by
  have hnan : parseInt JVal.undefined = Except.ok JNum.nan := by decide
  rw [listResult_of_parsed ps query JNum.nan JNum.nan (by rw [hpage, hnan])
    (by rw [hlimit, hnan]), pageOf_unpaged]

/-- C13: an authenticated `GET /api/products` without `page` and `limit` answers 200 with all
products in insertion order when no category is given, and with exactly the products whose
category equals the value, in insertion order, when a non-empty category is given.  On the
initial collection `category=kitchen` returns exactly the record `Coffee Maker` (id `'3'`). -/
theorem list_by_category (env : Env) (uuid : String) (ps : Products) (req : Req)
    (hauth : authenticate env.API_KEY req = Step.next)
    (hpage : getField req.query "page" = JVal.undefined)
    (hlimit : getField req.query "limit" = JVal.undefined) :
    (getField req.query "category" = JVal.undefined →
      handle env uuid ps Route.list req =
        (⟨200, Body.json (JVal.arr (ps.map JVal.obj))⟩, ps)) ∧
    (∀ c : String, c ≠ "" → getField req.query "category" = JVal.str c →
      handle env uuid ps Route.list req =
        (⟨200, Body.json (JVal.arr
          ((ps.filter (fun p => decide (getField p "category" = JVal.str c))).map
            JVal.obj))⟩, ps)) ∧
    handle ⟨some "s3cret", fun s => s⟩ "u" products Route.list
        { headers := [("x-api-key", "s3cret")], query := [("category", JVal.str "kitchen")] } =
      (⟨200, Body.json (JVal.arr [JVal.obj [("id", JVal.str "3"),
        ("name", JVal.str "Coffee Maker"), ("description", JVal.str "Timer"),
        ("price", JVal.num 50), ("category", JVal.str "kitchen"),
        ("inStock", JVal.bool false)]])⟩, products) := by
  rw [handle_of_next _ _ _ _ _ hauth]
  simp only [runHandler, getProducts, listResult_unpaged ps req.query hpage hlimit]
  refine ⟨?_, ?_, by decide⟩
  · intro hc
    simp [categoryFilter, hc, truthy]
  · intro c hne hc
    have htruthy : truthy (JVal.str c) = true := by simp [truthy, hne]
    simp only [categoryFilter, hc, htruthy, if_true]
    have hfun : (fun p : Obj => strictEq (getField p "category") (JVal.str c)) =
        (fun p : Obj => decide (getField p "category" = JVal.str c)) := by
      funext p
      by_cases h : getField p "category" = JVal.str c
      · simp [h, strictEq]
      · have : strictEq (getField p "category") (JVal.str c) = false := by
          cases hs : strictEq (getField p "category") (JVal.str c)
          · rfl
          · exact absurd ((strictEq_str_iff _ _).mp hs) h
        simp [h, this]
    rw [hfun]

theorem list_by_category_witness :
    handle ⟨some "s3cret", fun s => s⟩ "u" products Route.list
        { headers := [("x-api-key", "s3cret")],
          query := [("category", JVal.str "electronics")] } =
      (⟨200, Body.json (JVal.arr
        ((products.filter
          (fun p => decide (getField p "category" = JVal.str "electronics"))).map
            JVal.obj))⟩, products) :=
  (list_by_category ⟨some "s3cret", fun s => s⟩ "u" products
    { headers := [("x-api-key", "s3cret")], query := [("category", JVal.str "electronics")] }
    (by decide) (by decide) (by decide)).2.1 "electronics" (by decide) (by decide)

/-! ## Statistics -/

theorem statsStep_eq (stats p : Obj) (key : String) (hk : categoryKey p = Except.ok key)
    (hkey : key ∉ inheritedKeys)
    (hcount : ∀ k v, lookupField stats k = some v → ∃ n : Int, v = JVal.num n) :
    statsStep stats p =
      Except.ok (setField stats key
        (JVal.num (((lookupField stats key).map numValue).getD 0 + 1))) := by
  have hproto : key ≠ "__proto__" := by
    intro h
    exact hkey (by rw [h]; simp [inheritedKeys])
  have hmeth : key ∉ objectPrototypeMethods := by
    intro h
    exact hkey (List.mem_cons_of_mem _ h)
  have hb : bumped stats key =
      Except.ok (JVal.num (((lookupField stats key).map numValue).getD 0 + 1)) := by
    unfold bumped
    cases hl : lookupField stats key with
    | none => simp [hmeth]
    | some v =>
      obtain ⟨n, hn⟩ := hcount _ _ hl
      subst hn
      simp [numValue]
  unfold statsStep
  rw [hk]
  simp only
  rw [if_neg hproto, hb]

theorem sum_numValue_setField (stats : Obj) (k : String) (v : JVal) :
    ((setField stats k v).map (fun e => numValue e.2)).sum =
      (stats.map (fun e => numValue e.2)).sum -
        ((lookupField stats k).map numValue).getD 0 + numValue v := by
  induction stats with
  | nil => simp [setField, lookupField]
  | cons e rest ih =>
    obtain ⟨k₀, v₀⟩ := e
    by_cases h : k₀ = k
    · simp only [setField, lookupField, h, if_true, List.map_cons, List.sum_cons,
        Option.map_some', Option.getD_some]
      omega
    · simp only [setField, lookupField, h, if_false, List.map_cons, List.sum_cons, ih]
      omega

/-- The loop of lines 71-73 when every category converts to a key that `{}` does not inherit:
it ends without an exception, and the object it leaves holds a count per key. -/
theorem statsFrom_counts (ps : Products) (stats : Obj)
    (hkeys : ∀ p ∈ ps, ∃ key, categoryKey p = Except.ok key ∧ key ∉ inheritedKeys)
    (hcount : ∀ k v, lookupField stats k = some v → ∃ n : Int, v = JVal.num n)
    (hnodup : (keysOf stats).Nodup) :
    ∃ result : Obj, statsFrom stats ps = Except.ok result ∧
      (keysOf result).Nodup ∧
      (∀ k, lookupField result k =
        if ps.countP (fun p => decide (categoryKey p = Except.ok k)) = 0 then
          lookupField stats k
        else some (JVal.num (((lookupField stats k).map numValue).getD 0 +
          (ps.countP (fun p => decide (categoryKey p = Except.ok k)) : Nat)))) ∧
      (result.map (fun e => numValue e.2)).sum =
        (stats.map (fun e => numValue e.2)).sum + (ps.length : Nat) := by
  induction ps generalizing stats with
  | nil => exact ⟨stats, rfl, hnodup, by simp, by simp⟩
  | cons p rest ih =>
    obtain ⟨key, hk, hkey⟩ := hkeys p (List.mem_cons_self _ _)
    have hrest : ∀ q ∈ rest, ∃ key, categoryKey q = Except.ok key ∧ key ∉ inheritedKeys :=
      fun q hq => hkeys q (List.mem_cons_of_mem _ hq)
    have hstep := statsStep_eq stats p key hk hkey hcount
    have hcount2 : ∀ k v, lookupField (setField stats key
        (JVal.num (((lookupField stats key).map numValue).getD 0 + 1))) k = some v →
        ∃ n : Int, v = JVal.num n := by
      intro k v hv
      by_cases hkk : k = key
      · subst hkk
        rw [lookupField_setField_self] at hv
        exact ⟨_, (Option.some.inj hv).symm⟩
      · rw [lookupField_setField_ne _ _ _ _ hkk] at hv
        exact hcount k v hv
    obtain ⟨result, hres, hnd, hlook, hsum⟩ :=
      ih _ hrest hcount2 (nodup_keysOf_setField _ _ _ hnodup)
    refine ⟨result, ?_, hnd, ?_, ?_⟩
    · unfold statsFrom
      rw [hstep]
      exact hres
    · intro k
      rw [hlook k]
      by_cases hkk : key = k
      · subst hkk
        rw [lookupField_setField_self,
          List.countP_cons_of_pos _ _ (by simp [hk])]
        simp only [Option.map_some', Option.getD_some, numValue, Nat.succ_ne_zero, if_false]
        split
        · rename_i h0
          rw [h0]
          simp
        · congr 2
          push_cast
          omega
      · have hkk2 : k ≠ key := fun e => hkk e.symm
        rw [lookupField_setField_ne _ _ _ _ hkk2,
          List.countP_cons_of_neg _ _ (by simp [hk, hkk])]
    · rw [hsum, sum_numValue_setField]
      simp only [numValue, List.length_cons]
      push_cast
      omega

/-- C14, as stated, fails in three ways.  After two valid `POST`s, one with the boolean `true`
and one with the string `'true'` as category, the stats handler reports the single key `true`
with count 2, although one product has the category `'true'` and one the category `true`.
After a valid `POST` with the category `'constructor'`, the value reported for that category
is not a count but the text of the inherited `Object.prototype.constructor` followed by `1`.
And after a valid `POST` whose category is the object `{toString: 1}`, the conversion of
that category to a property key throws, and the stats request is answered 500. -/
theorem stats_not_per_category :
    (handle ⟨some "s3cret", fun s => s⟩ "u"
        (handle ⟨some "s3cret", fun s => s⟩ "u-5"
          (handle ⟨some "s3cret", fun s => s⟩ "u-4" products Route.create
            { headers := [("x-api-key", "s3cret")],
              body := ReqBody.obj [("name", JVal.str "Cable"), ("description", JVal.str "1m"),
                ("price", JVal.num 5), ("category", JVal.bool true),
                ("inStock", JVal.bool true)] }).2 Route.create
          { headers := [("x-api-key", "s3cret")],
            body := ReqBody.obj [("name", JVal.str "Plug"), ("description", JVal.str "EU"),
              ("price", JVal.num 3), ("category", JVal.str "true"),
              ("inStock", JVal.bool true)] }).2 Route.stats
        { headers := [("x-api-key", "s3cret")] }).1 =
      ⟨200, Body.json (JVal.obj [("electronics", JVal.num 2), ("kitchen", JVal.num 1),
        ("true", JVal.num 2)])⟩ ∧
    (handle ⟨some "s3cret", fun s => s⟩ "u"
        (handle ⟨some "s3cret", fun s => s⟩ "u-4" products Route.create
          { headers := [("x-api-key", "s3cret")],
            body := ReqBody.obj [("name", JVal.str "Crane"), ("description", JVal.str "toy"),
              ("price", JVal.num 9), ("category", JVal.str "constructor"),
              ("inStock", JVal.bool true)] }).2 Route.stats
        { headers := [("x-api-key", "s3cret")] }).1 =
      ⟨200, Body.json (JVal.obj [("electronics", JVal.num 2), ("kitchen", JVal.num 1),
        ("constructor", JVal.str "function Object() \x7b [native code] \x7d1")])⟩ ∧
    (handle ⟨some "s3cret", fun s => s⟩ "u-4" products Route.create
        { headers := [("x-api-key", "s3cret")],
          body := ReqBody.obj [("name", JVal.str "Box"), ("description", JVal.str "wood"),
            ("price", JVal.num 7), ("category", JVal.obj [("toString", JVal.num 1)]),
            ("inStock", JVal.bool true)] }).1.status = 201 ∧
    (handle ⟨some "s3cret", fun s => s⟩ "u"
        (handle ⟨some "s3cret", fun s => s⟩ "u-4" products Route.create
          { headers := [("x-api-key", "s3cret")],
            body := ReqBody.obj [("name", JVal.str "Box"), ("description", JVal.str "wood"),
              ("price", JVal.num 7), ("category", JVal.obj [("toString", JVal.num 1)]),
              ("inStock", JVal.bool true)] }).2 Route.stats
        { headers := [("x-api-key", "s3cret")] }).1 =
      ⟨500, Body.json (JVal.obj
        [("error", JVal.str "Cannot convert object to primitive value")])⟩ := by
  decide

/-- C14, amended: when every record's category converts to a property key (the category
itself when it is a string) and no such key is a name that `{}` inherits from
`Object.prototype`, an authenticated `GET /api/products/stats` answers 200 with an object
whose keys are exactly the distinct category keys of the collection, each once, and whose
value at a key is the number of products with that key; the values sum to the length of the
collection.  On the initial collection the object is `{electronics: 2, kitchen: 1}`. -/
theorem stats_counts (env : Env) (uuid : String) (ps : Products) (req : Req)
    (hauth : authenticate env.API_KEY req = Step.next)
    (hkeys : ∀ p ∈ ps, ∃ key, categoryKey p = Except.ok key ∧ key ∉ inheritedKeys) :
    ∃ stats : Obj,
      handle env uuid ps Route.stats req = (⟨200, Body.json (JVal.obj stats)⟩, ps) ∧
      (keysOf stats).Nodup ∧
      (∀ k, k ∈ keysOf stats ↔ ∃ p ∈ ps, categoryKey p = Except.ok k) ∧
      (∀ k ∈ keysOf stats, lookupField stats k =
        some (JVal.num (ps.countP (fun p => decide (categoryKey p = Except.ok k)) : Nat))) ∧
      (stats.map (fun e => numValue e.2)).sum = (ps.length : Nat) ∧
      (∀ (p : Obj) (c : String), getField p "category" = JVal.str c →
        categoryKey p = Except.ok c) ∧
      handle env uuid products Route.stats req =
        (⟨200, Body.json (JVal.obj [("electronics", JVal.num 2), ("kitchen", JVal.num 1)])⟩,
          products) := by
  have hempty : ∀ k v, lookupField ([] : Obj) k = some v → ∃ n : Int, v = JVal.num n := by
    intro k v h
    simp [lookupField] at h
  obtain ⟨stats, hstats, hnodup, hlookup, hsum⟩ :=
    statsFrom_counts ps [] hkeys hempty (by simp [keysOf])
  have hpos : ∀ k, ps.countP (fun p => decide (categoryKey p = Except.ok k)) ≠ 0 ↔
      ∃ p ∈ ps, categoryKey p = Except.ok k := by
    intro k
    rw [Nat.ne_zero_iff_zero_lt, List.countP_pos_iff]
    simp
  refine ⟨stats, ?_, hnodup, ?_, ?_, ?_, ?_, ?_⟩
  · rw [handle_of_next _ _ _ _ _ hauth]
    simp only [runHandler, statsProducts, statsOf, hstats]
  · intro k
    rw [mem_keysOf_iff, ← hpos k, hlookup k]
    by_cases h0 : ps.countP (fun p => decide (categoryKey p = Except.ok k)) = 0
    · simp [h0, lookupField]
    · simp [h0]
  · intro k hk
    have hne : ps.countP (fun p => decide (categoryKey p = Except.ok k)) ≠ 0 := by
      rw [mem_keysOf_iff] at hk
      intro h0
      apply hk
      rw [hlookup k, if_pos h0]
      rfl
    rw [hlookup k, if_neg hne]
    simp [lookupField]
  · simpa using hsum
  · intro p c hc
    unfold categoryKey
    rw [hc]
    rfl
  · rw [handle_of_next _ _ _ _ _ hauth]
    rfl

theorem stats_counts_witness :
    ∃ stats : Obj,
      handle ⟨some "s3cret", fun s => s⟩ "u" products Route.stats
          { headers := [("x-api-key", "s3cret")] } =
        (⟨200, Body.json (JVal.obj stats)⟩, products) ∧
      (keysOf stats).Nodup ∧
      (stats.map (fun e => numValue e.2)).sum = 3 :=
  (stats_counts ⟨some "s3cret", fun s => s⟩ "u" products
    { headers := [("x-api-key", "s3cret")] } (by decide)
    (by
      intro p hp
      simp only [products, List.mem_cons, List.mem_singleton, List.not_mem_nil,
        or_false] at hp
      rcases hp with rfl | rfl | rfl
      · exact ⟨"electronics", by decide, by decide⟩
      · exact ⟨"electronics", by decide, by decide⟩
      · exact ⟨"kitchen", by decide, by decide⟩)).imp
      (fun _ h => ⟨h.1, h.2.1, h.2.2.2.2.1⟩)

/-! ## Search -/

theorem filterThrowing_ok {α : Type} (pred : α → Except JsError Bool) (f : α → Bool)
    (xs : List α) (h : ∀ x ∈ xs, pred x = Except.ok (f x)) :
    filterThrowing pred xs = Except.ok (xs.filter f) := by
  induction xs with
  | nil => rfl
  | cons x rest ih =>
    have hx := h x (List.mem_cons_self _ _)
    have hrest := ih (fun y hy => h y (List.mem_cons_of_mem _ hy))
    simp only [filterThrowing, hx, hrest, List.filter_cons]

theorem includes_empty (text : String) : includes text "" = true := by
  unfold includes
  rw [List.any_eq_true]
  refine ⟨text.data, (List.mem_tails _ _).mpr (List.suffix_refl _), ?_⟩
  cases text.data <;> rfl

theorem searchProducts_of_strings (env : Env) (ps : Products) (req : Req) (term : String)
    (hnames : ∀ p ∈ ps, ∃ s : String, getField p "name" = JVal.str s)
    (hterm : getField req.query "name" = JVal.str term) :
    searchProducts env ps req =
      Except.ok ⟨200, Body.json (JVal.arr ((ps.filter (fun p =>
        match getField p "name" with
        | JVal.str s => includes (env.toLowerCase s) (env.toLowerCase term)
        | _ => false)).map JVal.obj))⟩ := by
  unfold searchProducts searchTerm
  rw [hterm]
  simp only
  rw [filterThrowing_ok (nameMatches env (JVal.str (env.toLowerCase term)))
    (fun p => match getField p "name" with
      | JVal.str s => includes (env.toLowerCase s) (env.toLowerCase term)
      | _ => false) ps ?_]
  intro p hp
  obtain ⟨s, hs⟩ := hnames p hp
  simp only [nameMatches, hs, toStr]

/-- C15, as stated, fails for an absent term.  In the collection left by a valid `POST` of a
product named `undefined mug`, a search with no `name` parameter returns exactly that product:
the absent term is converted to the text `undefined` and matched like any other, so it neither
matches every product nor none, while the empty term returns all four products. -/
theorem search_absent_term_is_specific :
    (handle ⟨some "s3cret", fun s => s⟩ "u"
        (handle ⟨some "s3cret", fun s => s⟩ "u-4" products Route.create
          { headers := [("x-api-key", "s3cret")],
            body := ReqBody.obj [("name", JVal.str "undefined mug"),
              ("description", JVal.str "0.3l"), ("price", JVal.num 7),
              ("category", JVal.str "kitchen"), ("inStock", JVal.bool true)] }).2
        Route.search { headers := [("x-api-key", "s3cret")] }).1 =
      ⟨200, Body.json (JVal.arr [JVal.obj [("id", JVal.str "u-4"),
        ("name", JVal.str "undefined mug"), ("description", JVal.str "0.3l"),
        ("price", JVal.num 7), ("category", JVal.str "kitchen"),
        ("inStock", JVal.bool true)]])⟩ ∧
    (handle ⟨some "s3cret", fun s => s⟩ "u"
        (handle ⟨some "s3cret", fun s => s⟩ "u-4" products Route.create
          { headers := [("x-api-key", "s3cret")],
            body := ReqBody.obj [("name", JVal.str "undefined mug"),
              ("description", JVal.str "0.3l"), ("price", JVal.num 7),
              ("category", JVal.str "kitchen"), ("inStock", JVal.bool true)] }).2
        Route.search
        { headers := [("x-api-key", "s3cret")], query := [("name", JVal.str "")] }).1 =
      ⟨200, Body.json (JVal.arr
        ((handle ⟨some "s3cret", fun s => s⟩ "u-4" products Route.create
          { headers := [("x-api-key", "s3cret")],
            body := ReqBody.obj [("name", JVal.str "undefined mug"),
              ("description", JVal.str "0.3l"), ("price", JVal.num 7),
              ("category", JVal.str "kitchen"), ("inStock", JVal.bool true)] }).2.map
          JVal.obj))⟩ := by
  decide

/-- C15, amended: when every record has a string name and the request supplies a string as
`name`, an authenticated search answers 200 with exactly the products, in insertion order,
whose lower-cased name contains the lower-cased term; two terms with the same lower-case form
give the same answer; and the empty term returns every product.  (Nothing is said about a
request without `name`.) -/
theorem search_by_name (env : Env) (uuid : String) (ps : Products) (req : Req)
    (term : String)
    (hauth : authenticate env.API_KEY req = Step.next)
    (hnames : ∀ p ∈ ps, ∃ s : String, getField p "name" = JVal.str s)
    (hterm : getField req.query "name" = JVal.str term) :
    handle env uuid ps Route.search req =
        (⟨200, Body.json (JVal.arr ((ps.filter (fun p =>
          match getField p "name" with
          | JVal.str s => includes (env.toLowerCase s) (env.toLowerCase term)
          | _ => false)).map JVal.obj))⟩, ps) ∧
      (∀ (req2 : Req) (term2 : String), authenticate env.API_KEY req2 = Step.next →
        getField req2.query "name" = JVal.str term2 →
        env.toLowerCase term2 = env.toLowerCase term →
        handle env uuid ps Route.search req2 = handle env uuid ps Route.search req) ∧
      (term = "" → env.toLowerCase "" = "" →
        handle env uuid ps Route.search req =
          (⟨200, Body.json (JVal.arr (ps.map JVal.obj))⟩, ps)) := by
  have hrun : ∀ (r : Req) (t : String), authenticate env.API_KEY r = Step.next →
      getField r.query "name" = JVal.str t →
      handle env uuid ps Route.search r =
        (⟨200, Body.json (JVal.arr ((ps.filter (fun p =>
          match getField p "name" with
          | JVal.str s => includes (env.toLowerCase s) (env.toLowerCase t)
          | _ => false)).map JVal.obj))⟩, ps) := by
    intro r t ha ht
    rw [handle_of_next _ _ _ _ _ ha]
    simp only [runHandler, searchProducts_of_strings env ps r t hnames ht]
  refine ⟨hrun req term hauth hterm, ?_, ?_⟩
  · intro req2 term2 ha2 ht2 hlow
    rw [hrun req2 term2 ha2 ht2, hrun req term hauth hterm, hlow]
  · intro hempty hlower
    rw [hrun req term hauth hterm, hempty, hlower]
    have hall : ps.filter (fun p =>
        match getField p "name" with
        | JVal.str s => includes (env.toLowerCase s) ""
        | _ => false) = ps := by
      rw [List.filter_eq_self]
      intro p hp
      obtain ⟨s, hs⟩ := hnames p hp
      rw [hs]
      exact includes_empty _
    rw [hall]

theorem search_by_name_witness :
    handle ⟨some "s3cret", asciiLower⟩ "u" products Route.search
        { headers := [("x-api-key", "s3cret")], query := [("name", JVal.str "PHONE")] } =
      (⟨200, Body.json (JVal.arr [JVal.obj [("id", JVal.str "2"),
        ("name", JVal.str "Smartphone"), ("description", JVal.str "128GB storage"),
        ("price", JVal.num 800), ("category", JVal.str "electronics"),
        ("inStock", JVal.bool true)]])⟩, products) :=
  (search_by_name ⟨some "s3cret", asciiLower⟩ "u" products
    { headers := [("x-api-key", "s3cret")], query := [("name", JVal.str "PHONE")] } "PHONE"
    (by decide)
    (by
      intro p hp
      simp only [products, List.mem_cons, List.mem_singleton, List.not_mem_nil, or_false] at hp
      rcases hp with rfl | rfl | rfl
      · exact ⟨"Laptop", rfl⟩
      · exact ⟨"Smartphone", rfl⟩
      · exact ⟨"Coffee Maker", rfl⟩)
    (by decide)).1.trans (by decide)

/-! ## Routing -/

/-- C16, as stated, fails for a segment that differs from a literal only in letter case: the
segment `SEARCH` is neither `search` nor `stats`, yet `GET /api/products/SEARCH` matches the
route registered as `/api/products/search`, and on the initial collection the search handler
answers it, not the lookup of the id `SEARCH` (which would answer 404). -/
theorem upper_case_segment_is_search :
    matchRoute Method.GET ["api", "products", "SEARCH"] = some (Route.search, {}) ∧
    (dispatch ⟨some "s3cret", asciiLower⟩ "u" products Method.GET
        ["api", "products", "SEARCH"]
        { headers := [("x-api-key", "s3cret")], query := [("name", JVal.str "lap")] }).map
      (fun r => r.1.status) = some 200 ∧
    (handle ⟨some "s3cret", asciiLower⟩ "u" products Route.getById
        { headers := [("x-api-key", "s3cret")], params := { id := "SEARCH" },
          query := [("name", JVal.str "lap")] }).1.status = 404 := by
  decide

/-- C16, amended: for every store state, `GET /api/products/search` runs the search handler
and `GET /api/products/stats` the stats handler, each behind `authenticate` and never the
`/:id` lookup; every other single non-empty path segment after `/api/products/` that is not
`search` or `stats` in some letter case runs the `/:id` lookup with that segment as id. -/
theorem literal_routes_first (env : Env) (uuid : String) (ps : Products) (req : Req) :
    dispatch env uuid ps Method.GET ["api", "products", "search"] req =
        some (handle env uuid ps Route.search { req with params := {} }) ∧
      dispatch env uuid ps Method.GET ["api", "products", "stats"] req =
        some (handle env uuid ps Route.stats { req with params := {} }) ∧
      ∀ x : String, x ≠ "" → asciiLower x ≠ "search" → asciiLower x ≠ "stats" →
        dispatch env uuid ps Method.GET ["api", "products", x] req =
          some (handle env uuid ps Route.getById { req with params := { id := x } }) := by
  have hsearch : asciiLower "search" = "search" := by decide
  have hstats : asciiLower "stats" = "stats" := by decide
  refine ⟨by simp [dispatch, show matchRoute Method.GET ["api", "products", "search"] =
      some (Route.search, {}) by decide],
    by simp [dispatch, show matchRoute Method.GET ["api", "products", "stats"] =
      some (Route.stats, {}) by decide], ?_⟩
  intro x hx h1 h2
  have hmatch : matchRoute Method.GET ["api", "products", x] =
      some (Route.getById, { id := x }) := by
    simp [matchRoute, routeTable, firstMatch, matchPath, hsearch, hstats, h1, h2, hx]
  simp [dispatch, hmatch]

theorem literal_routes_first_witness :
    dispatch ⟨some "s3cret", asciiLower⟩ "u" products Method.GET ["api", "products", "2"]
        { headers := [("x-api-key", "s3cret")] } =
      some (⟨200, Body.json (JVal.obj [("id", JVal.str "2"), ("name", JVal.str "Smartphone"),
        ("description", JVal.str "128GB storage"), ("price", JVal.num 800),
        ("category", JVal.str "electronics"), ("inStock", JVal.bool true)])⟩, products) :=
  ((literal_routes_first ⟨some "s3cret", asciiLower⟩ "u" products
    { headers := [("x-api-key", "s3cret")] }).2.2 "2" (by decide) (by decide)
    (by decide)).trans (by decide)

/-! ## Failures and reads leave the store alone -/

/-- C17: failure atomicity.  Whenever a route answers 400, 401 or 404, the collection after
the request is the collection before it.  In particular an authenticated `POST` without
`description` answers 400, and an authenticated `PUT` or `DELETE` on an id that no record has
answers 404, each leaving the collection as it was. -/
theorem failure_leaves_store (env : Env) (uuid : String) (ps : Products) (route : Route)
    (req : Req) :
    ((handle env uuid ps route req).1.status = 400 ∨
        (handle env uuid ps route req).1.status = 401 ∨
        (handle env uuid ps route req).1.status = 404 →
      (handle env uuid ps route req).2 = ps) ∧
    (authenticate env.API_KEY req = Step.next →
      bodyGet req.body "description" = JVal.undefined →
      handle env uuid ps Route.create req =
        (⟨400, Body.json (JVal.obj [("error", JVal.str "Missing or invalid fields")])⟩, ps)) ∧
    (authenticate env.API_KEY req = Step.next →
      (∀ p ∈ ps, hasId req.params.id p = false) →
      handle env uuid ps Route.update req =
          (⟨404, Body.json (JVal.obj [("error", JVal.str "Product not found")])⟩, ps) ∧
        handle env uuid ps Route.delete req =
          (⟨404, Body.json (JVal.obj [("error", JVal.str "Product not found")])⟩, ps)) := by
  refine ⟨?_, ?_, ?_⟩
  · intro hfail
    by_cases hread : route ≠ Route.create ∧ route ≠ Route.update ∧ route ≠ Route.delete
    · exact handle_store_of_read _ _ _ _ _ hread
    · cases hauth : authenticate env.API_KEY req with
      | respond res => cases route <;> simp [handle, hauth, runHandler, rootHandler]
      | next =>
        rw [handle_of_next _ _ _ _ _ hauth] at hfail ⊢
        cases route with
        | create =>
          simp only [runHandler, postProduct] at hfail ⊢
          split
          · rfl
          · rename_i hv
            rw [if_neg hv] at hfail
            simp at hfail
        | update =>
          simp only [runHandler, putProduct] at hfail ⊢
          cases hidx : findIndex (hasId req.params.id) ps with
          | none => rfl
          | some index =>
            rw [hidx] at hfail
            simp at hfail
        | delete =>
          simp only [runHandler, deleteProduct] at hfail ⊢
          cases hidx : findIndex (hasId req.params.id) ps with
          | none => rfl
          | some index =>
            rw [hidx] at hfail
            simp at hfail
        | root => exact absurd ⟨by decide, by decide, by decide⟩ hread
        | list => exact absurd ⟨by decide, by decide, by decide⟩ hread
        | search => exact absurd ⟨by decide, by decide, by decide⟩ hread
        | stats => exact absurd ⟨by decide, by decide, by decide⟩ hread
        | getById => exact absurd ⟨by decide, by decide, by decide⟩ hread
  · intro hauth hdesc
    rw [handle_of_next _ _ _ _ _ hauth]
    have hinv : invalidCreate req.body = true := by
      simp [invalidCreate, hdesc, truthy]
    simp only [runHandler, postProduct_invalid _ _ _ hinv]
    rfl
  · intro hauth hnone
    rw [handle_of_next _ _ _ _ _ hauth, handle_of_next _ _ _ _ _ hauth]
    simp only [runHandler, putProduct_absent ps req hnone, deleteProduct_absent ps req hnone]
    exact ⟨rfl, rfl⟩

theorem failure_leaves_store_witness :
    (handle ⟨some "s3cret", fun s => s⟩ "u" products Route.create
        { headers := [("x-api-key", "s3cret")],
          body := ReqBody.obj [("name", JVal.str "Kettle"), ("price", JVal.num 30),
            ("category", JVal.str "kitchen"), ("inStock", JVal.bool true)] }).2 = products :=
  (failure_leaves_store ⟨some "s3cret", fun s => s⟩ "u" products Route.create
    { headers := [("x-api-key", "s3cret")],
      body := ReqBody.obj [("name", JVal.str "Kettle"), ("price", JVal.num 30),
        ("category", JVal.str "kitchen"), ("inStock", JVal.bool true)] }).1
    (Or.inl (by decide))

/-- C20: the read routes (`GET /`, list, search, stats, get by id) leave the collection
exactly as it was, whatever the query, so the same request sent again right away gets the
same response. -/
theorem read_routes_pure (env : Env) (uuid uuid2 : String) (ps : Products) (route : Route)
    (req : Req)
    (hread : route ∈ [Route.root, Route.list, Route.search, Route.stats, Route.getById]) :
    (handle env uuid ps route req).2 = ps ∧
      handle env uuid2 (handle env uuid ps route req).2 route req =
        handle env uuid ps route req := by
  have hne : route ≠ Route.create ∧ route ≠ Route.update ∧ route ≠ Route.delete := by
    refine ⟨?_, ?_, ?_⟩ <;> (intro h; subst h; simp at hread)
  have hstore := handle_store_of_read env uuid ps route req hne
  refine ⟨hstore, ?_⟩
  rw [hstore]
  cases route <;> first
    | rfl
    | exact absurd rfl hne.1

theorem read_routes_pure_witness :
    (handle ⟨some "s3cret", asciiLower⟩ "u" products Route.search
        { headers := [("x-api-key", "s3cret")], query := [("name", JVal.str "o")] }).2 =
      products ∧
    handle ⟨some "s3cret", asciiLower⟩ "v"
        (handle ⟨some "s3cret", asciiLower⟩ "u" products Route.search
          { headers := [("x-api-key", "s3cret")], query := [("name", JVal.str "o")] }).2
        Route.search
        { headers := [("x-api-key", "s3cret")], query := [("name", JVal.str "o")] } =
      handle ⟨some "s3cret", asciiLower⟩ "u" products Route.search
        { headers := [("x-api-key", "s3cret")], query := [("name", JVal.str "o")] } :=
  read_routes_pure ⟨some "s3cret", asciiLower⟩ "u" "v" products Route.search
    { headers := [("x-api-key", "s3cret")], query := [("name", JVal.str "o")] } (by decide)

/-! ## The shape of the records -/

theorem handle_forall (P : Obj → Prop) (env : Env) (uuid : String) (ps : Products)
    (route : Route) (req : Req) (hps : ∀ p ∈ ps, P p)
    (hnew : invalidCreate req.body = false → P (newProduct uuid req.body))
    (hmerge : ∀ old ∈ ps, P (spreadMerge old req.body)) :
    ∀ p ∈ (handle env uuid ps route req).2, P p := by
  by_cases hread : route ≠ Route.create ∧ route ≠ Route.update ∧ route ≠ Route.delete
  · rw [handle_store_of_read _ _ _ _ _ hread]
    exact hps
  · cases hauth : authenticate env.API_KEY req with
    | respond res =>
      have hsame : (handle env uuid ps route req).2 = ps := by
        cases route <;> simp [handle, hauth, runHandler, rootHandler]
      rw [hsame]
      exact hps
    | next =>
      rw [handle_of_next _ _ _ _ _ hauth]
      cases route with
      | create =>
        simp only [runHandler]
        cases hv : invalidCreate req.body
        · rw [postProduct_valid _ _ _ hv]
          intro p hp
          rcases List.mem_append.mp hp with h | h
          · exact hps p h
          · rw [List.mem_singleton] at h
            rw [h]
            exact hnew hv
        · rw [postProduct_invalid _ _ _ hv]
          exact hps
      | update =>
        simp only [runHandler]
        by_cases hocc : ∃ p ∈ ps, hasId req.params.id p = true
        · obtain ⟨front, old, back, hsplit, hfront, hold⟩ := exists_first_match _ ps hocc
          rw [hsplit, putProduct_split _ front old back req rfl hfront hold]
          intro p hp
          simp only [List.mem_append, List.mem_cons] at hp
          rcases hp with h | h | h
          · exact hps p (by rw [hsplit]; simp [h])
          · rw [h]
            exact hmerge old (by rw [hsplit]; simp)
          · exact hps p (by rw [hsplit]; simp [h])
        · have hall : ∀ p ∈ ps, hasId req.params.id p = false := by
            intro p hp
            cases h : hasId req.params.id p
            · rfl
            · exact absurd ⟨p, hp, h⟩ hocc
          rw [putProduct_absent ps req hall]
          exact hps
      | delete =>
        simp only [runHandler]
        intro p hp
        exact hps p ((deleteProduct_sublist ps req).subset hp)
      | root => exact absurd ⟨by decide, by decide, by decide⟩ hread
      | list => exact absurd ⟨by decide, by decide, by decide⟩ hread
      | search => exact absurd ⟨by decide, by decide, by decide⟩ hread
      | stats => exact absurd ⟨by decide, by decide, by decide⟩ hread
      | getById => exact absurd ⟨by decide, by decide, by decide⟩ hread

theorem keysOf_spreadMerge_of_mem (old : Obj) (body : ReqBody) (k : String)
    (h : k ∈ keysOf old) : k ∈ keysOf (spreadMerge old body) := by
  rw [mem_keysOf_iff] at h ⊢
  rw [lookupField_spreadMerge]
  split
  · simp
  · exact h

/-- C18, as stated, fails: a `POST` whose `name` is the number `5` and whose `price` is the
string `'cheap'` is not rejected; it answers 201 and stores the record as given. -/
theorem post_accepts_wrong_types :
    handle ⟨some "s3cret", fun s => s⟩ "u-4" products Route.create
        { headers := [("x-api-key", "s3cret")],
          body := ReqBody.obj [("name", JVal.num 5), ("description", JVal.str "d"),
            ("price", JVal.str "cheap"), ("category", JVal.str "kitchen"),
            ("inStock", JVal.bool true)] } =
      (⟨201, Body.json (JVal.obj [("id", JVal.str "u-4"), ("name", JVal.num 5),
          ("description", JVal.str "d"), ("price", JVal.str "cheap"),
          ("category", JVal.str "kitchen"), ("inStock", JVal.bool true)])⟩,
        products ++ [[("id", JVal.str "u-4"), ("name", JVal.num 5),
          ("description", JVal.str "d"), ("price", JVal.str "cheap"),
          ("category", JVal.str "kitchen"), ("inStock", JVal.bool true)]]) := by
  decide

/-- C18, amended: creation fails (400) whenever `name`, `description`, `price` or `category`
is absent or falsy or `inStock` is not a boolean, so a record that `POST` appends has a string
id, truthy `name`, `description`, `price` and `category` and a boolean `inStock`; and in every
store state reachable from the initial collection through the API, every record has the six
properties `id`, `name`, `description`, `price`, `category` and `inStock`. -/
theorem records_keep_six_fields (env : Env) (ps : Products) (hreach : Reachable env ps) :
    (∀ p ∈ ps, ∀ k ∈ ["id", "name", "description", "price", "category", "inStock"],
      k ∈ keysOf p) ∧
    (∀ (uuid : String) (req : Req), authenticate env.API_KEY req = Step.next →
      ((truthy (bodyGet req.body "name") = false ∨
          truthy (bodyGet req.body "description") = false ∨
          truthy (bodyGet req.body "price") = false ∨
          truthy (bodyGet req.body "category") = false ∨
          typeofIsBool (bodyGet req.body "inStock") = false) →
        handle env uuid ps Route.create req =
          (⟨400, Body.json (JVal.obj [("error", JVal.str "Missing or invalid fields")])⟩,
            ps)) ∧
      ((handle env uuid ps Route.create req).1.status = 201 →
        ∃ created : Obj, (handle env uuid ps Route.create req).2 = ps ++ [created] ∧
          getField created "id" = JVal.str uuid ∧
          truthy (getField created "name") = true ∧
          truthy (getField created "description") = true ∧
          truthy (getField created "price") = true ∧
          truthy (getField created "category") = true ∧
          ∃ b : Bool, getField created "inStock" = JVal.bool b)) := by
  constructor
  · induction hreach with
    | seed => decide
    | step ps0 uuid route req _ ih =>
      apply handle_forall _ env uuid ps0 route req ih
      · intro _
        simp [newProduct, keysOf]
      · intro old hold k hk
        exact keysOf_spreadMerge_of_mem old req.body k (ih old hold k hk)
  · intro uuid req hauth
    rw [handle_of_next _ _ _ _ _ hauth]
    simp only [runHandler]
    constructor
    · intro hbad
      have hinv : invalidCreate req.body = true := by
        unfold invalidCreate
        rcases hbad with h | h | h | h | h <;> simp [h]
      rw [postProduct_invalid _ _ _ hinv]
      rfl
    · intro hstatus
      cases hv : invalidCreate req.body
      · obtain ⟨h1, h2, h3, h4, b, h5⟩ := (invalidCreate_eq_false_iff req.body).mp hv
        rw [postProduct_valid _ _ _ hv]
        refine ⟨newProduct uuid req.body, rfl, ?_, ?_, ?_, ?_, ?_, b, ?_⟩ <;>
          simp [newProduct, getField, lookupField, h1, h2, h3, h4, h5]
      · rw [postProduct_invalid _ _ _ hv] at hstatus
        simp [invalidFields] at hstatus

theorem records_keep_six_fields_witness :
    "name" ∈ keysOf ((handle ⟨some "s3cret", fun s => s⟩ "u" products Route.update
        { headers := [("x-api-key", "s3cret")], params := { id := "1" },
          body := ReqBody.obj [("name", JVal.null)] }).2.getD 0 []) :=
  (records_keep_six_fields ⟨some "s3cret", fun s => s⟩ _
    (Reachable.step products "u" Route.update
      { headers := [("x-api-key", "s3cret")], params := { id := "1" },
        body := ReqBody.obj [("name", JVal.null)] } Reachable.seed)).1
    _ (by decide) "name" (by decide)

/-! ## Exceptions -/

theorem bumped_ok (stats : Obj) (key : String)
    (hvals : ∀ k v, lookupField stats k = some v →
      (∃ n : Int, v = JVal.num n) ∨ ∃ s : String, v = JVal.str s) :
    ∃ value, bumped stats key = Except.ok value ∧
      ((∃ n : Int, value = JVal.num n) ∨ ∃ s : String, value = JVal.str s) := by
  unfold bumped
  cases hl : lookupField stats key with
  | none =>
    simp only
    split
    · exact ⟨_, rfl, Or.inr ⟨_, rfl⟩⟩
    · exact ⟨_, rfl, Or.inl ⟨_, rfl⟩⟩
  | some v =>
    rcases hvals _ _ hl with ⟨n, hn⟩ | ⟨s, hs⟩
    · subst hn
      exact ⟨_, rfl, Or.inl ⟨_, rfl⟩⟩
    · subst hs
      simp only
      split
      · exact ⟨_, rfl, Or.inl ⟨_, rfl⟩⟩
      · exact ⟨_, rfl, Or.inr ⟨_, rfl⟩⟩

/-- The loop of lines 71-73 ends without an exception when every category converts to a
property key. -/
theorem statsFrom_ok (ps : Products) (stats : Obj)
    (hkeys : ∀ p ∈ ps, ∃ key, categoryKey p = Except.ok key)
    (hvals : ∀ k v, lookupField stats k = some v →
      (∃ n : Int, v = JVal.num n) ∨ ∃ s : String, v = JVal.str s) :
    ∃ result, statsFrom stats ps = Except.ok result := by
  induction ps generalizing stats with
  | nil => exact ⟨stats, rfl⟩
  | cons p rest ih =>
    obtain ⟨key, hk⟩ := hkeys p (List.mem_cons_self _ _)
    have hrest : ∀ q ∈ rest, ∃ key, categoryKey q = Except.ok key :=
      fun q hq => hkeys q (List.mem_cons_of_mem _ hq)
    unfold statsFrom statsStep
    rw [hk]
    simp only
    by_cases hproto : key = "__proto__"
    · rw [if_pos hproto]
      exact ih stats hrest hvals
    · rw [if_neg hproto]
      obtain ⟨value, hb, hvalue⟩ := bumped_ok stats key hvals
      rw [hb]
      apply ih _ hrest
      intro k v hv
      by_cases hkk : k = key
      · subst hkk
        rw [lookupField_setField_self] at hv
        rw [← Option.some.inj hv]
        exact hvalue
      · rw [lookupField_setField_ne _ _ _ _ hkk] at hv
        exact hvals k v hv

/-- The search handler does not throw on string names and an absent or string term. -/
theorem searchProducts_ok (env : Env) (ps : Products) (req : Req)
    (hnames : ∀ p ∈ ps, ∃ s : String, getField p "name" = JVal.str s)
    (hquery : getField req.query "name" = JVal.undefined ∨
      ∃ t : String, getField req.query "name" = JVal.str t) :
    ∃ result : Products, searchProducts env ps req =
      Except.ok ⟨200, Body.json (JVal.arr (result.map JVal.obj))⟩ := by
  rcases hquery with hq | ⟨t, hq⟩
  · refine ⟨ps.filter (fun p => match getField p "name" with
        | JVal.str s => includes (env.toLowerCase s) "undefined"
        | _ => false), ?_⟩
    unfold searchProducts searchTerm
    rw [hq]
    simp only
    rw [filterThrowing_ok (nameMatches env JVal.undefined)
      (fun p => match getField p "name" with
        | JVal.str s => includes (env.toLowerCase s) "undefined"
        | _ => false) ps ?_]
    intro p hp
    obtain ⟨s, hs⟩ := hnames p hp
    simp only [nameMatches, hs, toStr]
  · exact ⟨_, searchProducts_of_strings env ps req t hnames hq⟩

/-- The list handler does not throw when `page` and `limit` convert to strings. -/
theorem getProducts_ok (ps : Products) (req : Req)
    (hpage : ∃ t : String, toStr (getField req.query "page") = Except.ok t)
    (hlimit : ∃ t : String, toStr (getField req.query "limit") = Except.ok t) :
    ∃ result : Products, getProducts ps req =
      Except.ok ⟨200, Body.json (JVal.arr (result.map JVal.obj))⟩ := by
  obtain ⟨tp, hp⟩ := hpage
  obtain ⟨tl, hl⟩ := hlimit
  refine ⟨pageOf (categoryFilter ps req.query) (parseIntStr tp) (parseIntStr tl), ?_⟩
  have hlist := listResult_of_parsed ps req.query (parseIntStr tp) (parseIntStr tl)
    (by unfold parseInt; rw [hp]) (by unfold parseInt; rw [hl])
  simp only [getProducts, hlist]

/-- C19, as stated, fails in three handlers.  A `POST` whose `name` is the number `5` passes
the validation (201), and in the collection it leaves, `GET /api/products/search?name=a`
throws a `TypeError` at that record, which the error handler turns into a 500.  A `POST`
whose category is the object `{toString: 1}` passes the validation too, and in the collection
it leaves, where every name is a string, `GET /api/products/stats` throws when it converts
that category to a property key.  And on the initial collection the list handler throws for a
query in which `page` is the object `{toString: '1'}`. -/
theorem handlers_throw_on_accepted_data :
    (handle ⟨some "s3cret", asciiLower⟩ "u-4" products Route.create
        { headers := [("x-api-key", "s3cret")],
          body := ReqBody.obj [("name", JVal.num 5), ("description", JVal.str "d"),
            ("price", JVal.num 1), ("category", JVal.str "kitchen"),
            ("inStock", JVal.bool true)] }).1.status = 201 ∧
    (handle ⟨some "s3cret", asciiLower⟩ "u"
        (handle ⟨some "s3cret", asciiLower⟩ "u-4" products Route.create
          { headers := [("x-api-key", "s3cret")],
            body := ReqBody.obj [("name", JVal.num 5), ("description", JVal.str "d"),
              ("price", JVal.num 1), ("category", JVal.str "kitchen"),
              ("inStock", JVal.bool true)] }).2 Route.search
        { headers := [("x-api-key", "s3cret")], query := [("name", JVal.str "a")] }).1 =
      ⟨500, Body.json (JVal.obj
        [("error", JVal.str "p.name.toLowerCase is not a function")])⟩ ∧
    (handle ⟨some "s3cret", asciiLower⟩ "u-4" products Route.create
        { headers := [("x-api-key", "s3cret")],
          body := ReqBody.obj [("name", JVal.str "Box"), ("description", JVal.str "wood"),
            ("price", JVal.num 7), ("category", JVal.obj [("toString", JVal.num 1)]),
            ("inStock", JVal.bool true)] }).1.status = 201 ∧
    (handle ⟨some "s3cret", asciiLower⟩ "u"
        (handle ⟨some "s3cret", asciiLower⟩ "u-4" products Route.create
          { headers := [("x-api-key", "s3cret")],
            body := ReqBody.obj [("name", JVal.str "Box"), ("description", JVal.str "wood"),
              ("price", JVal.num 7), ("category", JVal.obj [("toString", JVal.num 1)]),
              ("inStock", JVal.bool true)] }).2 Route.stats
        { headers := [("x-api-key", "s3cret")] }).1 =
      ⟨500, Body.json (JVal.obj
        [("error", JVal.str "Cannot convert object to primitive value")])⟩ ∧
    (handle ⟨some "s3cret", asciiLower⟩ "u" products Route.list
        { headers := [("x-api-key", "s3cret")],
          query := [("page", JVal.obj [("toString", JVal.str "1")])] }).1 =
      ⟨500, Body.json (JVal.obj
        [("error", JVal.str "Cannot convert object to primitive value")])⟩ := by
  decide

/-- C19, amended: for every store state and every authenticated request, the handlers of
`GET /`, `GET /api/products/:id`, `POST`, `PUT` and `DELETE` run to completion with one of
the statuses 200, 201, 204, 400 and 404, and so does the search handler when every record has
a string name and the `name` query parameter is absent or a string, the stats handler when
every record's category converts to a property key, and the list handler when `page` and
`limit` convert to strings (as an absent value and a string do).  These three handlers then do
not throw, so the 500 branch of the error handler is not reached.  The initial collection has
string names and string categories. -/
theorem no_throw_on_plain_data (env : Env) (uuid : String) (ps : Products)
    (route : Route) (req : Req)
    (hauth : authenticate env.API_KEY req = Step.next)
    (hsearch : route = Route.search →
      (∀ p ∈ ps, ∃ s : String, getField p "name" = JVal.str s) ∧
      (getField req.query "name" = JVal.undefined ∨
        ∃ t : String, getField req.query "name" = JVal.str t))
    (hstats : route = Route.stats → ∀ p ∈ ps, ∃ key : String, categoryKey p = Except.ok key)
    (hlist : route = Route.list →
      (∃ t : String, toStr (getField req.query "page") = Except.ok t) ∧
      (∃ t : String, toStr (getField req.query "limit") = Except.ok t)) :
    (handle env uuid ps route req).1.status ∈ [200, 201, 204, 400, 404] ∧
      (route = Route.search → ∃ res : Response, searchProducts env ps req = Except.ok res) ∧
      (route = Route.stats → ∃ res : Response, statsProducts ps = Except.ok res) ∧
      (route = Route.list → ∃ res : Response, getProducts ps req = Except.ok res) ∧
      toStr JVal.undefined = Except.ok "undefined" ∧
      (∀ s : String, toStr (JVal.str s) = Except.ok s) ∧
      (∀ p ∈ products, ∃ s : String, getField p "name" = JVal.str s) ∧
      (∀ p ∈ products, ∃ s : String, getField p "category" = JVal.str s) := by
  have hvals : ∀ k v, lookupField ([] : Obj) k = some v →
      (∃ n : Int, v = JVal.num n) ∨ ∃ s : String, v = JVal.str s := by
    intro k v h
    simp [lookupField] at h
  refine ⟨?_, ?_, ?_, ?_, rfl, fun s => rfl, ?_, ?_⟩
  · rw [handle_of_next _ _ _ _ _ hauth]
    cases route with
    | root => simp [runHandler, rootHandler]
    | list =>
      obtain ⟨hp, hl⟩ := hlist rfl
      obtain ⟨result, hres⟩ := getProducts_ok ps req hp hl
      simp [runHandler, hres]
    | search =>
      obtain ⟨hnames, hquery⟩ := hsearch rfl
      obtain ⟨result, hres⟩ := searchProducts_ok env ps req hnames hquery
      simp [runHandler, hres]
    | stats =>
      obtain ⟨result, hres⟩ := statsFrom_ok ps [] (hstats rfl) hvals
      simp [runHandler, statsProducts, statsOf, hres]
    | getById =>
      simp only [runHandler, getProductById]
      cases List.find? (hasId req.params.id) ps <;> simp [notFound]
    | create =>
      simp only [runHandler, postProduct]
      split <;> simp [invalidFields]
    | update =>
      simp only [runHandler, putProduct]
      cases findIndex (hasId req.params.id) ps <;> simp [notFound]
    | delete =>
      simp only [runHandler, deleteProduct]
      cases findIndex (hasId req.params.id) ps <;> simp [notFound]
  · intro hr
    obtain ⟨hnames, hquery⟩ := hsearch hr
    obtain ⟨result, hres⟩ := searchProducts_ok env ps req hnames hquery
    exact ⟨_, hres⟩
  · intro hr
    obtain ⟨result, hres⟩ := statsFrom_ok ps [] (hstats hr) hvals
    exact ⟨⟨200, Body.json (JVal.obj result)⟩, by simp only [statsProducts, statsOf, hres]⟩
  · intro hr
    obtain ⟨hp, hl⟩ := hlist hr
    obtain ⟨result, hres⟩ := getProducts_ok ps req hp hl
    exact ⟨_, hres⟩
  · intro p hp
    simp only [products, List.mem_cons, List.mem_singleton, List.not_mem_nil, or_false] at hp
    rcases hp with rfl | rfl | rfl
    · exact ⟨"Laptop", rfl⟩
    · exact ⟨"Smartphone", rfl⟩
    · exact ⟨"Coffee Maker", rfl⟩
  · intro p hp
    simp only [products, List.mem_cons, List.mem_singleton, List.not_mem_nil, or_false] at hp
    rcases hp with rfl | rfl | rfl
    · exact ⟨"electronics", rfl⟩
    · exact ⟨"electronics", rfl⟩
    · exact ⟨"kitchen", rfl⟩

theorem no_throw_on_plain_data_witness :
    (handle ⟨some "s3cret", asciiLower⟩ "u" products Route.search
        { headers := [("x-api-key", "s3cret")] }).1.status ∈ [200, 201, 204, 400, 404] ∧
    (handle ⟨some "s3cret", asciiLower⟩ "u" products Route.stats
        { headers := [("x-api-key", "s3cret")] }).1.status ∈ [200, 201, 204, 400, 404] ∧
    (handle ⟨some "s3cret", asciiLower⟩ "u" products Route.list
        { headers := [("x-api-key", "s3cret")],
          query := [("page", JVal.str "x")] }).1.status ∈ [200, 201, 204, 400, 404] :=
  ⟨(no_throw_on_plain_data ⟨some "s3cret", asciiLower⟩ "u" products Route.search
      { headers := [("x-api-key", "s3cret")] } (by decide)
      (fun _ => ⟨by
        intro p hp
        simp only [products, List.mem_cons, List.mem_singleton, List.not_mem_nil,
          or_false] at hp
        rcases hp with rfl | rfl | rfl
        · exact ⟨"Laptop", rfl⟩
        · exact ⟨"Smartphone", rfl⟩
        · exact ⟨"Coffee Maker", rfl⟩, Or.inl (by decide)⟩)
      (fun h => by cases h) (fun h => by cases h)).1,
    (no_throw_on_plain_data ⟨some "s3cret", asciiLower⟩ "u" products Route.stats
      { headers := [("x-api-key", "s3cret")] } (by decide) (fun h => by cases h)
      (fun _ => by
        intro p hp
        simp only [products, List.mem_cons, List.mem_singleton, List.not_mem_nil,
          or_false] at hp
        rcases hp with rfl | rfl | rfl
        · exact ⟨"electronics", rfl⟩
        · exact ⟨"electronics", rfl⟩
        · exact ⟨"kitchen", rfl⟩)
      (fun h => by cases h)).1,
    (no_throw_on_plain_data ⟨some "s3cret", asciiLower⟩ "u" products Route.list
      { headers := [("x-api-key", "s3cret")], query := [("page", JVal.str "x")] }
      (by decide) (fun h => by cases h) (fun h => by cases h)
      (fun _ => ⟨⟨"x", rfl⟩, ⟨"undefined", rfl⟩⟩)).1⟩

end Server
